import Mathlib

/-!
# duit: the widget-tree walkers of `kids.go` and three leaves

A shallow embedding of the tree-walking functions of `src/kids.go`
(`kidsLayout`, `kidsDraw`, `propagateResult`, `kidsMouse`, `kidsKey`,
`kidsMark`, `kidsFirstFocus`, `kidsFocus`, `propagateEvent`), of
`Label.Layout`, `Radiobutton.Layout` and `Radiobutton.check`, and of
`Field.fixCursor`, `Field.cursor0`, `Field.selection0` and
`expandSelection` of `src/field.go`, and theorems about them.

Modelling choices.

* Go `int` is a 64 bit machine integer: coordinates are `Int` and every
  addition and subtraction of `image.Point` wraps with `wrapInt`.
* A `*Kid` is modelled by its value; a function that mutates a Kid returns
  the new value. The container's own Kid (`self`) and the Kids of its
  `kids` slice are distinct objects (the widgets form a tree).
* The widgets behind the `UI` interface are not part of `kids.go`. Their
  private data lives in a node store of an arbitrary type `S`, and their
  methods are the fields of `Methods S`: a method reads and writes the
  store and the one Kid it is handed, nothing else of the container.
* A walker records the calls it makes on its children and the fills it
  makes on the image in a trace (`List Ev`), in program order.
* `panic` is an outcome of its own (`Outcome.panic`), carrying the state
  at the moment of the abort.
-/

namespace Duit

/-! ## Geometry (`image.Point`, `image.Rectangle`) -/

/-- Two's complement wraparound of a Go `int` (64 bit). -/
def wrapInt (x : Int) : Int := (x + 2 ^ 63) % 2 ^ 64 - 2 ^ 63

/-- The Go type `image.Point`. -/
structure Point where
  X : Int
  Y : Int
  deriving DecidableEq, Repr

/-- The Go type `image.Rectangle`. -/
structure Rectangle where
  Min : Point
  Max : Point
  deriving DecidableEq, Repr

/-- The zero point `image.ZP`. -/
def ZP : Point := ⟨0, 0⟩

/-- Go `image.Point.Add`. -/
def Point.Add (p q : Point) : Point := ⟨wrapInt (p.X + q.X), wrapInt (p.Y + q.Y)⟩

/-- Go `image.Point.Sub`. -/
def Point.Sub (p q : Point) : Point := ⟨wrapInt (p.X - q.X), wrapInt (p.Y - q.Y)⟩

/-- Go `image.Point.In`: the rectangle contains its min corner, not its max corner. -/
def Point.In (p : Point) (r : Rectangle) : Bool :=
  decide (r.Min.X ≤ p.X) && decide (p.X < r.Max.X) &&
    decide (r.Min.Y ≤ p.Y) && decide (p.Y < r.Max.Y)

/-- Go `image.Rectangle.Size`. -/
def Rectangle.Size (r : Rectangle) : Point :=
  ⟨wrapInt (r.Max.X - r.Min.X), wrapInt (r.Max.Y - r.Min.Y)⟩

/-- Go `image.Rectangle.Add`. -/
def Rectangle.Add (r : Rectangle) (p : Point) : Rectangle := ⟨r.Min.Add p, r.Max.Add p⟩

/-- Modelled from the spec: the helper `rect` is not under src/; it is the
rectangle of the given size at the origin ("the container's own full
background rectangle" is `rect(uiSize).Add(orig)`). -/
def rect (p : Point) : Rectangle := ⟨ZP, p⟩

/-! ## Data model -/

/-- Modelled from the spec: the declaration of `State` is not under src/.
The tri-state dirty marker of the spec's data model. -/
inductive State where
  | Clean
  | Dirty
  | DirtyKid
  deriving DecidableEq, Repr

/-- A value of the Go interface type `UI`: the identity of a node. Two
interface values are `==` when they are the same node. -/
structure UI where
  ptr : Nat
  deriving DecidableEq, Repr

/-- The Go struct `Kid` (kids.go). -/
structure Kid where
  UI : Duit.UI
  R : Rectangle
  Draw : State
  Layout : State
  deriving DecidableEq, Repr

/-- The struct `draw.Mouse` of the drawing library. -/
structure Mouse where
  Point : Duit.Point
  Buttons : Int
  Msec : Nat
  deriving DecidableEq, Repr

/-- Modelled from the spec: the declaration of `Result` is not under src/.
"Whether the event was consumed, whether geometry must be recomputed,
whether a redraw is needed, which node was hit, and an optional
cursor-warp target point." `kids.go` reads and writes `Hit`, `Consumed`
and `Warp`. -/
structure Result where
  Hit : Option UI := none
  Consumed : Bool := false
  Warp : Option Point := none
  Layout : Bool := false
  Redraw : Bool := false
  deriving DecidableEq, Repr

/-- Modelled from the spec: the declaration of `Event` is not under src/.
The fields `propagateEvent` reads. -/
structure Event where
  Consumed : Bool := false
  NeedLayout : Bool := false
  NeedDraw : Bool := false
  deriving DecidableEq, Repr

/-- Modelled from the spec: the declaration of `DUI` is not under src/.
The fields of the visual context that `kidsDraw` reads; images are named by
a number. -/
structure DUI where
  DebugKids : Bool
  Background : Nat
  debugColors : List Nat
  deriving DecidableEq, Repr

/-- The methods of the Go interface `UI` that `kids.go` calls, as functions
of the node store `S`. The first argument is the receiver. `Draw` paints on
the image; what it paints is recorded in the trace as the call itself.
`FirstFocus` and `Focus` take no Kid and are queries of the store. -/
structure Methods (S : Type) where
  Layout : UI → DUI → S → Kid → Point → Bool → S × Kid
  Draw : UI → DUI → S → Kid → Point → Mouse → Bool → S × Kid
  Mouse : UI → DUI → S → Kid → Mouse → Mouse → Point → S × Kid × Result
  Key : UI → DUI → S → Kid → Int → Duit.Mouse → Point → S × Kid × Result
  FirstFocus : UI → DUI → S → Option Point
  Focus : UI → DUI → S → UI → Option Point
  Mark : UI → S → Kid → UI → Bool → State → S × Kid × Bool

/-- One call of a method of a child, with the Kid handed to it and what
came back. -/
inductive Call where
  | Layout (k : Kid) (sizeAvail : Point) (force : Bool) (after : Kid)
  | Draw (k : Kid) (orig : Point) (m : Mouse) (force : Bool)
  | Mouse (k : Kid) (m origM : Mouse) (orig : Point) (r : Result)
  | Key (k : Kid) (key : Int) (m : Mouse) (orig : Point) (r : Result)
  | FirstFocus (first : Option Point)
  | Focus (o : UI) (p : Option Point)
  | Mark (k : Kid) (o : UI) (forLayout : Bool) (state : State) (marked : Bool)
  deriving DecidableEq, Repr

/-- One entry of a walker's trace: a call on the child at index `i` of the
`kids` slice, or `img.Draw(r, src, nil, image.ZP)`. -/
inductive Ev where
  | kid (i : Nat) (c : Call)
  | imgDraw (r : Rectangle) (src : Nat)
  deriving DecidableEq, Repr

/-- How a function ends: it returns `a` in state `st`, or it panics in state `st`. -/
inductive Outcome (σ α : Type) where
  | ret (st : σ) (a : α)
  | panic (st : σ) (msg : String)
  deriving DecidableEq, Repr

/-- The state a function ended in. -/
def Outcome.st {σ α : Type} : Outcome σ α → σ
  | .ret st _ => st
  | .panic st _ => st

/-- The value a function returned, if it returned. -/
def Outcome.val {σ α : Type} : Outcome σ α → Option α
  | .ret _ a => some a
  | .panic _ _ => none

/-- Whether the function returned normally. -/
def Outcome.returns {σ α : Type} : Outcome σ α → Bool
  | .ret _ _ => true
  | .panic _ _ => false

/-- The state of a walker over a container: the node store, the
container's own Kid, its children, and the trace so far. -/
structure Walk (S : Type) where
  ui : S
  self : Kid
  kids : List Kid
  trace : List Ev

/-- The state of `propagateResult`: the node store, the parent's Kid, the
child's Kid, and the calls made on the child. -/
structure Prop2 (S : Type) where
  ui : S
  self : Kid
  k : Kid
  calls : List Call

/-! ## The walkers of kids.go -/

/-- The method `(k *Kid) Mark` of kids.go, lines 16-26. -/
def Kid.Mark (k : Kid) (o : Duit.UI) (forLayout : Bool) (state : State) : Kid × Bool :=
  if o ≠ k.UI then (k, false)
  else if forLayout then ({ k with Layout := state }, true)
  else ({ k with Draw := state }, true)

/-- The loop of `kidsLayout` (kids.go, lines 52-69) over the children not
yet visited, `rest`; `pre` are the children already visited. -/
def kidsLayoutLoop {S : Type} (ui : Methods S) (dui : DUI) :
    List Kid → S → Kid → List Kid → List Ev → Outcome (Walk S) Bool
  | [], s, self, pre, tr =>
    .ret ⟨s, { self with Layout := .Clean, Draw := .Dirty }, pre, tr⟩ true
  | k :: rest, s, self, pre, tr =>
    if k.Layout = .Clean then
      kidsLayoutLoop ui dui rest s self (pre ++ [k]) tr
    else
      let res := ui.Layout k.UI dui s k k.R.Size false
      let tr1 := tr ++ [Ev.kid pre.length (Call.Layout k k.R.Size false res.2)]
      match res.2.Layout with
      | .Dirty =>
        .ret ⟨res.1, { self with Layout := .Dirty, Draw := .Dirty }, pre ++ res.2 :: rest, tr1⟩
          false
      | .DirtyKid =>
        .panic ⟨res.1, self, pre ++ res.2 :: rest, tr1⟩
          "layout of kid results in kid.Layout = DirtKid"
      | .Clean => kidsLayoutLoop ui dui rest res.1 self (pre ++ [res.2]) tr1

/-- The function `kidsLayout` of kids.go, lines 38-70. -/
def kidsLayout {S : Type} (ui : Methods S) (dui : DUI) (s : S) (self : Kid)
    (kids : List Kid) (force : Bool) : Outcome (Walk S) Bool :=
  if force then
    .ret ⟨s, { self with Layout := .Clean, Draw := .Dirty }, kids, []⟩ false
  else
    match self.Layout with
    | .Clean => .ret ⟨s, self, kids, []⟩ true
    | .Dirty => .ret ⟨s, { self with Layout := .Clean, Draw := .Dirty }, kids, []⟩ false
    | .DirtyKid => kidsLayoutLoop ui dui kids s self [] []

/-- The function `propagateResult` of kids.go, lines 104-125. The layout
runs on the copy `nk` of `*k`, so of what it does to the Kid only the size
of `nk.R` is looked at; what it does to the node store stays. -/
def propagateResult {S : Type} (ui : Methods S) (dui : DUI) (s : S) (self k : Kid) :
    Outcome (Prop2 S) Unit :=
  if k.Layout ≠ .Clean then
    if k.Layout = .DirtyKid then
      .panic ⟨s, self, k, []⟩ "kid propagated layout kids"
    else
      let res := ui.Layout k.UI dui s k k.R.Size false
      let nk := res.2
      let calls := [Call.Layout k k.R.Size false nk]
      if nk.R.Size ≠ k.R.Size then
        .ret ⟨res.1, { self with Layout := .Dirty }, k, calls⟩ ()
      else
        let _nk := { nk with R := nk.R.Add k.R.Min }
        .ret ⟨res.1, { self with Layout := .Clean, Draw := .DirtyKid },
          { k with Layout := .Clean, Draw := .Dirty }, calls⟩ ()
  else if k.Draw ≠ .Clean then
    .ret ⟨s, { self with Draw := .DirtyKid }, k, []⟩ ()
  else
    .ret ⟨s, self, k, []⟩ ()

/-- The loop of `kidsDraw` (kids.go, lines 83-100) over the children not yet
visited; `force` is the combined flag. In diagnostic mode (`dui.DebugKids`)
the index `i%len(dui.debugColors)` panics when there is no debug colour. -/
def kidsDrawLoop {S : Type} (ui : Methods S) (dui : DUI) (orig : Point) (m : Mouse)
    (force : Bool) : List Kid → S → Kid → List Kid → List Ev → Outcome (Walk S) Unit
  | [], s, self, pre, tr => .ret ⟨s, { self with Draw := .Clean }, pre, tr⟩ ()
  | k :: rest, s, self, pre, tr =>
    if !force && k.Draw = .Clean then
      kidsDrawLoop ui dui orig m force rest s self (pre ++ [k]) tr
    else if dui.DebugKids && dui.debugColors.length = 0 then
      .panic ⟨s, self, pre ++ k :: rest, tr⟩ "integer divide by zero"
    else
      let tr1 :=
        if dui.DebugKids then
          tr ++ [Ev.imgDraw (k.R.Add orig)
            (dui.debugColors.getD (pre.length % dui.debugColors.length) 0)]
        else if !force && k.Draw = .Dirty then
          tr ++ [Ev.imgDraw (k.R.Add orig) dui.Background]
        else tr
      let mm := { m with Point := m.Point.Sub k.R.Min }
      let k1 := if force then { k with Draw := .Dirty } else k
      let res := ui.Draw k1.UI dui s k1 (orig.Add k1.R.Min) mm force
      let k2 := { res.2 with Draw := .Clean }
      kidsDrawLoop ui dui orig m force rest res.1 self (pre ++ [k2])
        (tr1 ++ [Ev.kid pre.length (Call.Draw k1 (orig.Add k1.R.Min) mm force)])

/-- The function `kidsDraw` of kids.go, lines 72-102. `dui.debugDraw` only
writes to the diagnostic log and is left out, and with it `name`. -/
def kidsDraw {S : Type} (ui : Methods S) (dui : DUI) (s : S) (self : Kid)
    (kids : List Kid) (uiSize : Point) (orig : Point) (m : Mouse) (force : Bool) :
    Outcome (Walk S) Unit :=
  let force := force || self.Draw = .Dirty
  let self1 := if force then { self with Draw := .Dirty } else self
  let tr := if force then [Ev.imgDraw ((rect uiSize).Add orig) dui.Background] else []
  kidsDrawLoop ui dui orig m force kids s self1 [] tr

/-- The body of the loop of `kidsMouse` for the child `k` that is hit
(kids.go, lines 132-139); `pre` and `rest` are the children before and
after it. -/
def kidsMouseHit {S : Type} (ui : Methods S) (dui : DUI) (m origM : Mouse) (orig : Point)
    (s : S) (self : Kid) (pre : List Kid) (k : Kid) (rest : List Kid) :
    Outcome (Walk S) Result :=
  let origM1 := { origM with Point := origM.Point.Sub k.R.Min }
  let m1 := { m with Point := m.Point.Sub k.R.Min }
  let res := ui.Mouse k.UI dui s k m1 origM1 orig
  let k1 := res.2.1
  let r := res.2.2
  let r1 := if r.Hit = none then { r with Hit := some k1.UI } else r
  let ev := Ev.kid pre.length (Call.Mouse k m1 origM1 orig r)
  match propagateResult ui dui res.1 self k1 with
  | .ret p _ =>
    .ret ⟨p.ui, p.self, pre ++ p.k :: rest, ev :: p.calls.map (Ev.kid pre.length)⟩ r1
  | .panic p msg =>
    .panic ⟨p.ui, p.self, pre ++ p.k :: rest, ev :: p.calls.map (Ev.kid pre.length)⟩ msg

/-- The loop of `kidsMouse` (kids.go, lines 128-141). -/
def kidsMouseLoop {S : Type} (ui : Methods S) (dui : DUI) (m origM : Mouse) (orig : Point) :
    List Kid → S → Kid → List Kid → Outcome (Walk S) Result
  | [], s, self, pre => .ret ⟨s, self, pre, []⟩ {}
  | k :: rest, s, self, pre =>
    if !origM.Point.In k.R then
      kidsMouseLoop ui dui m origM orig rest s self (pre ++ [k])
    else
      kidsMouseHit ui dui m origM orig s self pre k rest

/-- The function `kidsMouse` of kids.go, lines 127-142. -/
def kidsMouse {S : Type} (ui : Methods S) (dui : DUI) (s : S) (self : Kid)
    (kids : List Kid) (m origM : Mouse) (orig : Point) : Outcome (Walk S) Result :=
  kidsMouseLoop ui dui m origM orig kids s self []

/-- The inner loop of `kidsKey` (kids.go, lines 152-161) over the siblings
from index `next` on: the warp point of the first sibling with a
`FirstFocus`, and the queries made. -/
def kidsKeyNext {S : Type} (ui : Methods S) (dui : DUI) (s : S) (orig : Point) :
    Nat → List Kid → Option Point × List Ev
  | _, [] => (none, [])
  | next, k :: rest =>
    match ui.FirstFocus k.UI dui s with
    | some first =>
      let kR := k.R
      (some ((first.Add orig).Add kR.Min), [Ev.kid next (Call.FirstFocus (some first))])
    | none =>
      let res := kidsKeyNext ui dui s orig (next + 1) rest
      (res.1, Ev.kid next (Call.FirstFocus none) :: res.2)

/-- The tab character, Go `'\t'`. -/
def tab : Int := 9

/-- The body of the loop of `kidsKey` for the child `k` under the pointer
(kids.go, lines 149-167); `pre` and `rest` are the children before and
after it. -/
def kidsKeyHit {S : Type} (ui : Methods S) (dui : DUI) (key : Int) (m : Mouse)
    (orig : Point) (s : S) (self : Kid) (pre : List Kid) (k : Kid) (rest : List Kid) :
    Outcome (Walk S) Result :=
  let m1 := { m with Point := m.Point.Sub k.R.Min }
  let res := ui.Key k.UI dui s k key m1 (orig.Add k.R.Min)
  let k1 := res.2.1
  let r := res.2.2
  let ev := Ev.kid pre.length (Call.Key k key m1 (orig.Add k.R.Min) r)
  let scan :=
    if !r.Consumed && key = tab then kidsKeyNext ui dui res.1 orig (pre.length + 1) rest
    else (none, [])
  let r1 :=
    match scan.1 with
    | some p => { r with Warp := some p, Consumed := true }
    | none => r
  let r2 := if r1.Hit = none then { r1 with Hit := some self.UI } else r1
  match propagateResult ui dui res.1 self k1 with
  | .ret p _ =>
    .ret ⟨p.ui, p.self, pre ++ p.k :: rest,
      ev :: scan.2 ++ p.calls.map (Ev.kid pre.length)⟩ r2
  | .panic p msg =>
    .panic ⟨p.ui, p.self, pre ++ p.k :: rest,
      ev :: scan.2 ++ p.calls.map (Ev.kid pre.length)⟩ msg

/-- The loop of `kidsKey` (kids.go, lines 145-169). -/
def kidsKeyLoop {S : Type} (ui : Methods S) (dui : DUI) (key : Int) (m : Mouse)
    (orig : Point) : List Kid → S → Kid → List Kid → Outcome (Walk S) Result
  | [], s, self, pre => .ret ⟨s, self, pre, []⟩ {}
  | k :: rest, s, self, pre =>
    if !m.Point.In k.R then
      kidsKeyLoop ui dui key m orig rest s self (pre ++ [k])
    else
      kidsKeyHit ui dui key m orig s self pre k rest

/-- The function `kidsKey` of kids.go, lines 144-170. -/
def kidsKey {S : Type} (ui : Methods S) (dui : DUI) (s : S) (self : Kid)
    (kids : List Kid) (key : Int) (m : Mouse) (orig : Point) : Outcome (Walk S) Result :=
  kidsKeyLoop ui dui key m orig kids s self []

/-- The loop of `kidsMark` (kids.go, lines 204-220). -/
def kidsMarkLoop {S : Type} (ui : Methods S) (o : UI) (forLayout : Bool) (state : State) :
    List Kid → S → Kid → List Kid → List Ev → Walk S × Bool
  | [], s, self, pre, tr => (⟨s, self, pre, tr⟩, false)
  | k :: rest, s, self, pre, tr =>
    let res := ui.Mark k.UI s k o forLayout state
    let marked := res.2.2
    let tr1 := tr ++ [Ev.kid pre.length (Call.Mark k o forLayout state marked)]
    if !marked then
      kidsMarkLoop ui o forLayout state rest res.1 self (pre ++ [res.2.1]) tr1
    else
      let self1 :=
        if forLayout then
          if self.Layout = .Clean then { self with Layout := .DirtyKid } else self
        else
          if self.Draw = .Clean then { self with Draw := .DirtyKid } else self
      (⟨res.1, self1, pre ++ res.2.1 :: rest, tr1⟩, true)

/-- The function `kidsMark` of kids.go, lines 200-221. -/
def kidsMark {S : Type} (ui : Methods S) (s : S) (self : Kid) (kids : List Kid) (o : UI)
    (forLayout : Bool) (state : State) : Walk S × Bool :=
  let own := self.Mark o forLayout state
  if own.2 then (⟨s, own.1, kids, []⟩, true)
  else kidsMarkLoop ui o forLayout state kids s own.1 [] []

/-- Whether a trace entry is a call of a child's `Mouse`. -/
def Ev.isMouse : Ev → Bool
  | .kid _ (.Mouse _ _ _ _ _) => true
  | _ => false

/-- The Kid a child's `Layout` call left behind, for a trace entry that is
such a call. -/
def Ev.layoutAfter : Ev → Option Kid
  | .kid _ (.Layout _ _ _ after) => some after
  | _ => none

/-- The Kids that the `Layout` calls of a trace left behind, in order. -/
def layoutResults (tr : List Ev) : List Kid := tr.filterMap Ev.layoutAfter

/-- What a child's `Mark` call reported, for a trace entry that is such a call. -/
def Ev.markResult : Ev → Option Bool
  | .kid _ (.Mark _ _ _ _ marked) => some marked
  | _ => none

/-- What the `Mark` calls of a trace reported, in order. -/
def markResults (tr : List Ev) : List Bool := tr.filterMap Ev.markResult

/-! ## A small widget set for the examples -/

/-- A leaf in the manner of `Radiobutton`: `Layout` sets `self.R` to a
rectangle of fixed size at the origin, `Mouse` marks the Kid for drawing,
`Key` consumes the space character, `Mark` is `self.Mark`. Nodes with an
odd identity accept focus at `image.ZP`, nodes with an even one do not
(as `Label`). -/
def demo : Methods Unit where
  Layout := fun _ _ s self _ _ => (s, { self with R := rect ⟨18, 19⟩ })
  Draw := fun _ _ s self _ _ _ => (s, self)
  Mouse := fun _ _ s self _ _ _ => (s, { self with Draw := .Dirty }, {})
  Key := fun _ _ s self k _ _ =>
    if k = 32 then (s, { self with Draw := .Dirty }, { Consumed := true }) else (s, self, {})
  FirstFocus := fun ui _ _ => if ui.ptr % 2 = 1 then some ZP else none
  Focus := fun ui _ _ o => if o = ui then some ZP else none
  Mark := fun _ s self o forLayout state =>
    (s, (self.Mark o forLayout state).1, (self.Mark o forLayout state).2)

/-- A visual context outside diagnostic mode. -/
def demoDUI : DUI := ⟨false, 0, []⟩

/-- A Kid of node `n` with rectangle `[x0,x1) x [y0,y1)`. -/
def demoKid (n : Nat) (x0 y0 x1 y1 : Int) (draw layout : State) : Kid :=
  ⟨⟨n⟩, ⟨⟨x0, y0⟩, ⟨x1, y1⟩⟩, draw, layout⟩

/-! ## The other functions of kids.go -/

/-- The loop of `kidsFirstFocus` (kids.go, lines 176-183). -/
def kidsFirstFocusLoop {S : Type} (ui : Methods S) (dui : DUI) (s : S) :
    List Kid → Option Point
  | [] => none
  | k :: rest =>
    match ui.FirstFocus k.UI dui s with
    | some first => some (first.Add k.R.Min)
    | none => kidsFirstFocusLoop ui dui s rest

/-- The function `kidsFirstFocus` of kids.go, lines 172-184. -/
def kidsFirstFocus {S : Type} (ui : Methods S) (dui : DUI) (s : S) (kids : List Kid) :
    Option Point :=
  if kids.length = 0 then none else kidsFirstFocusLoop ui dui s kids

/-- The loop of `kidsFocus` (kids.go, lines 190-197). -/
def kidsFocusLoop {S : Type} (ui : Methods S) (dui : DUI) (s : S) (o : UI) :
    List Kid → Option Point
  | [] => none
  | k :: rest =>
    match ui.Focus k.UI dui s o with
    | some p => some (p.Add k.R.Min)
    | none => kidsFocusLoop ui dui s o rest

/-- The function `kidsFocus` of kids.go, lines 186-198. -/
def kidsFocus {S : Type} (ui : Methods S) (dui : DUI) (s : S) (kids : List Kid) (o : UI) :
    Option Point :=
  if kids.length = 0 then none else kidsFocusLoop ui dui s o kids

/-- The function `propagateEvent` of kids.go, lines 229-237: the Kid and
the Result it leaves behind. -/
def propagateEvent (self : Kid) (r : Result) (e : Event) : Kid × Result :=
  let self1 := if e.NeedLayout then { self with Layout := .Dirty } else self
  let self2 := if e.NeedDraw then { self1 with Draw := .Dirty } else self1
  (self2, { r with Consumed := e.Consumed || r.Consumed })

/-! ## The leaves: Label.Layout and Radiobutton.Layout -/

/-- Modelled from the spec: the helper `pt` is not under src/; `pt(v)` is
the point with both coordinates `v` (the size of the square of a
radiobutton). -/
def pt (v : Int) : Point := ⟨v, v⟩

/-- Modelled from the spec: the helper `maximum` is not under src/; the
larger of two ints. -/
def maximum (a b : Int) : Int := if a > b then a else b

/-- The metrics of a `draw.Font` that `Label.Layout` reads: the height of a
line and the width of a string. -/
structure Font where
  Height : Int
  StringWidth : String → Int

/-- The fields of the Go struct `Label` (label.go) that `Layout` reads and
writes. `Text` is valid UTF-8. -/
structure Label where
  Text : String
  lines : List String
  size : Point

/-- The local variables of `Label.Layout` during its loop. -/
structure LabelVars where
  lines : List String
  s : Nat
  x : Int
  xmax : Int

/-- The loop of `Label.Layout` (label.go, lines 33-50) over the runes not
yet read, the next one at byte offset `i` of `text`. -/
def Label.layoutLoop (text : String) (font : Font) (sizeAvail : Point) :
    List Char → Nat → LabelVars → LabelVars
  | [], _, v => v
  | c :: cs, i, v =>
    if c = Char.ofNat 10 then
      Label.layoutLoop text font sizeAvail cs (i + c.utf8Size)
        { xmax := maximum v.xmax v.x, lines := v.lines ++ [text.extract ⟨v.s⟩ ⟨i⟩],
          s := i + 1, x := 0 }
    else
      let dx := font.StringWidth (String.singleton c)
      let x := wrapInt (v.x + dx)
      if (i : Int) - (v.s : Int) = 0 ∨ x ≤ sizeAvail.X then
        Label.layoutLoop text font sizeAvail cs (i + c.utf8Size) { v with x := x }
      else
        Label.layoutLoop text font sizeAvail cs (i + c.utf8Size)
          { xmax := maximum v.xmax (wrapInt (x - dx)),
            lines := v.lines ++ [text.extract ⟨v.s⟩ ⟨i⟩], s := i, x := dx }

/-- The method `Label.Layout` of label.go, lines 25-57, with the font
`ui.font(dui)` as an argument: the Label and the Kid it leaves behind.
`dui.debugLayout` only writes to the diagnostic log and is left out. -/
def Label.Layout (ui : Label) (font : Font) (self : Kid) (sizeAvail : Point)
    (_force : Bool) : Label × Kid :=
  let v := Label.layoutLoop ui.Text font sizeAvail ui.Text.data 0 ⟨[], 0, 0, 0⟩
  let v1 :=
    if v.s < ui.Text.utf8ByteSize ∨ v.s = 0 then
      { v with lines := v.lines ++ [ui.Text.extract ⟨v.s⟩ ⟨ui.Text.utf8ByteSize⟩],
               xmax := maximum v.xmax v.x }
    else v
  let size : Point := ⟨v1.xmax, wrapInt ((v1.lines.length : Int) * font.Height)⟩
  ({ ui with lines := v1.lines, size := size }, { self with R := rect size })

/-- The method `Radiobutton.Layout` of radiobutton.go, lines 21-27, with the
constant `BorderSize` and the height of `dui.Display.DefaultFont` as
arguments; it reads and writes no field of the Radiobutton. Go's `/`
truncates. `dui.debugLayout` only writes to the diagnostic log and is left
out. -/
def Radiobutton.Layout (BorderSize fontHeight : Int) (self : Kid) (_sizeAvail : Point)
    (_force : Bool) : Kid :=
  let hit : Point := ⟨0, 1⟩
  let size := (pt (wrapInt (wrapInt (2 * BorderSize) +
    Int.tdiv (wrapInt (4 * fontHeight)) 5))).Add hit
  { self with R := rect size }

/-! ## Reading a trace -/

/-- The call a trace entry makes on the child at index `i`, if it is one. -/
def Ev.callAt (i : Nat) : Ev → Option Call
  | .kid j c => if j = i then some c else none
  | .imgDraw _ _ => none

/-- The calls of a trace on the child at index `i`, in order. -/
def callsAt (i : Nat) (tr : List Ev) : List Call := tr.filterMap (Ev.callAt i)

/-- The log that the spec describes for the children of a draw pass outside
diagnostic mode, `i` being the index of the first of `kids` and `force` the
combined flag: a child is skipped when the pass is not forced and its draw
marker is Clean; otherwise its old rectangle is first filled with the
background when the pass is not forced and its marker is Dirty, and then
its Draw is called with the combined flag and the pointer in its frame
(the Kid handed to it has its draw marker set to Dirty under force, as
kids.go line 96 does). -/
def drawLogKids (dui : DUI) (orig : Point) (m : Mouse) (force : Bool) :
    Nat → List Kid → List Ev
  | _, [] => []
  | i, k :: rest =>
    (if !force && k.Draw = .Clean then []
      else
        (if !force && k.Draw = .Dirty then [Ev.imgDraw (k.R.Add orig) dui.Background]
          else []) ++
        [Ev.kid i (Call.Draw (if force then { k with Draw := .Dirty } else k)
          (orig.Add k.R.Min) { m with Point := m.Point.Sub k.R.Min } force)]) ++
    drawLogKids dui orig m force (i + 1) rest

/-- The log that the spec describes for a draw pass outside diagnostic
mode: the container's full rectangle is filled with the background first
when the combined flag is set, then come the children. -/
def drawLog (dui : DUI) (kids : List Kid) (uiSize orig : Point) (m : Mouse)
    (force : Bool) : List Ev :=
  (if force then [Ev.imgDraw ((rect uiSize).Add orig) dui.Background] else []) ++
    drawLogKids dui orig m force 0 kids

/-- A font for the examples: lines are 10 high and every rune is 7 wide. -/
def demoFont : Font := ⟨10, fun str => 7 * str.length⟩

/-! ## Radiobutton.check -/

/-- The Go struct `Radiobutton` (radiobutton.go, lines 9-17). A
`*Radiobutton` is an address, and `Group` holds the addresses of the
members of the group; pointers are not nil. `Value` has type `V`. A
`Changed` callback is user code: it is handed the value and the Result, and
it reads and writes those and data `W` of its own, not the radiobuttons. -/
structure Radiobutton (V W : Type) where
  Selected : Bool
  Value : V
  Disabled : Bool
  Group : List Nat
  Changed : Option (V → Result → W → Result × W)
  m : Mouse

/-- What `Radiobutton.check` leaves behind: the radiobuttons by address, the
Result, the data of the callbacks, and the `Changed` callbacks it invoked,
each with the address of its radiobutton and the value handed to it. -/
structure CheckOut (V W : Type) where
  heap : Nat → Radiobutton V W
  r : Result
  w : W
  invoked : List (Nat × V)

/-- The loop of `Radiobutton.check` (radiobutton.go, lines 66-70) over the
members of the group not yet visited. -/
def Radiobutton.checkLoop {V W : Type} (ui : Nat) :
    List Nat → (Nat → Radiobutton V W) → (Nat → Radiobutton V W)
  | [], heap => heap
  | r :: rest, heap =>
    if r ≠ ui then
      Radiobutton.checkLoop ui rest
        (fun a => if a = r then { heap r with Selected := false } else heap a)
    else
      Radiobutton.checkLoop ui rest heap

/-- The method `Radiobutton.check` of radiobutton.go, lines 64-74, on the
radiobutton at address `ui`. -/
def Radiobutton.check {V W : Type} (heap : Nat → Radiobutton V W) (ui : Nat) (r : Result)
    (w : W) : CheckOut V W :=
  let heap1 : Nat → Radiobutton V W :=
    fun a => if a = ui then { heap ui with Selected := true } else heap a
  let heap2 := Radiobutton.checkLoop ui (heap1 ui).Group heap1
  match (heap2 ui).Changed with
  | some changed =>
    let res := changed (heap2 ui).Value r w
    ⟨heap2, res.1, res.2, [(ui, (heap2 ui).Value)]⟩
  | none => ⟨heap2, r, w, []⟩

/-- Three radiobuttons at the addresses 1, 2 and 3, in one group, with the
values 10, 20 and 30; the second is selected. The `Changed` of each counts
its calls in the data of the callbacks and consumes the event. -/
def demoRadios : Nat → Radiobutton Nat Nat :=
  fun a =>
    { Selected := decide (a = 2), Value := 10 * a, Disabled := false, Group := [1, 2, 3],
      Changed := some (fun _ r w => ({ r with Consumed := true }, w + 1)),
      m := ⟨ZP, 0, 0⟩ }

/-! ## Field: cursor and selection -/

/-- The slice `t[s:e]` of a Go string, given as the list of its bytes
(numbers below 256); `none` is the panic for bounds out of range. -/
def goSlice (t : List Nat) (s e : Int) : Option (List Nat) :=
  if 0 ≤ s ∧ s ≤ e ∧ e ≤ (t.length : Int) then
    some ((t.drop s.toNat).take (e.toNat - s.toNat))
  else none

/-- The byte `t[k]` of a Go string; `none` is the panic for an index out of
range. -/
def goIndex (t : List Nat) (k : Int) : Option Nat :=
  if 0 ≤ k then t[k.toNat]? else none

/-- The fields of the Go struct `Field` (field.go, lines 14-27) that
`fixCursor`, `cursor0` and `selection0` read and write. `Text` is the list
of the bytes of the string, so `len(ui.Text)` is its length. No operation
of these methods can overflow for a `Text` shorter than 2^63-1 bytes. -/
structure Field where
  Text : List Nat
  Cursor1 : Int
  SelectionStart1 : Int
  deriving DecidableEq, Repr

/-- The method `Field.fixCursor` of field.go, lines 270-283. -/
def Field.fixCursor (ui : Field) : Field :=
  let ui1 := if ui.Cursor1 < 0 then { ui with Cursor1 := 1 } else ui
  let ui2 :=
    if ui1.Cursor1 > 1 + (ui1.Text.length : Int) then
      { ui1 with Cursor1 := 1 + (ui1.Text.length : Int) }
    else ui1
  let ui3 := if ui2.SelectionStart1 < 0 then { ui2 with SelectionStart1 := 0 } else ui2
  if ui3.SelectionStart1 - 1 > (ui3.Text.length : Int) then
    { ui3 with SelectionStart1 := (ui3.Text.length : Int) + 1 }
  else ui3

/-- The method `Field.cursor0` of field.go, lines 32-38: the index
returned and the Field left behind. -/
def Field.cursor0 (ui : Field) : Int × Field :=
  let ui1 := ui.fixCursor
  if ui1.Cursor1 = 0 then ((ui1.Text.length : Int), ui1)
  else (ui1.Cursor1 - 1, ui1)

/-- The method `Field.selection0` of field.go, lines 41-50: start, end and
text, and the Field left behind; `none` is a panic of the slice
`ui.Text[s:e]`. In `s, e := ui.cursor0(), ui.SelectionStart1-1` the call
comes first and the field is read after it. -/
def Field.selection0 (ui : Field) : Option ((Int × Int × List Nat) × Field) :=
  if ui.SelectionStart1 ≤ 0 then some ((0, 0, []), ui)
  else
    let c := ui.cursor0
    let s := c.1
    let e := c.2.SelectionStart1 - 1
    let s1 := if s > e then e else s
    let e1 := if s > e then s else e
    match goSlice c.2.Text s1 e1 with
    | some text => some ((s1, e1, text), c.2)
    | none => none

/-! ## expandSelection -/

/-- How a function with loops ends in the model: with a value, with a
panic of Go, or with the fuel of the model used up. -/
inductive Run (α : Type) where
  | ok (a : α)
  | panic (msg : String)
  | outOfFuel
  deriving DecidableEq, Repr

/-- The constant `Starts` of expandSelection, the bytes of "[{(<" and of
the double quote, the single quote and the backquote. -/
def Starts : List Nat := [91, 123, 40, 60, 34, 39, 96]

/-- The constant `Ends` of expandSelection, the bytes of "]})>" and of the
double quote, the single quote and the backquote. -/
def Ends : List Nat := [93, 125, 41, 62, 34, 39, 96]

/-- The constant `Space` of expandSelection: space, tab, carriage return,
newline, form feed. -/
def Space : List Nat := [32, 9, 13, 10, 12]

/-- Go `strings.IndexByte`: the index of the first byte `c` of `s`, or -1. -/
def IndexByte (s : List Nat) (c : Nat) : Int :=
  if c ∈ s then (s.indexOf c : Int) else -1

/-- Go `strings.ContainsAny(s, chars)` for `chars` of ASCII and `s` a slice
of one byte, as expandSelection calls it: whether the byte is one of
`chars`. -/
def ContainsAny (s chars : List Nat) : Bool := s.any (fun b => decide (b ∈ chars))

/-- The first loop of expandSelection (field.go, lines 167-181): after an
opening byte, forward from `e` to the matching closing byte. `i` is the
index given, which `s` holds. -/
def expandFwd (t : List Nat) (i : Int) (up down : Nat) : Nat → Int → Int → Run (Int × Int)
  | 0, _, _ => .outOfFuel
  | fuel + 1, e, nested =>
    if e ≥ (t.length : Int) then .ok (i, i)
    else
      match goIndex t e with
      | none => .panic "index out of range"
      | some c =>
        let nested1 := if c = down then nested - 1 else if c = up then nested + 1 else nested
        if nested1 = 0 then .ok (i, e) else expandFwd t i up down fuel (e + 1) nested1

/-- The second loop of expandSelection (field.go, lines 191-205): before a
closing byte, backward from `s` to the matching opening byte. `i` is the
index given, which `e` holds. -/
def expandBwd (t : List Nat) (i : Int) (up down : Nat) : Nat → Int → Int → Run (Int × Int)
  | 0, _, _ => .outOfFuel
  | fuel + 1, s, nested =>
    if s = 0 then .ok (i, i)
    else
      match goIndex t s with
      | none => .panic "index out of range"
      | some c =>
        let nested1 := if c = down then nested - 1 else if c = up then nested + 1 else nested
        if nested1 = 0 then .ok (s, i) else expandBwd t i up down fuel (s - 1) nested1

/-- The loop of field.go, line 221: `s` moves left while the byte before it
is to be skipped and is no bracket or quote. -/
def expandLeft (t : List Nat) (skip : Bool → Bool) : Nat → Int → Run Int
  | 0, _ => .outOfFuel
  | fuel + 1, s =>
    if s > 0 then
      match goSlice t (s - 1) s with
      | none => .panic "slice bounds out of range"
      | some sl =>
        if skip (ContainsAny sl Space) && !ContainsAny sl (Starts ++ Ends) then
          expandLeft t skip fuel (s - 1)
        else .ok s
    else .ok s

/-- The loop of field.go, line 223: `e` moves right while the byte at it is
to be skipped and is no bracket or quote. -/
def expandRight (t : List Nat) (skip : Bool → Bool) : Nat → Int → Run Int
  | 0, _ => .outOfFuel
  | fuel + 1, e =>
    if e < (t.length : Int) then
      match goSlice t e (e + 1) with
      | none => .panic "slice bounds out of range"
      | some sl =>
        if skip (ContainsAny sl Space) && !ContainsAny sl (Starts ++ Ends) then
          expandRight t skip fuel (e + 1)
        else .ok e
    else .ok e

/-- The last part of expandSelection (field.go, lines 208-225): the word,
or the run of space, around `i`. -/
def expandWord (fuel : Nat) (t : List Nat) (i : Int) : Run (Int × Int) :=
  match goSlice t (i - 1) i with
  | none => .panic "slice bounds out of range"
  | some sl =>
    let right : Run Bool :=
      if ContainsAny sl Space then
        match goSlice t i (i + 1) with
        | none => .panic "slice bounds out of range"
        | some sr => .ok (ContainsAny sr Space)
      else .ok false
    match right with
    | .panic msg => .panic msg
    | .outOfFuel => .outOfFuel
    | .ok both =>
      let skip : Bool → Bool :=
        if both then (fun isSpace => isSpace) else (fun isSpace => !isSpace)
      match expandLeft t skip fuel i with
      | .panic msg => .panic msg
      | .outOfFuel => .outOfFuel
      | .ok s =>
        match expandRight t skip fuel i with
        | .panic msg => .panic msg
        | .outOfFuel => .outOfFuel
        | .ok e => .ok (s, e)

/-- The function `expandSelection` of field.go, lines 149-226, on a string
given as the list of its bytes. Each of its loops runs on `fuel` steps at
most in the model. -/
def expandSelection (fuel : Nat) (t : List Nat) (i : Int) : Run (Int × Int) :=
  if i = 0 ∨ i = (t.length : Int) then .ok (0, (t.length : Int))
  else
    match goIndex t (i - 1) with
    | none => .panic "index out of range"
    | some b1 =>
      let index := IndexByte Starts b1
      if index ≥ 0 then
        match goIndex Starts index, goIndex Ends index with
        | some up, some down => expandFwd t i up down fuel i 1
        | _, _ => .panic "index out of range"
      else
        match goIndex t i with
        | none => .panic "index out of range"
        | some b2 =>
          let index2 := IndexByte Ends b2
          if index2 ≥ 0 then
            match goIndex Ends index2, goIndex Starts index2 with
            | some up, some down => expandBwd t i up down fuel (i - 1) 1
            | _, _ => .panic "index out of range"
          else expandWord fuel t i

/-- The bytes of "say (hello world) now", for the examples. -/
def demoText : List Nat :=
  [115, 97, 121, 32, 40, 104, 101, 108, 108, 111, 32, 119, 111, 114, 108, 100, 41, 32, 110,
    111, 119]

/-! ## Label.Layout: the measure of a line and the state of the loop -/

/-- The width of one rune, `font.StringWidth(string(c))`. -/
def Font.runeWidth (font : Font) (c : Char) : Int := font.StringWidth (String.singleton c)

/-- The width of a line: the sum of the widths of its runes. -/
def Font.lineWidth (font : Font) (l : String) : Int := (l.data.map font.runeWidth).sum

/-- The state of the loop of `Label.Layout` after the runes `before ++ cur`
of `text`, with `todo` still to read and the next rune at byte offset `i`:
`before` is what the lines made so far, with their newlines, cover, and
`cur` is the line being made. -/
structure LabelInv (text : String) (font : Font) (avail : Int) (before cur todo : List Char)
    (i : Nat) (v : LabelVars) : Prop where
  text_eq : text.data = before ++ cur ++ todo
  i_eq : i = String.utf8Len before + String.utf8Len cur
  s_eq : v.s = String.utf8Len before
  no_nl : ∀ c ∈ cur, c ≠ Char.ofNat 10
  x_eq : v.x = (cur.map font.runeWidth).sum
  cat : (v.lines.map String.data).flatten =
    before.filter (fun c => decide (c ≠ Char.ofNat 10))
  bound : ∀ l ∈ v.lines, 1 < l.length → font.lineWidth l ≤ avail
  cur_bound : 1 < cur.length → (cur.map font.runeWidth).sum ≤ avail
  xmax_ge : ∀ l ∈ v.lines, font.lineWidth l ≤ v.xmax
  xmax_nonneg : 0 ≤ v.xmax
  xmax_attained : v.xmax = 0 ∨ ∃ l ∈ v.lines, font.lineWidth l = v.xmax
  xmax_le : v.xmax ≤ (text.data.map font.runeWidth).sum
  lines_ne : before ≠ [] → v.lines ≠ []

/-- The text "hello wor", a newline, "ld!", for the examples. -/
def demoLabelText : String :=
  String.join ["hello wor", String.singleton (Char.ofNat 10), "ld!"]

/-! ## propagateResult -/

/-- C2. When the child's layout marker is Dirty on entry and re-running its
Layout (available size = its current rectangle size, force = false) gives a
rectangle of another size, propagateResult returns with the parent's layout
marker Dirty, whatever it was before. -/
theorem propagateResult_size_change {S : Type} (ui : Methods S) (dui : DUI) (s : S)
    (self k : Kid) (hk : k.Layout = .Dirty)
    (hsz : (ui.Layout k.UI dui s k k.R.Size false).2.R.Size ≠ k.R.Size) :
    (propagateResult ui dui s self k).returns = true ∧
      (propagateResult ui dui s self k).st.self.Layout = .Dirty ∧
      (propagateResult ui dui s self k).st.calls =
        [Call.Layout k k.R.Size false (ui.Layout k.UI dui s k k.R.Size false).2] := by
  simp [propagateResult, hk, hsz, Outcome.returns, Outcome.st]

/-- C2 at a concrete input: a child of size 3x3 whose Layout gives 18x19,
under a parent whose layout marker is Clean. -/
theorem propagateResult_size_change_witness :
    (demoKid 1 0 0 3 3 .Clean .Dirty).Layout = .Dirty ∧
      (demo.Layout (demoKid 1 0 0 3 3 .Clean .Dirty).UI demoDUI ()
        (demoKid 1 0 0 3 3 .Clean .Dirty) (demoKid 1 0 0 3 3 .Clean .Dirty).R.Size
        false).2.R.Size ≠ (demoKid 1 0 0 3 3 .Clean .Dirty).R.Size ∧
      (propagateResult demo demoDUI () (demoKid 0 0 0 50 50 .Clean .Clean)
        (demoKid 1 0 0 3 3 .Clean .Dirty)).returns = true ∧
      (propagateResult demo demoDUI () (demoKid 0 0 0 50 50 .Clean .Clean)
        (demoKid 1 0 0 3 3 .Clean .Dirty)).st.self.Layout = .Dirty :=
  ⟨rfl, by decide,
    (propagateResult_size_change demo demoDUI () (demoKid 0 0 0 50 50 .Clean .Clean)
      (demoKid 1 0 0 3 3 .Clean .Dirty) rfl (by decide)).1,
    (propagateResult_size_change demo demoDUI () (demoKid 0 0 0 50 50 .Clean .Clean)
      (demoKid 1 0 0 3 3 .Clean .Dirty) rfl (by decide)).2.1⟩

/-- What propagateResult does for a child whose layout marker is Clean. -/
theorem propagateResult_of_clean {S : Type} (ui : Methods S) (dui : DUI) (s : S)
    (self k : Kid) (hk : k.Layout = .Clean) :
    propagateResult ui dui s self k =
      .ret ⟨s, if k.Draw ≠ .Clean then { self with Draw := .DirtyKid } else self, k, []⟩ () := by
  unfold propagateResult
  by_cases hd : k.Draw = .Clean <;> simp [hk, hd]

/-- What propagateResult does for a child whose layout marker is Dirty. -/
theorem propagateResult_of_dirty {S : Type} (ui : Methods S) (dui : DUI) (s : S)
    (self k : Kid) (hk : k.Layout = .Dirty) :
    propagateResult ui dui s self k =
      if (ui.Layout k.UI dui s k k.R.Size false).2.R.Size ≠ k.R.Size then
        .ret ⟨(ui.Layout k.UI dui s k k.R.Size false).1, { self with Layout := .Dirty }, k,
          [Call.Layout k k.R.Size false (ui.Layout k.UI dui s k k.R.Size false).2]⟩ ()
      else
        .ret ⟨(ui.Layout k.UI dui s k k.R.Size false).1,
          { self with Layout := .Clean, Draw := .DirtyKid },
          { k with Layout := .Clean, Draw := .Dirty },
          [Call.Layout k k.R.Size false (ui.Layout k.UI dui s k k.R.Size false).2]⟩ () := by
  unfold propagateResult
  simp [hk]

/-- What propagateResult does for a child whose layout marker is DirtyKid. -/
theorem propagateResult_of_dirtyKid {S : Type} (ui : Methods S) (dui : DUI) (s : S)
    (self k : Kid) (hk : k.Layout = .DirtyKid) :
    propagateResult ui dui s self k = .panic ⟨s, self, k, []⟩ "kid propagated layout kids" := by
  unfold propagateResult
  simp [hk]

/-- C3, as stated, fails: a parent with both markers Dirty, and a child
whose layout marker is Dirty and whose re-layout keeps its size 18x19.
propagateResult returns, the parent's draw marker is DirtyKid and its
layout marker is Clean. -/
theorem propagateResult_lowers_parent :
    (demoKid 0 0 0 50 50 .Dirty .Dirty).Draw = .Dirty ∧
      (demoKid 0 0 0 50 50 .Dirty .Dirty).Layout = .Dirty ∧
      (propagateResult demo demoDUI () (demoKid 0 0 0 50 50 .Dirty .Dirty)
        (demoKid 1 0 0 18 19 .Clean .Dirty)).returns = true ∧
      (propagateResult demo demoDUI () (demoKid 0 0 0 50 50 .Dirty .Dirty)
        (demoKid 1 0 0 18 19 .Clean .Dirty)).st.self.Draw = .DirtyKid ∧
      (propagateResult demo demoDUI () (demoKid 0 0 0 50 50 .Dirty .Dirty)
        (demoKid 1 0 0 18 19 .Clean .Dirty)).st.self.Layout = .Clean := by
  decide

/-- C3, amended. For a child whose layout marker is not DirtyKid,
propagateResult returns, and: a parent draw marker that was not Clean is not
Clean afterwards; a parent layout marker that was not Clean is not Clean
afterwards when the child's layout marker was Clean or its re-layout changed
its size; and when the child's layout marker was Dirty and its re-layout
kept its size, the parent's layout marker is Clean afterwards. -/
theorem propagateResult_parent_markers {S : Type} (ui : Methods S) (dui : DUI) (s : S)
    (self k : Kid) (hk : k.Layout ≠ .DirtyKid) :
    (propagateResult ui dui s self k).returns = true ∧
      (self.Draw ≠ .Clean → (propagateResult ui dui s self k).st.self.Draw ≠ .Clean) ∧
      (self.Layout ≠ .Clean →
        (k.Layout = .Clean ∨ (ui.Layout k.UI dui s k k.R.Size false).2.R.Size ≠ k.R.Size) →
        (propagateResult ui dui s self k).st.self.Layout ≠ .Clean) ∧
      (k.Layout = .Dirty → (ui.Layout k.UI dui s k k.R.Size false).2.R.Size = k.R.Size →
        (propagateResult ui dui s self k).st.self.Layout = .Clean) := by
  cases hl : k.Layout with
  | DirtyKid => exact absurd hl hk
  | Clean =>
    rw [propagateResult_of_clean ui dui s self k hl]
    by_cases hd : k.Draw = .Clean <;> simp [hd, Outcome.returns, Outcome.st]
  | Dirty =>
    rw [propagateResult_of_dirty ui dui s self k hl]
    by_cases hsz : (ui.Layout k.UI dui s k k.R.Size false).2.R.Size = k.R.Size <;>
      simp [hsz, Outcome.returns, Outcome.st]

/-- C3, amended, at a concrete input: the parent's markers are DirtyKid
(draw) and Dirty (layout), the child's layout marker is Clean and its draw
marker Dirty. -/
theorem propagateResult_parent_markers_witness :
    (demoKid 1 0 0 18 19 .Dirty .Clean).Layout ≠ .DirtyKid ∧
      (propagateResult demo demoDUI () (demoKid 0 0 0 50 50 .DirtyKid .Dirty)
        (demoKid 1 0 0 18 19 .Dirty .Clean)).st.self.Draw ≠ .Clean ∧
      (propagateResult demo demoDUI () (demoKid 0 0 0 50 50 .DirtyKid .Dirty)
        (demoKid 1 0 0 18 19 .Dirty .Clean)).st.self.Layout ≠ .Clean :=
  ⟨by decide,
    (propagateResult_parent_markers demo demoDUI () (demoKid 0 0 0 50 50 .DirtyKid .Dirty)
      (demoKid 1 0 0 18 19 .Dirty .Clean) (by decide)).2.1 (by decide),
    (propagateResult_parent_markers demo demoDUI () (demoKid 0 0 0 50 50 .DirtyKid .Dirty)
      (demoKid 1 0 0 18 19 .Dirty .Clean) (by decide)).2.2.1 (by decide) (Or.inl rfl)⟩

/-- C10. When the child's layout marker is Dirty on entry and re-running
its Layout gives a rectangle of the same size, propagateResult returns with
the child's layout marker Clean, the child's draw marker Dirty, and the
parent's draw marker DirtyKid (so not Clean). -/
theorem propagateResult_same_size {S : Type} (ui : Methods S) (dui : DUI) (s : S)
    (self k : Kid) (hk : k.Layout = .Dirty)
    (hsz : (ui.Layout k.UI dui s k k.R.Size false).2.R.Size = k.R.Size) :
    (propagateResult ui dui s self k).returns = true ∧
      (propagateResult ui dui s self k).st.k.Layout = .Clean ∧
      (propagateResult ui dui s self k).st.k.Draw = .Dirty ∧
      (propagateResult ui dui s self k).st.self.Draw = .DirtyKid ∧
      (propagateResult ui dui s self k).st.self.Draw ≠ .Clean := by
  rw [propagateResult_of_dirty ui dui s self k hk]
  simp [hsz, Outcome.returns, Outcome.st]

/-- C10 at a concrete input: a child of size 18x19, the size its Layout
gives, under a parent whose draw marker is Clean. -/
theorem propagateResult_same_size_witness :
    (demoKid 1 0 0 18 19 .Clean .Dirty).Layout = .Dirty ∧
      (propagateResult demo demoDUI () (demoKid 0 0 0 50 50 .Clean .Clean)
        (demoKid 1 0 0 18 19 .Clean .Dirty)).st.k.Layout = .Clean ∧
      (propagateResult demo demoDUI () (demoKid 0 0 0 50 50 .Clean .Clean)
        (demoKid 1 0 0 18 19 .Clean .Dirty)).st.self.Draw = .DirtyKid :=
  ⟨rfl,
    (propagateResult_same_size demo demoDUI () (demoKid 0 0 0 50 50 .Clean .Clean)
      (demoKid 1 0 0 18 19 .Clean .Dirty) rfl (by decide)).2.1,
    (propagateResult_same_size demo demoDUI () (demoKid 0 0 0 50 50 .Clean .Clean)
      (demoKid 1 0 0 18 19 .Clean .Dirty) rfl (by decide)).2.2.2.1⟩

/-! ## kidsMouse -/

/-- The loop of kidsMouse over children none of which contains the point of
`origM` ends without a call and returns the empty Result. -/
theorem kidsMouseLoop_miss {S : Type} (ui : Methods S) (dui : DUI) (m origM : Mouse)
    (orig : Point) (rest : List Kid) (s : S) (self : Kid) (pre : List Kid)
    (h : ∀ x ∈ rest, origM.Point.In x.R = false) :
    kidsMouseLoop ui dui m origM orig rest s self pre = .ret ⟨s, self, pre ++ rest, []⟩ {} := by
  induction rest generalizing pre with
  | nil => simp [kidsMouseLoop]
  | cons k rest ih =>
    have hk : origM.Point.In k.R = false := h k (List.mem_cons_self _ _)
    have hrest : ∀ x ∈ rest, origM.Point.In x.R = false :=
      fun x hx => h x (List.mem_cons_of_mem _ hx)
    simp [kidsMouseLoop, hk, ih (pre ++ [k]) hrest]

/-- The loop of kidsMouse skips the children that do not contain the point
of `origM` and runs its body on the first one that does. -/
theorem kidsMouseLoop_hit {S : Type} (ui : Methods S) (dui : DUI) (m origM : Mouse)
    (orig : Point) (a : List Kid) (k : Kid) (post : List Kid) (s : S) (self : Kid)
    (pre : List Kid) (h : ∀ x ∈ a, origM.Point.In x.R = false)
    (hk : origM.Point.In k.R = true) :
    kidsMouseLoop ui dui m origM orig (a ++ k :: post) s self pre =
      kidsMouseHit ui dui m origM orig s self (pre ++ a) k post := by
  induction a generalizing pre with
  | nil => simp [kidsMouseLoop, hk]
  | cons x a ih =>
    have hx : origM.Point.In x.R = false := h x (List.mem_cons_self _ _)
    have ha : ∀ y ∈ a, origM.Point.In y.R = false :=
      fun y hy => h y (List.mem_cons_of_mem _ hy)
    simp [kidsMouseLoop, hx, ih (pre ++ [x]) ha]

/-- The body of kidsMouse, by the layout marker the child's Mouse left:
the Mouse calls of the trace, the children, and the value returned. -/
theorem kidsMouseHit_spec {S : Type} (ui : Methods S) (dui : DUI) (m origM : Mouse)
    (orig : Point) (s : S) (self : Kid) (pre : List Kid) (k : Kid) (rest : List Kid)
    (res : S × Kid × Result)
    (hres : ui.Mouse k.UI dui s k { m with Point := m.Point.Sub k.R.Min }
      { origM with Point := origM.Point.Sub k.R.Min } orig = res) :
    (kidsMouseHit ui dui m origM orig s self pre k rest).st.trace.filter Ev.isMouse =
        [Ev.kid pre.length (Call.Mouse k { m with Point := m.Point.Sub k.R.Min }
          { origM with Point := origM.Point.Sub k.R.Min } orig res.2.2)] ∧
      (∃ k2, (kidsMouseHit ui dui m origM orig s self pre k rest).st.kids = pre ++ k2 :: rest) ∧
      (res.2.1.Layout ≠ .DirtyKid →
        (kidsMouseHit ui dui m origM orig s self pre k rest).val =
          some (if res.2.2.Hit = none then { res.2.2 with Hit := some res.2.1.UI }
            else res.2.2)) ∧
      (res.2.1.Layout = .Clean → res.2.1.Draw ≠ .Clean →
        (kidsMouseHit ui dui m origM orig s self pre k rest).returns = true ∧
        (kidsMouseHit ui dui m origM orig s self pre k rest).st.self.Draw = .DirtyKid ∧
        (kidsMouseHit ui dui m origM orig s self pre k rest).st.kids = pre ++ res.2.1 :: rest) := by
  simp only [kidsMouseHit, hres]
  cases hl : res.2.1.Layout with
  | Clean =>
    rw [propagateResult_of_clean ui dui res.1 self res.2.1 hl]
    by_cases hd : res.2.1.Draw = .Clean <;>
      simp [hd, Outcome.st, Outcome.val, Outcome.returns, Ev.isMouse]
  | DirtyKid =>
    rw [propagateResult_of_dirtyKid ui dui res.1 self res.2.1 hl]
    simp [Outcome.st, Outcome.val, Outcome.returns, Ev.isMouse]
  | Dirty =>
    rw [propagateResult_of_dirty ui dui res.1 self res.2.1 hl]
    by_cases hsz : (ui.Layout res.2.1.UI dui res.1 res.2.1 res.2.1.R.Size false).2.R.Size =
        res.2.1.R.Size <;>
      simp [hsz, Outcome.st, Outcome.val, Outcome.returns, Ev.isMouse]

/-- C4, as stated, fails: a child whose markers are both Dirty and whose
re-layout changes its size from 3x3 to 18x19, under a parent whose draw
marker is Clean. propagateResult returns with the child's draw marker Dirty
and the parent's draw marker Clean. -/
theorem propagateResult_draw_not_reflected :
    (propagateResult demo demoDUI () (demoKid 0 0 0 50 50 .Clean .Clean)
        (demoKid 1 0 0 3 3 .Dirty .Dirty)).returns = true ∧
      (propagateResult demo demoDUI () (demoKid 0 0 0 50 50 .Clean .Clean)
        (demoKid 1 0 0 3 3 .Dirty .Dirty)).st.k.Draw = .Dirty ∧
      (propagateResult demo demoDUI () (demoKid 0 0 0 50 50 .Clean .Clean)
        (demoKid 1 0 0 3 3 .Dirty .Dirty)).st.self.Draw = .Clean := by
  decide

/-- C4, amended. For a child whose layout marker is not DirtyKid on entry,
propagateResult returns, and on return: if the child's layout marker is
Dirty, the parent's layout marker is Dirty; if the child's draw marker is
not Clean and its layout marker is not Dirty, the parent's draw marker is
not Clean. And in kidsMouse, when the Mouse of the child that is hit leaves
its layout marker Clean and its draw marker not Clean, kidsMouse returns
with the container's draw marker DirtyKid. -/
theorem propagateResult_reflects_child {S : Type} (ui : Methods S) (dui : DUI) (s : S)
    (self : Kid) :
    (∀ k : Kid, k.Layout ≠ .DirtyKid →
      (propagateResult ui dui s self k).returns = true ∧
      ((propagateResult ui dui s self k).st.k.Layout = .Dirty →
        (propagateResult ui dui s self k).st.self.Layout = .Dirty) ∧
      ((propagateResult ui dui s self k).st.k.Draw ≠ .Clean →
        (propagateResult ui dui s self k).st.k.Layout ≠ .Dirty →
        (propagateResult ui dui s self k).st.self.Draw ≠ .Clean)) ∧
    (∀ (pre : List Kid) (k : Kid) (post : List Kid) (m origM : Mouse) (orig : Point),
      (∀ x ∈ pre, origM.Point.In x.R = false) → origM.Point.In k.R = true →
      (ui.Mouse k.UI dui s k { m with Point := m.Point.Sub k.R.Min }
        { origM with Point := origM.Point.Sub k.R.Min } orig).2.1.Layout = .Clean →
      (ui.Mouse k.UI dui s k { m with Point := m.Point.Sub k.R.Min }
        { origM with Point := origM.Point.Sub k.R.Min } orig).2.1.Draw ≠ .Clean →
      (kidsMouse ui dui s self (pre ++ k :: post) m origM orig).returns = true ∧
      (kidsMouse ui dui s self (pre ++ k :: post) m origM orig).st.self.Draw = .DirtyKid) := by
  constructor
  · intro k hk
    cases hl : k.Layout with
    | DirtyKid => exact absurd hl hk
    | Clean =>
      rw [propagateResult_of_clean ui dui s self k hl]
      by_cases hd : k.Draw = .Clean <;> simp [hd, hl, Outcome.returns, Outcome.st]
    | Dirty =>
      rw [propagateResult_of_dirty ui dui s self k hl]
      by_cases hsz : (ui.Layout k.UI dui s k k.R.Size false).2.R.Size = k.R.Size <;>
        simp [hsz, hl, Outcome.returns, Outcome.st]
  · intro pre k post m origM orig hpre hk hl hd
    have h := (kidsMouseHit_spec ui dui m origM orig s self ([] ++ pre) k post _ rfl).2.2.2 hl hd
    unfold kidsMouse
    rw [kidsMouseLoop_hit ui dui m origM orig pre k post s self [] hpre hk]
    exact ⟨h.1, h.2.1⟩

/-- C4, amended, at concrete inputs. A child whose layout marker is Clean
and whose draw marker is Dirty, under a Clean parent: the parent's draw
marker is not Clean afterwards. And the scenario of the spec: children
A = [0,10)x[0,10) and B = [10,20)x[0,10), both Clean, and a pointer sample
at (15,5); the Mouse of B marks it for drawing, and the container's draw
marker ends DirtyKid. -/
theorem propagateResult_reflects_child_witness :
    ((demoKid 3 10 0 20 10 .Dirty .Clean).Layout ≠ .DirtyKid ∧
      (propagateResult demo demoDUI () (demoKid 0 0 0 20 10 .Clean .Clean)
        (demoKid 3 10 0 20 10 .Dirty .Clean)).st.self.Draw ≠ .Clean) ∧
    ((kidsMouse demo demoDUI () (demoKid 0 0 0 20 10 .Clean .Clean)
        ([demoKid 2 0 0 10 10 .Clean .Clean] ++ demoKid 3 10 0 20 10 .Clean .Clean :: [])
        ⟨⟨15, 5⟩, 1, 0⟩ ⟨⟨15, 5⟩, 1, 0⟩ ZP).returns = true ∧
      (kidsMouse demo demoDUI () (demoKid 0 0 0 20 10 .Clean .Clean)
        ([demoKid 2 0 0 10 10 .Clean .Clean] ++ demoKid 3 10 0 20 10 .Clean .Clean :: [])
        ⟨⟨15, 5⟩, 1, 0⟩ ⟨⟨15, 5⟩, 1, 0⟩ ZP).st.self.Draw = .DirtyKid) :=
  ⟨⟨by decide,
      ((propagateResult_reflects_child demo demoDUI ()
        (demoKid 0 0 0 20 10 .Clean .Clean)).1 (demoKid 3 10 0 20 10 .Dirty .Clean)
        (by decide)).2.2 (by decide) (by decide)⟩,
    (propagateResult_reflects_child demo demoDUI () (demoKid 0 0 0 20 10 .Clean .Clean)).2
      [demoKid 2 0 0 10 10 .Clean .Clean] (demoKid 3 10 0 20 10 .Clean .Clean) []
      ⟨⟨15, 5⟩, 1, 0⟩ ⟨⟨15, 5⟩, 1, 0⟩ ZP (by decide) (by decide) (by decide) (by decide)⟩

/-- C6. When the live and the original sample carry the same point `p`:
if no child contains `p`, no Mouse is called and the children are as
before; if `k` is the first child that contains `p`, the one Mouse call of
the trace is on `k`, with both samples moved by the min corner of its
rectangle, the children before and after `k` are as before, and, unless the
child left its layout marker DirtyKid, kidsMouse returns the child's Result
with Hit set to the child's node when the child left it unset. -/
theorem kidsMouse_routes {S : Type} (ui : Methods S) (dui : DUI) (s : S) (self : Kid)
    (kids : List Kid) (m origM : Mouse) (orig p : Point)
    (hm : m.Point = p) (ho : origM.Point = p) :
    ((∀ x ∈ kids, p.In x.R = false) →
      (kidsMouse ui dui s self kids m origM orig).st.trace.filter Ev.isMouse = [] ∧
      (kidsMouse ui dui s self kids m origM orig).st.kids = kids) ∧
    (∀ (pre : List Kid) (k : Kid) (post : List Kid), kids = pre ++ k :: post →
      (∀ x ∈ pre, p.In x.R = false) → p.In k.R = true →
      (kidsMouse ui dui s self kids m origM orig).st.trace.filter Ev.isMouse =
        [Ev.kid pre.length (Call.Mouse k { m with Point := p.Sub k.R.Min }
          { origM with Point := p.Sub k.R.Min } orig
          (ui.Mouse k.UI dui s k { m with Point := p.Sub k.R.Min }
            { origM with Point := p.Sub k.R.Min } orig).2.2)] ∧
      (∃ k2, (kidsMouse ui dui s self kids m origM orig).st.kids = pre ++ k2 :: post) ∧
      ((ui.Mouse k.UI dui s k { m with Point := p.Sub k.R.Min }
          { origM with Point := p.Sub k.R.Min } orig).2.1.Layout ≠ .DirtyKid →
        (kidsMouse ui dui s self kids m origM orig).val =
          some (if (ui.Mouse k.UI dui s k { m with Point := p.Sub k.R.Min }
              { origM with Point := p.Sub k.R.Min } orig).2.2.Hit = none then
            { (ui.Mouse k.UI dui s k { m with Point := p.Sub k.R.Min }
                { origM with Point := p.Sub k.R.Min } orig).2.2 with
              Hit := some (ui.Mouse k.UI dui s k { m with Point := p.Sub k.R.Min }
                { origM with Point := p.Sub k.R.Min } orig).2.1.UI }
          else (ui.Mouse k.UI dui s k { m with Point := p.Sub k.R.Min }
            { origM with Point := p.Sub k.R.Min } orig).2.2))) := by
  subst hm
  constructor
  · intro h
    unfold kidsMouse
    rw [kidsMouseLoop_miss ui dui m origM orig kids s self [] (by rw [ho]; exact h)]
    simp [Outcome.st]
  · intro pre k post hkids hpre hk
    subst hkids
    have h := kidsMouseHit_spec ui dui m origM orig s self ([] ++ pre) k post _ rfl
    unfold kidsMouse
    rw [kidsMouseLoop_hit ui dui m origM orig pre k post s self [] (by rw [ho]; exact hpre)
      (by rw [ho]; exact hk)]
    rw [ho] at h
    simpa using ⟨h.1, h.2.1, h.2.2.1⟩

/-- C6 at the scenario of the spec: children A = [0,10)x[0,10) and
B = [10,20)x[0,10) and both samples at (15,5). The one Mouse call is on B
(index 1) with both samples at (5,5). -/
theorem kidsMouse_routes_witness :
    (kidsMouse demo demoDUI () (demoKid 0 0 0 20 10 .Clean .Clean)
        [demoKid 2 0 0 10 10 .Clean .Clean, demoKid 3 10 0 20 10 .Clean .Clean]
        ⟨⟨15, 5⟩, 1, 0⟩ ⟨⟨15, 5⟩, 0, 7⟩ ZP).st.trace.filter Ev.isMouse =
      [Ev.kid 1 (Call.Mouse (demoKid 3 10 0 20 10 .Clean .Clean) ⟨⟨5, 5⟩, 1, 0⟩ ⟨⟨5, 5⟩, 0, 7⟩
        ZP {})] :=
  ((kidsMouse_routes demo demoDUI () (demoKid 0 0 0 20 10 .Clean .Clean)
    [demoKid 2 0 0 10 10 .Clean .Clean, demoKid 3 10 0 20 10 .Clean .Clean]
    ⟨⟨15, 5⟩, 1, 0⟩ ⟨⟨15, 5⟩, 0, 7⟩ ZP ⟨15, 5⟩ rfl rfl).2
    [demoKid 2 0 0 10 10 .Clean .Clean] (demoKid 3 10 0 20 10 .Clean .Clean) [] rfl
    (by decide) (by decide)).1

/-- C7, as stated, fails: one child A = [0,10)x[0,10), the live sample at
(50,50), inside no child, and the original sample at (5,5), inside A.
kidsMouse calls the Mouse of A, which marks A for drawing, and returns a
Result whose Hit is A. -/
theorem kidsMouse_routes_by_origM :
    (∀ x ∈ [demoKid 2 0 0 10 10 .Clean .Clean],
        Point.In (Mouse.mk ⟨50, 50⟩ 1 0).Point x.R = false) ∧
      (kidsMouse demo demoDUI () (demoKid 0 0 0 20 10 .Clean .Clean)
        [demoKid 2 0 0 10 10 .Clean .Clean] ⟨⟨50, 50⟩, 1, 0⟩ ⟨⟨5, 5⟩, 1, 0⟩ ZP).val =
        some { Hit := some ⟨2⟩ } ∧
      (kidsMouse demo demoDUI () (demoKid 0 0 0 20 10 .Clean .Clean)
        [demoKid 2 0 0 10 10 .Clean .Clean] ⟨⟨50, 50⟩, 1, 0⟩ ⟨⟨5, 5⟩, 1, 0⟩ ZP).st.trace =
        [Ev.kid 0 (Call.Mouse (demoKid 2 0 0 10 10 .Clean .Clean) ⟨⟨50, 50⟩, 1, 0⟩
          ⟨⟨5, 5⟩, 1, 0⟩ ZP {})] ∧
      (kidsMouse demo demoDUI () (demoKid 0 0 0 20 10 .Clean .Clean)
        [demoKid 2 0 0 10 10 .Clean .Clean] ⟨⟨50, 50⟩, 1, 0⟩ ⟨⟨5, 5⟩, 1, 0⟩ ZP).st.kids =
        [demoKid 2 0 0 10 10 .Dirty .Clean] ∧
      (kidsMouse demo demoDUI () (demoKid 0 0 0 20 10 .Clean .Clean)
        [demoKid 2 0 0 10 10 .Clean .Clean] ⟨⟨50, 50⟩, 1, 0⟩ ⟨⟨5, 5⟩, 1, 0⟩ ZP).st.self.Draw =
        .DirtyKid := by
  decide

/-- C7, amended. When the point of the original sample `origM` lies inside
no child's rectangle, then for every live sample `m` kidsMouse returns the
empty Result, calls no method of a child (the trace is empty), and leaves
the node store, `self` and every child as they were. -/
theorem kidsMouse_miss {S : Type} (ui : Methods S) (dui : DUI) (s : S) (self : Kid)
    (kids : List Kid) (m origM : Mouse) (orig : Point)
    (h : ∀ x ∈ kids, origM.Point.In x.R = false) :
    kidsMouse ui dui s self kids m origM orig = .ret ⟨s, self, kids, []⟩ {} := by
  unfold kidsMouse
  rw [kidsMouseLoop_miss ui dui m origM orig kids s self [] h]
  simp

/-- C7, amended, at a concrete input: children A = [0,10)x[0,10) and
B = [10,20)x[0,10), the original sample at (25,5), the live sample at (5,5). -/
theorem kidsMouse_miss_witness :
    kidsMouse demo demoDUI () (demoKid 0 0 0 20 10 .Clean .Clean)
        [demoKid 2 0 0 10 10 .Clean .Clean, demoKid 3 10 0 20 10 .Clean .Clean]
        ⟨⟨5, 5⟩, 1, 0⟩ ⟨⟨25, 5⟩, 1, 0⟩ ZP =
      .ret ⟨(), demoKid 0 0 0 20 10 .Clean .Clean,
        [demoKid 2 0 0 10 10 .Clean .Clean, demoKid 3 10 0 20 10 .Clean .Clean], []⟩ {} :=
  kidsMouse_miss demo demoDUI () (demoKid 0 0 0 20 10 .Clean .Clean)
    [demoKid 2 0 0 10 10 .Clean .Clean, demoKid 3 10 0 20 10 .Clean .Clean]
    ⟨⟨5, 5⟩, 1, 0⟩ ⟨⟨25, 5⟩, 1, 0⟩ ZP (by decide)

/-! ## kidsLayout -/

/-- The three ways the loop of kidsLayout ends, started after calls that all
left their child Clean: every call left its child Clean and it returns true;
or the last call left its child Dirty and it returns false; or the last call
left its child DirtyKid and it panics. -/
theorem kidsLayoutLoop_spec {S : Type} (ui : Methods S) (dui : DUI) (rest : List Kid)
    (s : S) (self : Kid) (pre : List Kid) (tr : List Ev)
    (htr : ∀ x ∈ layoutResults tr, x.Layout = .Clean) :
    ((kidsLayoutLoop ui dui rest s self pre tr).val = some true ∧
        (kidsLayoutLoop ui dui rest s self pre tr).st.self =
          { self with Layout := .Clean, Draw := .Dirty } ∧
        ∀ x ∈ layoutResults (kidsLayoutLoop ui dui rest s self pre tr).st.trace,
          x.Layout = .Clean) ∨
      ((kidsLayoutLoop ui dui rest s self pre tr).val = some false ∧
        (kidsLayoutLoop ui dui rest s self pre tr).st.self =
          { self with Layout := .Dirty, Draw := .Dirty } ∧
        (∃ x ∈ layoutResults (kidsLayoutLoop ui dui rest s self pre tr).st.trace,
          x.Layout = .Dirty) ∧
        ∀ x ∈ layoutResults (kidsLayoutLoop ui dui rest s self pre tr).st.trace,
          x.Layout ≠ .DirtyKid) ∨
      ((kidsLayoutLoop ui dui rest s self pre tr).val = none ∧
        (kidsLayoutLoop ui dui rest s self pre tr).st.self = self ∧
        ∃ x ∈ layoutResults (kidsLayoutLoop ui dui rest s self pre tr).st.trace,
          x.Layout = .DirtyKid) := by
  induction rest generalizing s pre tr with
  | nil =>
    left
    simp only [kidsLayoutLoop, Outcome.val, Outcome.st]
    exact ⟨trivial, trivial, htr⟩
  | cons k rest ih =>
    by_cases hc : k.Layout = .Clean
    · simp only [kidsLayoutLoop, hc, if_true]
      exact ih s (pre ++ [k]) tr htr
    · cases hl : (ui.Layout k.UI dui s k k.R.Size false).2.Layout with
      | Clean =>
        have htr1 : ∀ x ∈ layoutResults (tr ++ [Ev.kid pre.length
            (Call.Layout k k.R.Size false (ui.Layout k.UI dui s k k.R.Size false).2)]),
            x.Layout = .Clean := by
          intro x hx
          simp only [layoutResults, List.filterMap_append, List.mem_append] at hx
          rcases hx with hx | hx
          · exact htr x hx
          · simp [Ev.layoutAfter] at hx
            rw [hx]; exact hl
        have h := ih (ui.Layout k.UI dui s k k.R.Size false).1
          (pre ++ [(ui.Layout k.UI dui s k k.R.Size false).2]) _ htr1
        simp only [kidsLayoutLoop, hc, if_false, hl]
        exact h
      | Dirty =>
        right; left
        simp only [kidsLayoutLoop, hc, if_false, hl, Outcome.val, Outcome.st]
        refine ⟨trivial, trivial, ⟨(ui.Layout k.UI dui s k k.R.Size false).2, ?_, hl⟩, ?_⟩
        · simp [layoutResults, List.filterMap_append, Ev.layoutAfter]
        · intro x hx
          simp only [layoutResults, List.filterMap_append, List.mem_append] at hx
          rcases hx with hx | hx
          · rw [htr x hx]; decide
          · simp [Ev.layoutAfter] at hx
            rw [hx, hl]; decide
      | DirtyKid =>
        right; right
        simp only [kidsLayoutLoop, hc, if_false, hl, Outcome.val, Outcome.st]
        refine ⟨trivial, trivial, ⟨(ui.Layout k.UI dui s k k.R.Size false).2, ?_, hl⟩⟩
        simp [layoutResults, List.filterMap_append, Ev.layoutAfter]

/-- C1. In a kidsLayout call with force = false and self.Layout = DirtyKid
in which no Layout call leaves its child's marker DirtyKid: if some Layout
call leaves its child Dirty, kidsLayout returns false with self.Layout =
Dirty and self.Draw = Dirty; otherwise it returns true with self.Layout =
Clean and self.Draw = Dirty. -/
theorem kidsLayout_dirtyKid {S : Type} (ui : Methods S) (dui : DUI) (s : S) (self : Kid)
    (kids : List Kid) (hself : self.Layout = .DirtyKid)
    (hno : ∀ x ∈ layoutResults (kidsLayout ui dui s self kids false).st.trace,
      x.Layout ≠ .DirtyKid) :
    ((∃ x ∈ layoutResults (kidsLayout ui dui s self kids false).st.trace, x.Layout = .Dirty) →
      (kidsLayout ui dui s self kids false).val = some false ∧
      (kidsLayout ui dui s self kids false).st.self.Layout = .Dirty ∧
      (kidsLayout ui dui s self kids false).st.self.Draw = .Dirty) ∧
    ((¬ ∃ x ∈ layoutResults (kidsLayout ui dui s self kids false).st.trace,
        x.Layout = .Dirty) →
      (kidsLayout ui dui s self kids false).val = some true ∧
      (kidsLayout ui dui s self kids false).st.self.Layout = .Clean ∧
      (kidsLayout ui dui s self kids false).st.self.Draw = .Dirty) := by
  have hloop : kidsLayout ui dui s self kids false = kidsLayoutLoop ui dui kids s self [] [] := by
    simp [kidsLayout, hself]
  rw [hloop] at hno ⊢
  rcases kidsLayoutLoop_spec ui dui kids s self [] [] (by simp [layoutResults]) with
    h | h | h
  · refine ⟨fun ⟨x, hx, hd⟩ => ?_, fun _ => ?_⟩
    · rw [h.2.2 x hx] at hd; exact absurd hd (by decide)
    · rw [h.2.1]; exact ⟨h.1, rfl, rfl⟩
  · refine ⟨fun _ => ?_, fun hn => absurd h.2.2.1 hn⟩
    rw [h.2.1]; exact ⟨h.1, rfl, rfl⟩
  · obtain ⟨x, hx, hd⟩ := h.2.2
    exact absurd hd (hno x hx)

/-- C1 at a concrete input: a container whose layout marker is DirtyKid,
with a Clean child and a Dirty child that its Layout leaves Dirty. -/
theorem kidsLayout_dirtyKid_witness :
    (demoKid 0 0 0 50 50 .Clean .DirtyKid).Layout = .DirtyKid ∧
      (∀ x ∈ layoutResults (kidsLayout demo demoDUI () (demoKid 0 0 0 50 50 .Clean .DirtyKid)
          [demoKid 2 0 0 10 10 .Clean .Clean, demoKid 3 10 0 20 10 .Clean .Dirty] false).st.trace,
        x.Layout ≠ .DirtyKid) ∧
      (kidsLayout demo demoDUI () (demoKid 0 0 0 50 50 .Clean .DirtyKid)
        [demoKid 2 0 0 10 10 .Clean .Clean, demoKid 3 10 0 20 10 .Clean .Dirty] false).val =
        some false ∧
      (kidsLayout demo demoDUI () (demoKid 0 0 0 50 50 .Clean .DirtyKid)
        [demoKid 2 0 0 10 10 .Clean .Clean, demoKid 3 10 0 20 10 .Clean .Dirty]
        false).st.self.Layout = .Dirty ∧
      (kidsLayout demo demoDUI () (demoKid 0 0 0 50 50 .Clean .DirtyKid)
        [demoKid 2 0 0 10 10 .Clean .Clean, demoKid 3 10 0 20 10 .Clean .Dirty]
        false).st.self.Draw = .Dirty :=
  ⟨rfl, by decide,
    (kidsLayout_dirtyKid demo demoDUI () (demoKid 0 0 0 50 50 .Clean .DirtyKid)
      [demoKid 2 0 0 10 10 .Clean .Clean, demoKid 3 10 0 20 10 .Clean .Dirty] rfl
      (by decide)).1 (by decide)⟩

/-! ## kidsDraw -/

/-- In the loop of kidsDraw without force, a call on the child at index `i`
is a call of the trace so far or is on a child not yet visited whose draw
marker is not Clean. -/
theorem kidsDrawLoop_calls {S : Type} (ui : Methods S) (dui : DUI) (orig : Point) (m : Mouse)
    (rest : List Kid) (s : S) (self : Kid) (pre : List Kid) (tr : List Ev) (i : Nat) (c : Call)
    (h : Ev.kid i c ∈ (kidsDrawLoop ui dui orig m false rest s self pre tr).st.trace) :
    Ev.kid i c ∈ tr ∨ ∃ j k, i = pre.length + j ∧ rest[j]? = some k ∧ k.Draw ≠ .Clean := by
  induction rest generalizing s pre tr with
  | nil =>
    left
    simpa [kidsDrawLoop, Outcome.st] using h
  | cons k rest ih =>
    rw [kidsDrawLoop] at h
    split at h
    · rcases ih s (pre ++ [k]) tr h with h1 | ⟨j, kj, hi, hj, hd⟩
      · exact Or.inl h1
      · refine Or.inr ⟨j + 1, kj, ?_, by simpa using hj, hd⟩
        simp only [List.length_append, List.length_singleton] at hi
        omega
    · next hskip =>
      have hc : k.Draw ≠ .Clean := by simpa using hskip
      split at h
      · left
        simpa [Outcome.st] using h
      · rcases ih _ _ _ h with h1 | ⟨j, kj, hi, hj, hd⟩
        · rw [List.mem_append] at h1
          rcases h1 with h1 | h1
          · left
            split at h1
            · simpa using h1
            · split at h1
              · simpa using h1
              · exact h1
          · right
            refine ⟨0, k, ?_, by simp, hc⟩
            simp at h1
            omega
        · refine Or.inr ⟨j + 1, kj, ?_, by simpa using hj, hd⟩
          simp only [List.length_append, List.length_singleton] at hi
          omega

/-- C5, as stated, fails: the caller passes force = false, the container's
own draw marker is Dirty, and its one child is Clean. The child's Draw is
called once, with force = true. -/
theorem kidsDraw_draws_clean_child :
    (demoKid 2 0 0 10 10 .Clean .Clean).Draw = .Clean ∧
      (kidsDraw demo demoDUI () (demoKid 0 0 0 20 10 .Dirty .Clean)
        [demoKid 2 0 0 10 10 .Clean .Clean] ⟨20, 10⟩ ZP ⟨⟨5, 5⟩, 0, 0⟩ false).st.trace =
        [Ev.imgDraw ⟨⟨0, 0⟩, ⟨20, 10⟩⟩ 0,
          Ev.kid 0 (Call.Draw (demoKid 2 0 0 10 10 .Dirty .Clean) ZP ⟨⟨5, 5⟩, 0, 0⟩ true)] := by
  decide

/-- C5, amended. In a kidsDraw call whose caller passes force = false and
whose container's own draw marker is not Dirty, a child whose draw marker is
Clean on entry receives no call at all, so no Draw. -/
theorem kidsDraw_skips_clean {S : Type} (ui : Methods S) (dui : DUI) (s : S) (self : Kid)
    (kids : List Kid) (uiSize orig : Point) (m : Mouse) (i : Nat) (k : Kid)
    (hself : self.Draw ≠ .Dirty) (hk : kids[i]? = some k) (hc : k.Draw = .Clean) (c : Call) :
    Ev.kid i c ∉ (kidsDraw ui dui s self kids uiSize orig m false).st.trace := by
  intro h
  simp only [kidsDraw, hself, Bool.false_or, decide_False, if_false] at h
  rcases kidsDrawLoop_calls ui dui orig m kids s self [] [] i c (by simpa using h) with
    h1 | ⟨j, kj, hi, hj, hd⟩
  · simp at h1
  · simp only [List.length_nil, Nat.zero_add] at hi
    subst hi
    rw [hk] at hj
    exact hd (by rw [← Option.some.inj hj]; exact hc)

/-- C5, amended, at a concrete input: a container whose draw marker is
DirtyKid, with a Clean child A and a Dirty child B; A (index 0) gets no call
with the arguments a Draw of it would have. -/
theorem kidsDraw_skips_clean_witness :
    (demoKid 0 0 0 20 10 .DirtyKid .Clean).Draw ≠ .Dirty ∧
      Ev.kid 0 (Call.Draw (demoKid 2 0 0 10 10 .Clean .Clean) ZP ⟨⟨5, 5⟩, 0, 0⟩ false) ∉
        (kidsDraw demo demoDUI () (demoKid 0 0 0 20 10 .DirtyKid .Clean)
          [demoKid 2 0 0 10 10 .Clean .Clean, demoKid 3 10 0 20 10 .Dirty .Clean] ⟨20, 10⟩ ZP
          ⟨⟨5, 5⟩, 0, 0⟩ false).st.trace :=
  ⟨by decide,
    kidsDraw_skips_clean demo demoDUI () (demoKid 0 0 0 20 10 .DirtyKid .Clean)
      [demoKid 2 0 0 10 10 .Clean .Clean, demoKid 3 10 0 20 10 .Dirty .Clean] ⟨20, 10⟩ ZP
      ⟨⟨5, 5⟩, 0, 0⟩ 0 (demoKid 2 0 0 10 10 .Clean .Clean) (by decide) rfl rfl _⟩

/-! ## kidsKey -/

/-- For a child whose layout marker is not DirtyKid, propagateResult
returns, and the calls it made are Layout calls. -/
theorem propagateResult_returns {S : Type} (ui : Methods S) (dui : DUI) (s : S)
    (self k : Kid) (hk : k.Layout ≠ .DirtyKid) :
    ∃ p, propagateResult ui dui s self k = .ret p () ∧
      ∀ c ∈ p.calls, ∃ k0 sz f k1, c = Call.Layout k0 sz f k1 := by
  cases hl : k.Layout with
  | DirtyKid => exact absurd hl hk
  | Clean =>
    rw [propagateResult_of_clean ui dui s self k hl]
    exact ⟨_, rfl, by simp⟩
  | Dirty =>
    rw [propagateResult_of_dirty ui dui s self k hl]
    by_cases hsz : (ui.Layout k.UI dui s k k.R.Size false).2.R.Size = k.R.Size
    · rw [if_neg (by simpa using hsz)]
      exact ⟨_, rfl, by simp⟩
    · rw [if_pos hsz]
      exact ⟨_, rfl, by simp⟩

/-- The loop of kidsKey skips the children that do not contain the pointer
and runs its body on the first one that does. -/
theorem kidsKeyLoop_hit {S : Type} (ui : Methods S) (dui : DUI) (key : Int) (m : Mouse)
    (orig : Point) (a : List Kid) (k : Kid) (post : List Kid) (s : S) (self : Kid)
    (pre : List Kid) (h : ∀ x ∈ a, m.Point.In x.R = false) (hk : m.Point.In k.R = true) :
    kidsKeyLoop ui dui key m orig (a ++ k :: post) s self pre =
      kidsKeyHit ui dui key m orig s self (pre ++ a) k post := by
  induction a generalizing pre with
  | nil => simp [kidsKeyLoop, hk]
  | cons x a ih =>
    have hx : m.Point.In x.R = false := h x (List.mem_cons_self _ _)
    have ha : ∀ y ∈ a, m.Point.In y.R = false := fun y hy => h y (List.mem_cons_of_mem _ hy)
    simp [kidsKeyLoop, hx, ih (pre ++ [x]) ha]

/-- The scan for the next focus finds nothing when no sibling has a FirstFocus. -/
theorem kidsKeyNext_none {S : Type} (ui : Methods S) (dui : DUI) (s : S) (orig : Point)
    (next : Nat) (rest : List Kid) (h : ∀ x ∈ rest, ui.FirstFocus x.UI dui s = none) :
    (kidsKeyNext ui dui s orig next rest).1 = none := by
  induction rest generalizing next with
  | nil => simp [kidsKeyNext]
  | cons k rest ih =>
    have hk := h k (List.mem_cons_self _ _)
    simp only [kidsKeyNext, hk]
    exact ih (next + 1) (fun x hx => h x (List.mem_cons_of_mem _ hx))

/-- The scan for the next focus stops at the first sibling with a FirstFocus. -/
theorem kidsKeyNext_some {S : Type} (ui : Methods S) (dui : DUI) (s : S) (orig : Point)
    (next : Nat) (a : List Kid) (kj : Kid) (b : List Kid) (f : Point)
    (ha : ∀ x ∈ a, ui.FirstFocus x.UI dui s = none) (hf : ui.FirstFocus kj.UI dui s = some f) :
    (kidsKeyNext ui dui s orig next (a ++ kj :: b)).1 = some ((f.Add orig).Add kj.R.Min) := by
  induction a generalizing next with
  | nil => simp [kidsKeyNext, hf]
  | cons x a ih =>
    have hx := ha x (List.mem_cons_self _ _)
    simp only [List.cons_append, kidsKeyNext, hx]
    exact ih (next + 1) (fun y hy => ha y (List.mem_cons_of_mem _ hy))

/-- The scan for the next focus queries only siblings from index `next` on. -/
theorem kidsKeyNext_index {S : Type} (ui : Methods S) (dui : DUI) (s : S) (orig : Point)
    (next : Nat) (rest : List Kid) (i : Nat) (c : Call)
    (h : Ev.kid i c ∈ (kidsKeyNext ui dui s orig next rest).2) : next ≤ i := by
  induction rest generalizing next with
  | nil => simp [kidsKeyNext] at h
  | cons k rest ih =>
    cases hk : ui.FirstFocus k.UI dui s with
    | some first =>
      simp only [kidsKeyNext, hk, List.mem_singleton, Ev.kid.injEq] at h
      omega
    | none =>
      simp only [kidsKeyNext, hk, List.mem_cons, Ev.kid.injEq] at h
      rcases h with h | h
      · omega
      · have := ih (next + 1) h
        omega

/-- C8. The pointer lies in child `k` (the first child that contains it,
at index `i` = the length of `pre`), the key is the tab character, the Key
of `k` returns an unconsumed Result and does not leave its layout marker
DirtyKid. Then: if `kj` is the first sibling after `k` with a FirstFocus
point `f`, kidsKey returns a consumed Result whose warp is
`f + orig + kj.R.Min`; if no sibling after `k` has a FirstFocus point,
kidsKey returns a Result with Consumed (false) and Warp as the Key of `k`
returned them, whatever the siblings before `k` do; and no FirstFocus is
queried at an index <= i. -/
theorem kidsKey_tab {S : Type} (ui : Methods S) (dui : DUI) (s : S) (self : Kid)
    (pre : List Kid) (k : Kid) (post : List Kid) (m : Mouse) (orig : Point)
    (res : S × Kid × Result)
    (hres : ui.Key k.UI dui s k tab { m with Point := m.Point.Sub k.R.Min }
      (orig.Add k.R.Min) = res)
    (hpre : ∀ x ∈ pre, m.Point.In x.R = false) (hk : m.Point.In k.R = true)
    (hcons : res.2.2.Consumed = false) (hlay : res.2.1.Layout ≠ .DirtyKid) :
    (∀ (a : List Kid) (kj : Kid) (b : List Kid) (f : Point), post = a ++ kj :: b →
      (∀ x ∈ a, ui.FirstFocus x.UI dui res.1 = none) →
      ui.FirstFocus kj.UI dui res.1 = some f →
      ∃ r, (kidsKey ui dui s self (pre ++ k :: post) tab m orig).val = some r ∧
        r.Consumed = true ∧ r.Warp = some ((f.Add orig).Add kj.R.Min)) ∧
    ((∀ x ∈ post, ui.FirstFocus x.UI dui res.1 = none) →
      ∃ r, (kidsKey ui dui s self (pre ++ k :: post) tab m orig).val = some r ∧
        r.Consumed = false ∧ r.Consumed = res.2.2.Consumed ∧ r.Warp = res.2.2.Warp) ∧
    (∀ (i : Nat) (f : Option Point), i ≤ pre.length →
      Ev.kid i (Call.FirstFocus f) ∉
        (kidsKey ui dui s self (pre ++ k :: post) tab m orig).st.trace) := by
  obtain ⟨p, hp, hcalls⟩ := propagateResult_returns ui dui res.1 self res.2.1 hlay
  have hkey : kidsKey ui dui s self (pre ++ k :: post) tab m orig =
      kidsKeyHit ui dui tab m orig s self pre k post := by
    unfold kidsKey
    rw [kidsKeyLoop_hit ui dui tab m orig pre k post s self [] hpre hk]
    simp
  rw [hkey]
  simp only [kidsKeyHit, hres, hp, hcons, Outcome.val, Outcome.st, Bool.not_false,
    Bool.true_and, decide_True, if_true]
  refine ⟨?_, ?_, ?_⟩
  · intro a kj b f hpost ha hf
    subst hpost
    rw [kidsKeyNext_some ui dui res.1 orig (pre.length + 1) a kj b f ha hf]
    refine ⟨_, rfl, ?_, ?_⟩ <;> split <;> rfl
  · intro hnone
    rw [kidsKeyNext_none ui dui res.1 orig (pre.length + 1) post hnone]
    refine ⟨_, rfl, ?_, ?_, ?_⟩ <;> split <;> simp [hcons]
  · intro i f hi hmem
    simp only [List.mem_cons, List.mem_append, List.mem_map] at hmem
    rcases hmem with (hmem | hmem) | ⟨c, hc, hmem⟩
    · simp at hmem
    · have := kidsKeyNext_index ui dui res.1 orig (pre.length + 1) post i _ hmem
      omega
    · obtain ⟨k0, sz, f0, k1, hc0⟩ := hcalls c hc
      subst hc0
      simp at hmem

/-- C8 at the scenario of the spec: three siblings of which only the third
accepts focus, the pointer in the first, the tab key, and the container at
(100,200). The Result is consumed and warps to the third child's FirstFocus
(0,0) moved by (100,200) and by the third child's min corner (20,0). -/
theorem kidsKey_tab_witness :
    ∃ r, (kidsKey demo demoDUI () (demoKid 0 0 0 30 10 .Clean .Clean)
        ([] ++ demoKid 2 0 0 10 10 .Clean .Clean ::
          [demoKid 4 10 0 20 10 .Clean .Clean, demoKid 5 20 0 30 10 .Clean .Clean])
        tab ⟨⟨5, 5⟩, 0, 0⟩ ⟨100, 200⟩).val = some r ∧
      r.Consumed = true ∧ r.Warp = some ⟨120, 200⟩ :=
  (kidsKey_tab demo demoDUI () (demoKid 0 0 0 30 10 .Clean .Clean) []
    (demoKid 2 0 0 10 10 .Clean .Clean)
    [demoKid 4 10 0 20 10 .Clean .Clean, demoKid 5 20 0 30 10 .Clean .Clean]
    ⟨⟨5, 5⟩, 0, 0⟩ ⟨100, 200⟩ _ rfl (by decide) (by decide) (by decide) (by decide)).1
    [demoKid 4 10 0 20 10 .Clean .Clean] (demoKid 5 20 0 30 10 .Clean .Clean) [] ZP rfl
    (by decide) (by decide)

/-! ## kidsMark -/

/-- The two ways the loop of kidsMark ends, started after Mark calls that
all reported false: a Mark call reports true, it returns true and the
selected marker of `self` is raised from Clean to DirtyKid; or every Mark
call reports false, it returns false and `self` is as before. -/
theorem kidsMarkLoop_spec {S : Type} (ui : Methods S) (o : UI) (forLayout : Bool)
    (state : State) (rest : List Kid) (s : S) (self : Kid) (pre : List Kid) (tr : List Ev)
    (htr : ∀ b ∈ markResults tr, b = false) :
    ((kidsMarkLoop ui o forLayout state rest s self pre tr).2 = true ∧
        (kidsMarkLoop ui o forLayout state rest s self pre tr).1.self =
          (if forLayout then
            (if self.Layout = .Clean then { self with Layout := .DirtyKid } else self)
          else (if self.Draw = .Clean then { self with Draw := .DirtyKid } else self)) ∧
        true ∈ markResults (kidsMarkLoop ui o forLayout state rest s self pre tr).1.trace) ∨
      ((kidsMarkLoop ui o forLayout state rest s self pre tr).2 = false ∧
        (kidsMarkLoop ui o forLayout state rest s self pre tr).1.self = self ∧
        ∀ b ∈ markResults (kidsMarkLoop ui o forLayout state rest s self pre tr).1.trace,
          b = false) := by
  induction rest generalizing s pre tr with
  | nil =>
    right
    simp only [kidsMarkLoop]
    exact ⟨trivial, trivial, htr⟩
  | cons k rest ih =>
    cases hm : (ui.Mark k.UI s k o forLayout state).2.2 with
    | false =>
      have htr1 : ∀ b ∈ markResults (tr ++ [Ev.kid pre.length
          (Call.Mark k o forLayout state false)]), b = false := by
        intro b hb
        simp only [markResults, List.filterMap_append, List.mem_append] at hb
        rcases hb with hb | hb
        · exact htr b hb
        · simpa [Ev.markResult] using hb
      have h := ih (ui.Mark k.UI s k o forLayout state).1
        (pre ++ [(ui.Mark k.UI s k o forLayout state).2.1]) _ htr1
      simp only [kidsMarkLoop, hm, Bool.not_false, if_true]
      exact h
    | true =>
      left
      simp only [kidsMarkLoop, hm, Bool.not_true, Bool.false_eq_true, if_false]
      refine ⟨trivial, trivial, ?_⟩
      simp [markResults, List.filterMap_append, Ev.markResult]

/-- C9. kidsMark(self, kids, o, forLayout, state): if `o` is the node of
`self`, it returns true, sets the selected marker of `self` to `state` and
calls no child; otherwise, if a child's Mark reports true, it returns true
and the selected marker of `self` is DirtyKid when it was Clean and as
before when it was not, so it is not Clean; otherwise it returns false and
`self` is as before. In every case the node, the rectangle and the other
marker of `self` are as before. -/
theorem kidsMark_spec {S : Type} (ui : Methods S) (s : S) (self : Kid) (kids : List Kid)
    (o : UI) (forLayout : Bool) (state : State) :
    (o = self.UI →
      kidsMark ui s self kids o forLayout state =
        (⟨s, if forLayout then { self with Layout := state } else { self with Draw := state },
          kids, []⟩, true)) ∧
    (o ≠ self.UI →
      (true ∈ markResults (kidsMark ui s self kids o forLayout state).1.trace →
        (kidsMark ui s self kids o forLayout state).2 = true ∧
        (kidsMark ui s self kids o forLayout state).1.self =
          (if forLayout then
            (if self.Layout = .Clean then { self with Layout := .DirtyKid } else self)
          else (if self.Draw = .Clean then { self with Draw := .DirtyKid } else self)) ∧
        (if forLayout then (kidsMark ui s self kids o forLayout state).1.self.Layout
          else (kidsMark ui s self kids o forLayout state).1.self.Draw) ≠ .Clean) ∧
      (true ∉ markResults (kidsMark ui s self kids o forLayout state).1.trace →
        (kidsMark ui s self kids o forLayout state).2 = false ∧
        (kidsMark ui s self kids o forLayout state).1.self = self)) ∧
    ((kidsMark ui s self kids o forLayout state).1.self.UI = self.UI ∧
      (kidsMark ui s self kids o forLayout state).1.self.R = self.R ∧
      (if forLayout then (kidsMark ui s self kids o forLayout state).1.self.Draw = self.Draw
        else (kidsMark ui s self kids o forLayout state).1.self.Layout = self.Layout)) := by
  by_cases ho : o = self.UI
  · have hself : kidsMark ui s self kids o forLayout state =
        (⟨s, if forLayout then { self with Layout := state } else { self with Draw := state },
          kids, []⟩, true) := by
      cases forLayout <;> simp [kidsMark, Kid.Mark, ho]
    refine ⟨fun _ => hself, fun h => absurd ho h, ?_⟩
    rw [hself]
    cases forLayout <;> simp
  · have hloop : kidsMark ui s self kids o forLayout state =
        kidsMarkLoop ui o forLayout state kids s self [] [] := by
      simp [kidsMark, Kid.Mark, ho]
    rw [hloop]
    refine ⟨fun h => absurd h ho, fun _ => ?_, ?_⟩ <;>
      rcases kidsMarkLoop_spec ui o forLayout state kids s self [] []
        (by simp [markResults]) with h | h
    · refine ⟨fun _ => ⟨h.1, h.2.1, ?_⟩, fun hn => absurd h.2.2 hn⟩
      rw [h.2.1]
      cases forLayout <;> simp <;> split <;> simp_all
    · refine ⟨fun ht => ?_, fun _ => ⟨h.1, h.2.1⟩⟩
      exact absurd (h.2.2 true ht) (by decide)
    · rw [h.2.1]
      cases forLayout <;> simp <;> split <;> simp
    · rw [h.2.1]
      cases forLayout <;> simp

/-- C9 at a concrete input: the target is the node of the second child,
for layout, with state Dirty, under a container whose layout marker is
Clean. The second Mark reports true, kidsMark returns true, and the
container's layout marker is DirtyKid. -/
theorem kidsMark_spec_witness :
    (UI.mk 3) ≠ (demoKid 0 0 0 20 10 .Clean .Clean).UI ∧
      true ∈ markResults (kidsMark demo () (demoKid 0 0 0 20 10 .Clean .Clean)
        [demoKid 2 0 0 10 10 .Clean .Clean, demoKid 3 10 0 20 10 .Clean .Clean] ⟨3⟩ true
        .Dirty).1.trace ∧
      (kidsMark demo () (demoKid 0 0 0 20 10 .Clean .Clean)
        [demoKid 2 0 0 10 10 .Clean .Clean, demoKid 3 10 0 20 10 .Clean .Clean] ⟨3⟩ true
        .Dirty).2 = true ∧
      (kidsMark demo () (demoKid 0 0 0 20 10 .Clean .Clean)
        [demoKid 2 0 0 10 10 .Clean .Clean, demoKid 3 10 0 20 10 .Clean .Clean] ⟨3⟩ true
        .Dirty).1.self = demoKid 0 0 0 20 10 .Clean .DirtyKid :=
  ⟨by decide, by decide,
    (((kidsMark_spec demo () (demoKid 0 0 0 20 10 .Clean .Clean)
      [demoKid 2 0 0 10 10 .Clean .Clean, demoKid 3 10 0 20 10 .Clean .Clean] ⟨3⟩ true
      .Dirty).2.1 (by decide)).1 (by decide)).1,
    (((kidsMark_spec demo () (demoKid 0 0 0 20 10 .Clean .Clean)
      [demoKid 2 0 0 10 10 .Clean .Clean, demoKid 3 10 0 20 10 .Clean .Clean] ⟨3⟩ true
      .Dirty).2.1 (by decide)).1 (by decide)).2.1⟩

/-! ## propagateResult: the contract violation -/

/-- C13. propagateResult panics exactly when the child's layout marker is
DirtyKid on entry, and then the node store, `self` and `k` are as on entry
and no method of the child has been called. -/
theorem propagateResult_panics_iff {S : Type} (ui : Methods S) (dui : DUI) (s : S)
    (self k : Kid) :
    ((propagateResult ui dui s self k).returns = false ↔ k.Layout = .DirtyKid) ∧
      (k.Layout = .DirtyKid →
        propagateResult ui dui s self k =
          .panic ⟨s, self, k, []⟩ "kid propagated layout kids") := by
  refine ⟨⟨fun h => ?_, fun h => ?_⟩, propagateResult_of_dirtyKid ui dui s self k⟩
  · by_contra hk
    obtain ⟨p, hp, _⟩ := propagateResult_returns ui dui s self k hk
    rw [hp] at h
    simp [Outcome.returns] at h
  · rw [propagateResult_of_dirtyKid ui dui s self k h]
    rfl

/-- C13 at a concrete input: a child whose layout marker is DirtyKid. -/
theorem propagateResult_panics_iff_witness :
    (demoKid 1 0 0 18 19 .Clean .DirtyKid).Layout = .DirtyKid ∧
      propagateResult demo demoDUI () (demoKid 0 0 0 50 50 .Clean .Clean)
          (demoKid 1 0 0 18 19 .Clean .DirtyKid) =
        .panic ⟨(), demoKid 0 0 0 50 50 .Clean .Clean, demoKid 1 0 0 18 19 .Clean .DirtyKid, []⟩
          "kid propagated layout kids" :=
  ⟨rfl,
    (propagateResult_panics_iff demo demoDUI () (demoKid 0 0 0 50 50 .Clean .Clean)
      (demoKid 1 0 0 18 19 .Clean .DirtyKid)).2 rfl⟩

/-! ## propagateEvent -/

/-- C18. propagateEvent(self, r, e) leaves self.Layout Dirty if
e.NeedLayout and as before otherwise, self.Draw Dirty if e.NeedDraw and as
before otherwise, r.Consumed = e.Consumed || r.Consumed, and the node and
rectangle of `self` and the other fields of `r` as before. -/
theorem propagateEvent_spec (self : Kid) (r : Result) (e : Event) :
    (propagateEvent self r e).1.Layout = (if e.NeedLayout then .Dirty else self.Layout) ∧
      (propagateEvent self r e).1.Draw = (if e.NeedDraw then .Dirty else self.Draw) ∧
      (propagateEvent self r e).1.R = self.R ∧
      (propagateEvent self r e).1.UI = self.UI ∧
      (propagateEvent self r e).2 = { r with Consumed := e.Consumed || r.Consumed } := by
  unfold propagateEvent
  cases e.NeedLayout <;> cases e.NeedDraw <;> simp

/-! ## kidsLayout: the branches without a loop -/

/-- C19. With force = true, or with self.Layout = Dirty, kidsLayout returns
false with self.Layout = Clean and self.Draw = Dirty; with force = false and
self.Layout = Clean it returns true and leaves `self` as it was. In both
cases no child is called (the trace is empty) and the children and the node
store are as on entry. -/
theorem kidsLayout_no_loop {S : Type} (ui : Methods S) (dui : DUI) (s : S) (self : Kid)
    (kids : List Kid) (force : Bool) :
    (force = true ∨ self.Layout = .Dirty →
      kidsLayout ui dui s self kids force =
        .ret ⟨s, { self with Layout := .Clean, Draw := .Dirty }, kids, []⟩ false) ∧
    (force = false → self.Layout = .Clean →
      kidsLayout ui dui s self kids force = .ret ⟨s, self, kids, []⟩ true) := by
  constructor
  · intro h
    cases force with
    | true => simp [kidsLayout]
    | false =>
      rcases h with h | h
      · exact absurd h (by decide)
      · simp [kidsLayout, h]
  · intro hf hc
    simp [kidsLayout, hf, hc]

/-- C19 at concrete inputs: a forced call on a Clean container with a Dirty
child, and an unforced call on the same container. -/
theorem kidsLayout_no_loop_witness :
    kidsLayout demo demoDUI () (demoKid 0 0 0 50 50 .Clean .Clean)
        [demoKid 3 10 0 20 10 .Clean .Dirty] true =
      .ret ⟨(), demoKid 0 0 0 50 50 .Dirty .Clean, [demoKid 3 10 0 20 10 .Clean .Dirty], []⟩
        false ∧
    kidsLayout demo demoDUI () (demoKid 0 0 0 50 50 .Clean .Clean)
        [demoKid 3 10 0 20 10 .Clean .Dirty] false =
      .ret ⟨(), demoKid 0 0 0 50 50 .Clean .Clean, [demoKid 3 10 0 20 10 .Clean .Dirty], []⟩
        true :=
  ⟨(kidsLayout_no_loop demo demoDUI () (demoKid 0 0 0 50 50 .Clean .Clean)
      [demoKid 3 10 0 20 10 .Clean .Dirty] true).1 (Or.inl rfl),
    (kidsLayout_no_loop demo demoDUI () (demoKid 0 0 0 50 50 .Clean .Clean)
      [demoKid 3 10 0 20 10 .Clean .Dirty] false).2 rfl rfl⟩

/-! ## kidsFirstFocus and kidsFocus -/

/-- The loop of kidsFirstFocus finds nothing exactly when no child has a
FirstFocus. -/
theorem kidsFirstFocusLoop_none {S : Type} (ui : Methods S) (dui : DUI) (s : S)
    (kids : List Kid) :
    kidsFirstFocusLoop ui dui s kids = none ↔ ∀ k ∈ kids, ui.FirstFocus k.UI dui s = none := by
  induction kids with
  | nil => simp [kidsFirstFocusLoop]
  | cons k rest ih =>
    cases hk : ui.FirstFocus k.UI dui s with
    | some first => simp [kidsFirstFocusLoop, hk]
    | none => simp [kidsFirstFocusLoop, hk, ih]

/-- The loop of kidsFirstFocus stops at the first child with a FirstFocus. -/
theorem kidsFirstFocusLoop_some {S : Type} (ui : Methods S) (dui : DUI) (s : S)
    (a : List Kid) (k : Kid) (b : List Kid) (p : Point)
    (ha : ∀ x ∈ a, ui.FirstFocus x.UI dui s = none) (hk : ui.FirstFocus k.UI dui s = some p) :
    kidsFirstFocusLoop ui dui s (a ++ k :: b) = some (p.Add k.R.Min) := by
  induction a with
  | nil => simp [kidsFirstFocusLoop, hk]
  | cons x a ih =>
    have hx := ha x (List.mem_cons_self _ _)
    simp only [List.cons_append, kidsFirstFocusLoop, hx]
    exact ih (fun y hy => ha y (List.mem_cons_of_mem _ hy))

/-- The loop of kidsFocus finds nothing exactly when no child has a Focus
for the target. -/
theorem kidsFocusLoop_none {S : Type} (ui : Methods S) (dui : DUI) (s : S) (o : UI)
    (kids : List Kid) :
    kidsFocusLoop ui dui s o kids = none ↔ ∀ k ∈ kids, ui.Focus k.UI dui s o = none := by
  induction kids with
  | nil => simp [kidsFocusLoop]
  | cons k rest ih =>
    cases hk : ui.Focus k.UI dui s o with
    | some first => simp [kidsFocusLoop, hk]
    | none => simp [kidsFocusLoop, hk, ih]

/-- The loop of kidsFocus stops at the first child with a Focus for the target. -/
theorem kidsFocusLoop_some {S : Type} (ui : Methods S) (dui : DUI) (s : S) (o : UI)
    (a : List Kid) (k : Kid) (b : List Kid) (p : Point)
    (ha : ∀ x ∈ a, ui.Focus x.UI dui s o = none) (hk : ui.Focus k.UI dui s o = some p) :
    kidsFocusLoop ui dui s o (a ++ k :: b) = some (p.Add k.R.Min) := by
  induction a with
  | nil => simp [kidsFocusLoop, hk]
  | cons x a ih =>
    have hx := ha x (List.mem_cons_self _ _)
    simp only [List.cons_append, kidsFocusLoop, hx]
    exact ih (fun y hy => ha y (List.mem_cons_of_mem _ hy))

/-- C20. kidsFirstFocus returns none exactly when every child's FirstFocus
is none (so for no children), and otherwise `p + k.R.Min` for the first
child `k` whose FirstFocus is a point `p`; kidsFocus does the same with
each child's Focus for the target `o`. -/
theorem kidsFirstFocus_kidsFocus_spec {S : Type} (ui : Methods S) (dui : DUI) (s : S)
    (kids : List Kid) (o : UI) :
    ((kidsFirstFocus ui dui s kids = none ↔ ∀ k ∈ kids, ui.FirstFocus k.UI dui s = none) ∧
      (∀ (a : List Kid) (k : Kid) (b : List Kid) (p : Point), kids = a ++ k :: b →
        (∀ x ∈ a, ui.FirstFocus x.UI dui s = none) → ui.FirstFocus k.UI dui s = some p →
        kidsFirstFocus ui dui s kids = some (p.Add k.R.Min))) ∧
    ((kidsFocus ui dui s kids o = none ↔ ∀ k ∈ kids, ui.Focus k.UI dui s o = none) ∧
      (∀ (a : List Kid) (k : Kid) (b : List Kid) (p : Point), kids = a ++ k :: b →
        (∀ x ∈ a, ui.Focus x.UI dui s o = none) → ui.Focus k.UI dui s o = some p →
        kidsFocus ui dui s kids o = some (p.Add k.R.Min))) := by
  refine ⟨⟨?_, ?_⟩, ⟨?_, ?_⟩⟩
  · unfold kidsFirstFocus
    cases kids with
    | nil => simp
    | cons k rest => simpa using kidsFirstFocusLoop_none ui dui s (k :: rest)
  · intro a k b p hkids ha hk
    subst hkids
    unfold kidsFirstFocus
    rw [if_neg (by simp)]
    exact kidsFirstFocusLoop_some ui dui s a k b p ha hk
  · unfold kidsFocus
    cases kids with
    | nil => simp
    | cons k rest => simpa using kidsFocusLoop_none ui dui s o (k :: rest)
  · intro a k b p hkids ha hk
    subst hkids
    unfold kidsFocus
    rw [if_neg (by simp)]
    exact kidsFocusLoop_some ui dui s o a k b p ha hk

/-- C20 at a concrete input: three children of which only the third
(node 5, at (20,0)) accepts focus, at (0,0); the target of kidsFocus is the
second child (node 4, at (10,0)). -/
theorem kidsFirstFocus_kidsFocus_spec_witness :
    kidsFirstFocus demo demoDUI ()
        ([demoKid 2 0 0 10 10 .Clean .Clean, demoKid 4 10 0 20 10 .Clean .Clean] ++
          demoKid 5 20 0 30 10 .Clean .Clean :: []) = some (ZP.Add ⟨20, 0⟩) ∧
      kidsFocus demo demoDUI ()
        ([demoKid 2 0 0 10 10 .Clean .Clean] ++ demoKid 4 10 0 20 10 .Clean .Clean ::
          [demoKid 5 20 0 30 10 .Clean .Clean]) ⟨4⟩ = some (ZP.Add ⟨10, 0⟩) :=
  ⟨(kidsFirstFocus_kidsFocus_spec demo demoDUI () _ ⟨4⟩).1.2
      [demoKid 2 0 0 10 10 .Clean .Clean, demoKid 4 10 0 20 10 .Clean .Clean]
      (demoKid 5 20 0 30 10 .Clean .Clean) [] ZP rfl (by decide) (by decide),
    (kidsFirstFocus_kidsFocus_spec demo demoDUI () _ ⟨4⟩).2.2
      [demoKid 2 0 0 10 10 .Clean .Clean] (demoKid 4 10 0 20 10 .Clean .Clean)
      [demoKid 5 20 0 30 10 .Clean .Clean] ZP rfl (by decide) (by decide)⟩

/-! ## Label.Layout and Radiobutton.Layout -/

/-- C14, as stated, fails: a Kid whose layout marker is Dirty on entry
still has it Dirty after Label.Layout (text "hi") and after
Radiobutton.Layout (BorderSize 1, font height 20), so not Clean. -/
theorem leaf_Layout_leaves_dirty :
    (Label.Layout ⟨"hi", [], ZP⟩ demoFont (demoKid 1 0 0 3 3 .Clean .Dirty) ⟨100, 100⟩
        false).2.Layout = .Dirty ∧
      (Radiobutton.Layout 1 20 (demoKid 1 0 0 3 3 .Clean .Dirty) ⟨100, 100⟩ false).Layout =
        .Dirty := by
  decide

/-- C14, amended. Label.Layout and Radiobutton.Layout leave the layout
marker (and the draw marker) of the Kid as on entry, so it is Clean
afterwards exactly when it was Clean on entry; and a second call with the
same available size leaves it as on entry again. -/
theorem leaf_Layout_marker (ui : Label) (font : Font) (BorderSize fontHeight : Int)
    (self : Kid) (sizeAvail : Point) (force : Bool) :
    ((Label.Layout ui font self sizeAvail force).2.Layout = self.Layout ∧
      (Label.Layout ui font self sizeAvail force).2.Draw = self.Draw ∧
      ((Label.Layout ui font self sizeAvail force).2.Layout = .Clean ↔ self.Layout = .Clean) ∧
      (Label.Layout (Label.Layout ui font self sizeAvail force).1 font
        (Label.Layout ui font self sizeAvail force).2 sizeAvail force).2.Layout = self.Layout) ∧
    ((Radiobutton.Layout BorderSize fontHeight self sizeAvail force).Layout = self.Layout ∧
      (Radiobutton.Layout BorderSize fontHeight self sizeAvail force).Draw = self.Draw ∧
      ((Radiobutton.Layout BorderSize fontHeight self sizeAvail force).Layout = .Clean ↔
        self.Layout = .Clean) ∧
      (Radiobutton.Layout BorderSize fontHeight
        (Radiobutton.Layout BorderSize fontHeight self sizeAvail force) sizeAvail force).Layout =
        self.Layout) := by
  simp [Label.Layout, Radiobutton.Layout]

/-- C15, as stated, fails: a Kid whose rectangle has the min corner (10,0)
on entry has the min corner (0,0) after Label.Layout (text "hi") and after
Radiobutton.Layout (BorderSize 1, font height 20). -/
theorem leaf_Layout_moves_min :
    (demoKid 1 10 0 20 10 .Clean .Dirty).R.Min = ⟨10, 0⟩ ∧
      (Label.Layout ⟨"hi", [], ZP⟩ demoFont (demoKid 1 10 0 20 10 .Clean .Dirty) ⟨100, 100⟩
        false).2.R = ⟨⟨0, 0⟩, ⟨14, 10⟩⟩ ∧
      (Radiobutton.Layout 1 20 (demoKid 1 10 0 20 10 .Clean .Dirty) ⟨100, 100⟩ false).R =
        ⟨⟨0, 0⟩, ⟨18, 19⟩⟩ := by
  decide

/-- C15, amended. Label.Layout and Radiobutton.Layout set the rectangle of
the Kid to the rectangle of the computed size at the origin: the min corner
is (0,0), whatever it was on entry, and the max corner is the computed size
(for a Label the size it stores in `ui.size`, for a Radiobutton the square
of side `2*BorderSize + 4*fontHeight/5` plus (0,1)). Of the Kid only the
rectangle is changed. -/
theorem leaf_Layout_rect (ui : Label) (font : Font) (BorderSize fontHeight : Int)
    (self : Kid) (sizeAvail : Point) (force : Bool) :
    ((Label.Layout ui font self sizeAvail force).2.R.Min = ZP ∧
      (Label.Layout ui font self sizeAvail force).2.R.Max =
        (Label.Layout ui font self sizeAvail force).1.size ∧
      (Label.Layout ui font self sizeAvail force).2 =
        { self with R := rect (Label.Layout ui font self sizeAvail force).1.size }) ∧
    ((Radiobutton.Layout BorderSize fontHeight self sizeAvail force).R.Min = ZP ∧
      (Radiobutton.Layout BorderSize fontHeight self sizeAvail force).R.Max =
        (pt (wrapInt (wrapInt (2 * BorderSize) + Int.tdiv (wrapInt (4 * fontHeight)) 5))).Add
          ⟨0, 1⟩ ∧
      Radiobutton.Layout BorderSize fontHeight self sizeAvail force =
        { self with R := rect ((pt (wrapInt (wrapInt (2 * BorderSize) +
          Int.tdiv (wrapInt (4 * fontHeight)) 5))).Add ⟨0, 1⟩) }) := by
  simp [Label.Layout, Radiobutton.Layout, rect]

/-! ## kidsDraw: the markers afterwards and the log -/

/-- When the loop of kidsDraw returns, started with children already
visited that are all Clean, `self` and every child are Clean for drawing,
and there are as many children as before. -/
theorem kidsDrawLoop_clean {S : Type} (ui : Methods S) (dui : DUI) (orig : Point) (m : Mouse)
    (force : Bool) (rest : List Kid) (s : S) (self : Kid) (pre : List Kid) (tr : List Ev)
    (hpre : ∀ k ∈ pre, k.Draw = .Clean)
    (hret : (kidsDrawLoop ui dui orig m force rest s self pre tr).returns = true) :
    (kidsDrawLoop ui dui orig m force rest s self pre tr).st.self.Draw = .Clean ∧
      (∀ k ∈ (kidsDrawLoop ui dui orig m force rest s self pre tr).st.kids, k.Draw = .Clean) ∧
      (kidsDrawLoop ui dui orig m force rest s self pre tr).st.kids.length =
        pre.length + rest.length := by
  induction rest generalizing s pre tr with
  | nil => simpa [kidsDrawLoop, Outcome.st] using hpre
  | cons k rest ih =>
    rw [kidsDrawLoop] at hret ⊢
    split
    · next hskip =>
      rw [if_pos hskip] at hret
      have hk : k.Draw = .Clean := by
        simp only [Bool.and_eq_true, decide_eq_true_eq] at hskip
        exact hskip.2
      have hpre1 : ∀ x ∈ pre ++ [k], x.Draw = .Clean := by
        intro x hx
        rcases List.mem_append.1 hx with hx | hx
        · exact hpre x hx
        · rw [List.mem_singleton.1 hx]; exact hk
      have h := ih s (pre ++ [k]) tr hpre1 hret
      refine ⟨h.1, h.2.1, ?_⟩
      rw [h.2.2]
      simp only [List.length_append, List.length_cons, List.length_nil]
      omega
    · next hskip =>
      rw [if_neg hskip] at hret
      split
      · next hp =>
        rw [if_pos hp] at hret
        simp [Outcome.returns] at hret
      · next hp =>
        rw [if_neg hp] at hret
        have hpre1 : ∀ x ∈ pre ++ [{ (ui.Draw (if force = true then { k with Draw := .Dirty }
            else k).UI dui s (if force = true then { k with Draw := .Dirty } else k)
            (orig.Add (if force = true then { k with Draw := .Dirty } else k).R.Min)
            { m with Point := m.Point.Sub k.R.Min } force).2 with Draw := State.Clean }],
            x.Draw = .Clean := by
          intro x hx
          rcases List.mem_append.1 hx with hx | hx
          · exact hpre x hx
          · rw [List.mem_singleton.1 hx]
        have h := ih _ _ _ hpre1 hret
        refine ⟨h.1, h.2.1, ?_⟩
        rw [h.2.2]
        simp only [List.length_append, List.length_cons, List.length_nil]
        omega

/-- The loop of kidsDraw returns when the diagnostic mode is off or has a
colour to index. -/
theorem kidsDrawLoop_returns {S : Type} (ui : Methods S) (dui : DUI) (orig : Point)
    (m : Mouse) (force : Bool) (rest : List Kid) (s : S) (self : Kid) (pre : List Kid)
    (tr : List Ev) (hd : dui.DebugKids = false ∨ dui.debugColors ≠ []) :
    (kidsDrawLoop ui dui orig m force rest s self pre tr).returns = true := by
  have hp : ¬ ((dui.DebugKids && decide (dui.debugColors.length = 0)) = true) := by
    rcases hd with hd | hd
    · simp [hd]
    · simp [hd]
  induction rest generalizing s pre tr with
  | nil => simp [kidsDrawLoop, Outcome.returns]
  | cons k rest ih =>
    rw [kidsDrawLoop]
    by_cases hskip : (!force && decide (k.Draw = State.Clean)) = true
    · rw [if_pos hskip]
      exact ih s _ tr
    · rw [if_neg hskip, if_neg hp]
      exact ih _ _ _

/-- Outside diagnostic mode the loop of kidsDraw appends to the trace the
log that the spec describes for the children not yet visited. -/
theorem kidsDrawLoop_log {S : Type} (ui : Methods S) (dui : DUI) (orig : Point) (m : Mouse)
    (force : Bool) (rest : List Kid) (s : S) (self : Kid) (pre : List Kid) (tr : List Ev)
    (hd : dui.DebugKids = false) :
    (kidsDrawLoop ui dui orig m force rest s self pre tr).st.trace =
      tr ++ drawLogKids dui orig m force pre.length rest := by
  induction rest generalizing s pre tr with
  | nil => simp [kidsDrawLoop, drawLogKids, Outcome.st]
  | cons k rest ih =>
    rw [kidsDrawLoop, drawLogKids]
    by_cases hskip : (!force && decide (k.Draw = State.Clean)) = true
    · rw [if_pos hskip, if_pos hskip, ih s (pre ++ [k]) tr]
      simp
    · rw [if_neg hskip, if_neg hskip, if_neg (by simp [hd])]
      simp only [hd, ih, Bool.false_eq_true, if_false]
      cases force <;> by_cases hdirty : k.Draw = .Dirty <;> simp [hdirty]

/-- C16. For every kidsDraw call (any force flag, any markers on entry),
a child's Draw changing only the node store and its own Kid: when kidsDraw
returns, self.Draw is Clean and the draw marker of every child is Clean
(and there are as many children as on entry); and it returns whenever the
diagnostic mode is off or has a debug colour. -/
theorem kidsDraw_all_clean {S : Type} (ui : Methods S) (dui : DUI) (s : S) (self : Kid)
    (kids : List Kid) (uiSize orig : Point) (m : Mouse) (force : Bool) :
    ((kidsDraw ui dui s self kids uiSize orig m force).returns = true →
      (kidsDraw ui dui s self kids uiSize orig m force).st.self.Draw = .Clean ∧
      (∀ k ∈ (kidsDraw ui dui s self kids uiSize orig m force).st.kids, k.Draw = .Clean) ∧
      (kidsDraw ui dui s self kids uiSize orig m force).st.kids.length = kids.length) ∧
    (dui.DebugKids = false ∨ dui.debugColors ≠ [] →
      (kidsDraw ui dui s self kids uiSize orig m force).returns = true) := by
  constructor
  · intro hret
    have h := kidsDrawLoop_clean ui dui orig m (force || decide (self.Draw = .Dirty)) kids s
      (if (force || decide (self.Draw = .Dirty)) = true then { self with Draw := .Dirty }
        else self) []
      (if (force || decide (self.Draw = .Dirty)) = true then
        [Ev.imgDraw ((rect uiSize).Add orig) dui.Background] else [])
      (by simp) hret
    simpa [kidsDraw] using h
  · intro hd
    exact kidsDrawLoop_returns ui dui orig m _ kids s _ [] _ hd

/-- C16 at a concrete input: a container whose draw marker is DirtyKid,
with a Clean child and a Dirty child, outside diagnostic mode. -/
theorem kidsDraw_all_clean_witness :
    (demoDUI.DebugKids = false ∨ demoDUI.debugColors ≠ []) ∧
      (kidsDraw demo demoDUI () (demoKid 0 0 0 20 10 .DirtyKid .Clean)
        [demoKid 2 0 0 10 10 .Clean .Clean, demoKid 3 10 0 20 10 .Dirty .Clean] ⟨20, 10⟩ ZP
        ⟨⟨5, 5⟩, 0, 0⟩ false).st.self.Draw = .Clean ∧
      (∀ k ∈ (kidsDraw demo demoDUI () (demoKid 0 0 0 20 10 .DirtyKid .Clean)
        [demoKid 2 0 0 10 10 .Clean .Clean, demoKid 3 10 0 20 10 .Dirty .Clean] ⟨20, 10⟩ ZP
        ⟨⟨5, 5⟩, 0, 0⟩ false).st.kids, k.Draw = .Clean) :=
  ⟨Or.inl rfl,
    ((kidsDraw_all_clean demo demoDUI () (demoKid 0 0 0 20 10 .DirtyKid .Clean)
      [demoKid 2 0 0 10 10 .Clean .Clean, demoKid 3 10 0 20 10 .Dirty .Clean] ⟨20, 10⟩ ZP
      ⟨⟨5, 5⟩, 0, 0⟩ false).1
      ((kidsDraw_all_clean demo demoDUI () (demoKid 0 0 0 20 10 .DirtyKid .Clean)
        [demoKid 2 0 0 10 10 .Clean .Clean, demoKid 3 10 0 20 10 .Dirty .Clean] ⟨20, 10⟩ ZP
        ⟨⟨5, 5⟩, 0, 0⟩ false).2 (Or.inl rfl))).1,
    ((kidsDraw_all_clean demo demoDUI () (demoKid 0 0 0 20 10 .DirtyKid .Clean)
      [demoKid 2 0 0 10 10 .Clean .Clean, demoKid 3 10 0 20 10 .Dirty .Clean] ⟨20, 10⟩ ZP
      ⟨⟨5, 5⟩, 0, 0⟩ false).1
      ((kidsDraw_all_clean demo demoDUI () (demoKid 0 0 0 20 10 .DirtyKid .Clean)
        [demoKid 2 0 0 10 10 .Clean .Clean, demoKid 3 10 0 20 10 .Dirty .Clean] ⟨20, 10⟩ ZP
        ⟨⟨5, 5⟩, 0, 0⟩ false).2 (Or.inl rfl))).2.1⟩

/-- C17. Outside diagnostic mode kidsDraw returns, and its trace is the log
that the spec describes, with the combined flag
`force || self.Draw == Dirty`: the fill of the container's full rectangle
comes first and only under the combined flag; the fill of a child's
rectangle comes right before that child's Draw and only when the combined
flag is off and the child's draw marker is Dirty; every Draw is handed the
combined flag. -/
theorem kidsDraw_log {S : Type} (ui : Methods S) (dui : DUI) (s : S) (self : Kid)
    (kids : List Kid) (uiSize orig : Point) (m : Mouse) (force : Bool)
    (hd : dui.DebugKids = false) :
    (kidsDraw ui dui s self kids uiSize orig m force).returns = true ∧
      (kidsDraw ui dui s self kids uiSize orig m force).st.trace =
        drawLog dui kids uiSize orig m (force || decide (self.Draw = .Dirty)) := by
  constructor
  · exact kidsDrawLoop_returns ui dui orig m _ kids s _ [] _ (Or.inl hd)
  · unfold kidsDraw drawLog
    simp only []
    rw [kidsDrawLoop_log ui dui orig m _ kids s _ [] _ hd]
    simp

/-- C17 at concrete inputs. Unforced, under a container whose draw marker
is DirtyKid: the Clean child A is skipped, the Dirty child B is erased and
drawn, the DirtyKid child C is drawn without a fill. Under a container
whose draw marker is Dirty: the full rectangle is filled first and every
child is drawn with force. -/
theorem kidsDraw_log_witness :
    demoDUI.DebugKids = false ∧
      (kidsDraw demo demoDUI () (demoKid 0 0 0 30 10 .DirtyKid .Clean)
        [demoKid 2 0 0 10 10 .Clean .Clean, demoKid 3 10 0 20 10 .Dirty .Clean,
          demoKid 5 20 0 30 10 .DirtyKid .Clean] ⟨30, 10⟩ ⟨100, 200⟩
        ⟨⟨15, 5⟩, 0, 0⟩ false).st.trace =
        drawLog demoDUI [demoKid 2 0 0 10 10 .Clean .Clean, demoKid 3 10 0 20 10 .Dirty .Clean,
          demoKid 5 20 0 30 10 .DirtyKid .Clean] ⟨30, 10⟩ ⟨100, 200⟩ ⟨⟨15, 5⟩, 0, 0⟩
          (false || decide ((demoKid 0 0 0 30 10 .DirtyKid .Clean).Draw = .Dirty)) ∧
      drawLog demoDUI [demoKid 2 0 0 10 10 .Clean .Clean, demoKid 3 10 0 20 10 .Dirty .Clean,
          demoKid 5 20 0 30 10 .DirtyKid .Clean] ⟨30, 10⟩ ⟨100, 200⟩ ⟨⟨15, 5⟩, 0, 0⟩ false =
        [Ev.imgDraw ⟨⟨110, 200⟩, ⟨120, 210⟩⟩ 0,
          Ev.kid 1 (Call.Draw (demoKid 3 10 0 20 10 .Dirty .Clean) ⟨110, 200⟩ ⟨⟨5, 5⟩, 0, 0⟩
            false),
          Ev.kid 2 (Call.Draw (demoKid 5 20 0 30 10 .DirtyKid .Clean) ⟨120, 200⟩
            ⟨⟨-5, 5⟩, 0, 0⟩ false)] ∧
      drawLog demoDUI [demoKid 2 0 0 10 10 .Clean .Clean] ⟨30, 10⟩ ⟨100, 200⟩
          ⟨⟨15, 5⟩, 0, 0⟩ true =
        [Ev.imgDraw ⟨⟨100, 200⟩, ⟨130, 210⟩⟩ 0,
          Ev.kid 0 (Call.Draw (demoKid 2 0 0 10 10 .Dirty .Clean) ⟨100, 200⟩ ⟨⟨15, 5⟩, 0, 0⟩
            true)] :=
  ⟨rfl,
    (kidsDraw_log demo demoDUI () (demoKid 0 0 0 30 10 .DirtyKid .Clean)
      [demoKid 2 0 0 10 10 .Clean .Clean, demoKid 3 10 0 20 10 .Dirty .Clean,
        demoKid 5 20 0 30 10 .DirtyKid .Clean] ⟨30, 10⟩ ⟨100, 200⟩
      ⟨⟨15, 5⟩, 0, 0⟩ false rfl).2,
    by decide, by decide⟩

/-! ## kidsLayout: which children are laid out -/

/-- The calls on child `i` in two traces one after the other. -/
theorem callsAt_append (i : Nat) (a b : List Ev) :
    callsAt i (a ++ b) = callsAt i a ++ callsAt i b := by
  simp [callsAt, List.filterMap_append]

/-- The calls on child `i` in a trace that starts with a call on child `j`. -/
theorem callsAt_cons_kid (i j : Nat) (c : Call) (tr : List Ev) :
    callsAt i (Ev.kid j c :: tr) = if j = i then c :: callsAt i tr else callsAt i tr := by
  by_cases h : j = i <;> simp [callsAt, List.filterMap_cons, Ev.callAt, h]

/-- A Layout call on child `i` in a trace is among its Layout results. -/
theorem mem_layoutResults_of_callsAt (i : Nat) (tr : List Ev) (k : Kid) (sz : Point)
    (f : Bool) (after : Kid) (h : Call.Layout k sz f after ∈ callsAt i tr) :
    after ∈ layoutResults tr := by
  simp only [callsAt, List.mem_filterMap] at h
  obtain ⟨e, he, hc⟩ := h
  simp only [layoutResults, List.mem_filterMap]
  refine ⟨e, he, ?_⟩
  cases e with
  | imgDraw r src => simp [Ev.callAt] at hc
  | kid j c =>
    by_cases hj : j = i
    · simp only [Ev.callAt, hj, if_true, Option.some.injEq] at hc
      rw [hc]
      rfl
    · simp [Ev.callAt, hj] at hc

/-- The calls of the loop of kidsLayout, child by child. The loop appends
`new` to the trace, and in `new`: there is no call on a child already
visited; no call on a Clean child; at most one call on a child, a Layout
with its rectangle's size and force = false; when the loop returns true,
every child that was not Clean has its one call, which left it Clean; and
when the loop returns false (panics), there is a child that was not Clean
whose one call left it Dirty (DirtyKid), the children before it that were
not Clean have their one call, which left them Clean, and the children
after it have no call. -/
theorem kidsLayoutLoop_calls {S : Type} (ui : Methods S) (dui : DUI) (rest : List Kid)
    (s : S) (self : Kid) (pre : List Kid) (tr : List Ev) :
    ∃ new, (kidsLayoutLoop ui dui rest s self pre tr).st.trace = tr ++ new ∧
      (∀ i, i < pre.length → callsAt i new = []) ∧
      (∀ j k, rest[j]? = some k → k.Layout = .Clean → callsAt (pre.length + j) new = []) ∧
      (∀ j k, rest[j]? = some k → callsAt (pre.length + j) new = [] ∨
        ∃ after, callsAt (pre.length + j) new = [Call.Layout k k.R.Size false after]) ∧
      ((kidsLayoutLoop ui dui rest s self pre tr).val = some true →
        ∀ j k, rest[j]? = some k → k.Layout ≠ .Clean →
          ∃ after, callsAt (pre.length + j) new = [Call.Layout k k.R.Size false after] ∧
            after.Layout = .Clean) ∧
      (∀ stop : State,
        (stop = .Dirty ∧ (kidsLayoutLoop ui dui rest s self pre tr).val = some false) ∨
          (stop = .DirtyKid ∧ (kidsLayoutLoop ui dui rest s self pre tr).val = none) →
        ∃ j k after, rest[j]? = some k ∧ k.Layout ≠ .Clean ∧
          callsAt (pre.length + j) new = [Call.Layout k k.R.Size false after] ∧
          after.Layout = stop ∧
          (∀ j2 k2, j2 < j → rest[j2]? = some k2 → k2.Layout ≠ .Clean →
            ∃ after2, callsAt (pre.length + j2) new = [Call.Layout k2 k2.R.Size false after2] ∧
              after2.Layout = .Clean) ∧
          (∀ j2, j < j2 → callsAt (pre.length + j2) new = [])) := by
  induction rest generalizing s pre tr with
  | nil =>
    refine ⟨[], by simp [kidsLayoutLoop, Outcome.st], ?_, ?_, ?_, ?_, ?_⟩
    · intro i _; rfl
    · intro j k hj; simp at hj
    · intro j k hj; simp at hj
    · intro _ j k hj; simp at hj
    · intro stop h
      simp [kidsLayoutLoop, Outcome.val] at h
  | cons k rest ih =>
    by_cases hc : k.Layout = .Clean
    · have hloop : kidsLayoutLoop ui dui (k :: rest) s self pre tr =
          kidsLayoutLoop ui dui rest s self (pre ++ [k]) tr := by
        simp [kidsLayoutLoop, hc]
      obtain ⟨new, htr, h1, h2, h3, h4, h5⟩ := ih s (pre ++ [k]) tr
      have hlen : (pre ++ [k]).length = pre.length + 1 := by simp
      rw [hlen] at h1 h2 h3 h4 h5
      rw [hloop]
      refine ⟨new, htr, fun i hi => h1 i (by omega), ?_, ?_, ?_, ?_⟩
      · intro j kj hj hcj
        cases j with
        | zero => exact h1 pre.length (by omega)
        | succ j =>
          simp only [List.getElem?_cons_succ] at hj
          rw [show pre.length + (j + 1) = pre.length + 1 + j by omega]
          exact h2 j kj hj hcj
      · intro j kj hj
        cases j with
        | zero => exact Or.inl (h1 pre.length (by omega))
        | succ j =>
          simp only [List.getElem?_cons_succ] at hj
          rw [show pre.length + (j + 1) = pre.length + 1 + j by omega]
          exact h3 j kj hj
      · intro hv j kj hj hcj
        cases j with
        | zero =>
          simp only [List.getElem?_cons_zero, Option.some.injEq] at hj
          rw [← hj] at hcj
          exact absurd hc hcj
        | succ j =>
          simp only [List.getElem?_cons_succ] at hj
          rw [show pre.length + (j + 1) = pre.length + 1 + j by omega]
          exact h4 hv j kj hj hcj
      · intro stop hstop
        obtain ⟨j, kj, after, hj, hcj, hcall, hafter, hbefore, hlater⟩ := h5 stop hstop
        refine ⟨j + 1, kj, after, by simpa using hj, hcj, ?_, hafter, ?_, ?_⟩
        · rw [show pre.length + (j + 1) = pre.length + 1 + j by omega]
          exact hcall
        · intro j2 k2 hlt hj2 hc2
          cases j2 with
          | zero =>
            simp only [List.getElem?_cons_zero, Option.some.injEq] at hj2
            rw [← hj2] at hc2
            exact absurd hc hc2
          | succ j2 =>
            simp only [List.getElem?_cons_succ] at hj2
            rw [show pre.length + (j2 + 1) = pre.length + 1 + j2 by omega]
            exact hbefore j2 k2 (by omega) hj2 hc2
        · intro j2 hlt
          cases j2 with
          | zero => omega
          | succ j2 =>
            rw [show pre.length + (j2 + 1) = pre.length + 1 + j2 by omega]
            exact hlater j2 (by omega)
    · cases hl : (ui.Layout k.UI dui s k k.R.Size false).2.Layout with
      | Clean =>
        have hloop : kidsLayoutLoop ui dui (k :: rest) s self pre tr =
            kidsLayoutLoop ui dui rest (ui.Layout k.UI dui s k k.R.Size false).1 self
              (pre ++ [(ui.Layout k.UI dui s k k.R.Size false).2])
              (tr ++ [Ev.kid pre.length
                (Call.Layout k k.R.Size false (ui.Layout k.UI dui s k k.R.Size false).2)]) := by
          simp [kidsLayoutLoop, hc, hl]
        obtain ⟨new, htr, h1, h2, h3, h4, h5⟩ := ih (ui.Layout k.UI dui s k k.R.Size false).1
          (pre ++ [(ui.Layout k.UI dui s k k.R.Size false).2])
          (tr ++ [Ev.kid pre.length
            (Call.Layout k k.R.Size false (ui.Layout k.UI dui s k k.R.Size false).2)])
        have hlen : (pre ++ [(ui.Layout k.UI dui s k k.R.Size false).2]).length =
            pre.length + 1 := by simp
        rw [hlen] at h1 h2 h3 h4 h5
        rw [hloop]
        have hown : callsAt pre.length (Ev.kid pre.length
            (Call.Layout k k.R.Size false (ui.Layout k.UI dui s k k.R.Size false).2) :: new) =
            [Call.Layout k k.R.Size false (ui.Layout k.UI dui s k k.R.Size false).2] := by
          rw [callsAt_cons_kid, if_pos rfl, h1 pre.length (by omega)]
        have hother : ∀ i, i ≠ pre.length → callsAt i (Ev.kid pre.length
            (Call.Layout k k.R.Size false (ui.Layout k.UI dui s k k.R.Size false).2) :: new) =
            callsAt i new := by
          intro i hi
          rw [callsAt_cons_kid, if_neg (fun h => hi h.symm)]
        refine ⟨Ev.kid pre.length
          (Call.Layout k k.R.Size false (ui.Layout k.UI dui s k k.R.Size false).2) :: new,
          by rw [htr, List.append_assoc]; rfl, ?_, ?_, ?_, ?_, ?_⟩
        · intro i hi
          rw [hother i (by omega)]
          exact h1 i (by omega)
        · intro j kj hj hcj
          cases j with
          | zero =>
            simp only [List.getElem?_cons_zero, Option.some.injEq] at hj
            rw [← hj] at hcj
            exact absurd hcj hc
          | succ j =>
            simp only [List.getElem?_cons_succ] at hj
            rw [hother _ (by omega), show pre.length + (j + 1) = pre.length + 1 + j by omega]
            exact h2 j kj hj hcj
        · intro j kj hj
          cases j with
          | zero =>
            simp only [List.getElem?_cons_zero, Option.some.injEq] at hj
            subst hj
            exact Or.inr ⟨_, hown⟩
          | succ j =>
            simp only [List.getElem?_cons_succ] at hj
            rw [hother _ (by omega), show pre.length + (j + 1) = pre.length + 1 + j by omega]
            exact h3 j kj hj
        · intro hv j kj hj hcj
          cases j with
          | zero =>
            simp only [List.getElem?_cons_zero, Option.some.injEq] at hj
            subst hj
            exact ⟨_, hown, hl⟩
          | succ j =>
            simp only [List.getElem?_cons_succ] at hj
            rw [hother _ (by omega), show pre.length + (j + 1) = pre.length + 1 + j by omega]
            exact h4 hv j kj hj hcj
        · intro stop hstop
          obtain ⟨j, kj, after, hj, hcj, hcall, hafter, hbefore, hlater⟩ := h5 stop hstop
          refine ⟨j + 1, kj, after, by simpa using hj, hcj, ?_, hafter, ?_, ?_⟩
          · rw [hother _ (by omega), show pre.length + (j + 1) = pre.length + 1 + j by omega]
            exact hcall
          · intro j2 k2 hlt hj2 hc2
            cases j2 with
            | zero =>
              simp only [List.getElem?_cons_zero, Option.some.injEq] at hj2
              subst hj2
              exact ⟨_, hown, hl⟩
            | succ j2 =>
              simp only [List.getElem?_cons_succ] at hj2
              rw [hother _ (by omega),
                show pre.length + (j2 + 1) = pre.length + 1 + j2 by omega]
              exact hbefore j2 k2 (by omega) hj2 hc2
          · intro j2 hlt
            cases j2 with
            | zero => omega
            | succ j2 =>
              rw [hother _ (by omega),
                show pre.length + (j2 + 1) = pre.length + 1 + j2 by omega]
              exact hlater j2 (by omega)
      | Dirty =>
        have hloop : kidsLayoutLoop ui dui (k :: rest) s self pre tr =
            .ret ⟨(ui.Layout k.UI dui s k k.R.Size false).1,
              { self with Layout := .Dirty, Draw := .Dirty },
              pre ++ (ui.Layout k.UI dui s k k.R.Size false).2 :: rest,
              tr ++ [Ev.kid pre.length
                (Call.Layout k k.R.Size false (ui.Layout k.UI dui s k k.R.Size false).2)]⟩
              false := by
          simp [kidsLayoutLoop, hc, hl]
        rw [hloop]
        refine ⟨[_], rfl, ?_, ?_, ?_, ?_, ?_⟩
        · intro i hi
          rw [callsAt_cons_kid, if_neg (by omega)]; rfl
        · intro j kj hj hcj
          cases j with
          | zero =>
            simp only [List.getElem?_cons_zero, Option.some.injEq] at hj
            rw [← hj] at hcj
            exact absurd hcj hc
          | succ j => rw [callsAt_cons_kid, if_neg (by omega)]; rfl
        · intro j kj hj
          cases j with
          | zero =>
            simp only [List.getElem?_cons_zero, Option.some.injEq] at hj
            subst hj
            exact Or.inr ⟨(ui.Layout k.UI dui s k k.R.Size false).2,
              by rw [Nat.add_zero, callsAt_cons_kid, if_pos rfl]; rfl⟩
          | succ j => exact Or.inl (by rw [callsAt_cons_kid, if_neg (by omega)]; rfl)
        · intro hv
          simp [Outcome.val] at hv
        · intro stop hstop
          have hs : stop = .Dirty := by
            rcases hstop with h | h
            · exact h.1
            · simp [Outcome.val] at h
          subst hs
          refine ⟨0, k, _, by simp, hc,
            by rw [Nat.add_zero, callsAt_cons_kid, if_pos rfl]; rfl, hl, ?_, ?_⟩
          · intro j2 k2 hlt; omega
          · intro j2 hlt
            rw [callsAt_cons_kid, if_neg (by omega)]; rfl
      | DirtyKid =>
        have hloop : kidsLayoutLoop ui dui (k :: rest) s self pre tr =
            .panic ⟨(ui.Layout k.UI dui s k k.R.Size false).1, self,
              pre ++ (ui.Layout k.UI dui s k k.R.Size false).2 :: rest,
              tr ++ [Ev.kid pre.length
                (Call.Layout k k.R.Size false (ui.Layout k.UI dui s k k.R.Size false).2)]⟩
              "layout of kid results in kid.Layout = DirtKid" := by
          simp [kidsLayoutLoop, hc, hl]
        rw [hloop]
        refine ⟨[_], rfl, ?_, ?_, ?_, ?_, ?_⟩
        · intro i hi
          rw [callsAt_cons_kid, if_neg (by omega)]; rfl
        · intro j kj hj hcj
          cases j with
          | zero =>
            simp only [List.getElem?_cons_zero, Option.some.injEq] at hj
            rw [← hj] at hcj
            exact absurd hcj hc
          | succ j => rw [callsAt_cons_kid, if_neg (by omega)]; rfl
        · intro j kj hj
          cases j with
          | zero =>
            simp only [List.getElem?_cons_zero, Option.some.injEq] at hj
            subst hj
            exact Or.inr ⟨(ui.Layout k.UI dui s k k.R.Size false).2,
              by rw [Nat.add_zero, callsAt_cons_kid, if_pos rfl]; rfl⟩
          | succ j => exact Or.inl (by rw [callsAt_cons_kid, if_neg (by omega)]; rfl)
        · intro hv
          simp [Outcome.val] at hv
        · intro stop hstop
          have hs : stop = .DirtyKid := by
            rcases hstop with h | h
            · simp [Outcome.val] at h
            · exact h.1
          subst hs
          refine ⟨0, k, _, by simp, hc,
            by rw [Nat.add_zero, callsAt_cons_kid, if_pos rfl]; rfl, hl, ?_, ?_⟩
          · intro j2 k2 hlt; omega
          · intro j2 hlt
            rw [callsAt_cons_kid, if_neg (by omega)]; rfl

/-- A function has not returned exactly when it has no value. -/
theorem Outcome.returns_false_iff {σ α : Type} (o : Outcome σ α) :
    o.returns = false ↔ o.val = none := by
  cases o <;> simp [Outcome.returns, Outcome.val]

/-- C11, as stated, fails: a container whose layout marker is DirtyKid with
two Dirty children. The Layout of the first leaves it Dirty, kidsLayout
returns false, and the second child, not Clean on entry, is never called. -/
theorem kidsLayout_stops_at_dirty :
    (demoKid 3 10 0 20 10 .Clean .Dirty).Layout ≠ .Clean ∧
      (kidsLayout demo demoDUI () (demoKid 0 0 0 50 50 .Clean .DirtyKid)
        [demoKid 2 0 0 10 10 .Clean .Dirty, demoKid 3 10 0 20 10 .Clean .Dirty] false).val =
        some false ∧
      callsAt 1 (kidsLayout demo demoDUI () (demoKid 0 0 0 50 50 .Clean .DirtyKid)
        [demoKid 2 0 0 10 10 .Clean .Dirty, demoKid 3 10 0 20 10 .Clean .Dirty]
        false).st.trace = [] := by
  decide

/-- C11, amended. In a kidsLayout call with force = false and self.Layout =
DirtyKid: a child that is Clean on entry is never called; a child is called
at most once, and then it is its Layout with its rectangle's size and
force = false; when kidsLayout returns true, every child that is not Clean
on entry has its one Layout call; when it returns false, there is a child,
not Clean on entry, whose one Layout call left it Dirty, every child before
it that is not Clean on entry has its one Layout call (which left it
Clean), and no child after it is called. -/
theorem kidsLayout_calls {S : Type} (ui : Methods S) (dui : DUI) (s : S) (self : Kid)
    (kids : List Kid) (hself : self.Layout = .DirtyKid) :
    (∀ i k, kids[i]? = some k → k.Layout = .Clean →
      callsAt i (kidsLayout ui dui s self kids false).st.trace = []) ∧
    (∀ i k, kids[i]? = some k →
      callsAt i (kidsLayout ui dui s self kids false).st.trace = [] ∨
      ∃ after, callsAt i (kidsLayout ui dui s self kids false).st.trace =
        [Call.Layout k k.R.Size false after]) ∧
    ((kidsLayout ui dui s self kids false).val = some true →
      ∀ i k, kids[i]? = some k → k.Layout ≠ .Clean →
        ∃ after, callsAt i (kidsLayout ui dui s self kids false).st.trace =
          [Call.Layout k k.R.Size false after] ∧ after.Layout = .Clean) ∧
    ((kidsLayout ui dui s self kids false).val = some false →
      ∃ j kj after, kids[j]? = some kj ∧ kj.Layout ≠ .Clean ∧
        callsAt j (kidsLayout ui dui s self kids false).st.trace =
          [Call.Layout kj kj.R.Size false after] ∧
        after.Layout = .Dirty ∧
        (∀ i k, i < j → kids[i]? = some k → k.Layout ≠ .Clean →
          ∃ after2, callsAt i (kidsLayout ui dui s self kids false).st.trace =
            [Call.Layout k k.R.Size false after2] ∧ after2.Layout = .Clean) ∧
        (∀ i, j < i → callsAt i (kidsLayout ui dui s self kids false).st.trace = [])) := by
  have hloop : kidsLayout ui dui s self kids false = kidsLayoutLoop ui dui kids s self [] [] := by
    simp [kidsLayout, hself]
  rw [hloop]
  obtain ⟨new, htr, _, h2, h3, h4, h5⟩ := kidsLayoutLoop_calls ui dui kids s self [] []
  simp only [List.length_nil, Nat.zero_add, List.nil_append] at htr h2 h3 h4 h5
  rw [htr]
  refine ⟨h2, h3, h4, fun hv => ?_⟩
  exact h5 .Dirty (Or.inl ⟨rfl, hv⟩)

/-- C11, amended, at a concrete input: a container whose layout marker is
DirtyKid with a Clean child, then two Dirty children. The first child is
not called, the second is called once, with its size 10x10 and force =
false, and stays Dirty; the third is not called. -/
theorem kidsLayout_calls_witness :
    (demoKid 0 0 0 50 50 .Clean .DirtyKid).Layout = .DirtyKid ∧
      callsAt 0 (kidsLayout demo demoDUI () (demoKid 0 0 0 50 50 .Clean .DirtyKid)
        [demoKid 2 0 0 10 10 .Clean .Clean, demoKid 3 10 0 20 10 .Clean .Dirty,
          demoKid 5 20 0 30 10 .Clean .Dirty] false).st.trace = [] ∧
      callsAt 1 (kidsLayout demo demoDUI () (demoKid 0 0 0 50 50 .Clean .DirtyKid)
        [demoKid 2 0 0 10 10 .Clean .Clean, demoKid 3 10 0 20 10 .Clean .Dirty,
          demoKid 5 20 0 30 10 .Clean .Dirty] false).st.trace =
        [Call.Layout (demoKid 3 10 0 20 10 .Clean .Dirty) ⟨10, 10⟩ false
          (demoKid 3 0 0 18 19 .Clean .Dirty)] ∧
      callsAt 2 (kidsLayout demo demoDUI () (demoKid 0 0 0 50 50 .Clean .DirtyKid)
        [demoKid 2 0 0 10 10 .Clean .Clean, demoKid 3 10 0 20 10 .Clean .Dirty,
          demoKid 5 20 0 30 10 .Clean .Dirty] false).st.trace = [] :=
  ⟨rfl,
    (kidsLayout_calls demo demoDUI () (demoKid 0 0 0 50 50 .Clean .DirtyKid)
      [demoKid 2 0 0 10 10 .Clean .Clean, demoKid 3 10 0 20 10 .Clean .Dirty,
        demoKid 5 20 0 30 10 .Clean .Dirty] rfl).1 0 (demoKid 2 0 0 10 10 .Clean .Clean)
      rfl rfl,
    by decide, by decide⟩

/-- C12. kidsLayout panics exactly when force is false, self.Layout is
DirtyKid, and there is a child, not Clean on entry, whose Layout call left
its marker DirtyKid, every child before it that was not Clean on entry
having been laid out and left Clean (so none of them ended Dirty); in every
other case it returns. -/
theorem kidsLayout_panics_iff {S : Type} (ui : Methods S) (dui : DUI) (s : S) (self : Kid)
    (kids : List Kid) (force : Bool) :
    (kidsLayout ui dui s self kids force).returns = false ↔
      (force = false ∧ self.Layout = .DirtyKid ∧
        ∃ j kj after, kids[j]? = some kj ∧ kj.Layout ≠ .Clean ∧
          callsAt j (kidsLayout ui dui s self kids force).st.trace =
            [Call.Layout kj kj.R.Size false after] ∧
          after.Layout = .DirtyKid ∧
          ∀ i k, i < j → kids[i]? = some k → k.Layout ≠ .Clean →
            ∃ after2, callsAt i (kidsLayout ui dui s self kids force).st.trace =
              [Call.Layout k k.R.Size false after2] ∧ after2.Layout = .Clean) := by
  constructor
  · intro hret
    cases force with
    | true => simp [kidsLayout, Outcome.returns] at hret
    | false =>
      cases hl : self.Layout with
      | Clean => simp [kidsLayout, hl, Outcome.returns] at hret
      | Dirty => simp [kidsLayout, hl, Outcome.returns] at hret
      | DirtyKid =>
        have hloop : kidsLayout ui dui s self kids false =
            kidsLayoutLoop ui dui kids s self [] [] := by
          simp [kidsLayout, hl]
        rw [hloop] at hret ⊢
        obtain ⟨new, htr, _, _, _, _, h5⟩ := kidsLayoutLoop_calls ui dui kids s self [] []
        simp only [List.length_nil, Nat.zero_add, List.nil_append] at htr h5
        rw [htr]
        obtain ⟨j, kj, after, hj, hcj, hcall, hafter, hbefore, _⟩ :=
          h5 .DirtyKid (Or.inr ⟨rfl, (Outcome.returns_false_iff _).1 hret⟩)
        exact ⟨rfl, rfl, j, kj, after, hj, hcj, hcall, hafter, hbefore⟩
  · rintro ⟨hf, hl, j, kj, after, _, _, hcall, hafter, _⟩
    subst hf
    have hloop : kidsLayout ui dui s self kids false =
        kidsLayoutLoop ui dui kids s self [] [] := by
      simp [kidsLayout, hl]
    rw [hloop] at hcall ⊢
    have hmem : after ∈ layoutResults (kidsLayoutLoop ui dui kids s self [] []).st.trace :=
      mem_layoutResults_of_callsAt j _ kj kj.R.Size false after (by rw [hcall]; simp)
    rw [Outcome.returns_false_iff]
    rcases kidsLayoutLoop_spec ui dui kids s self [] [] (by simp [layoutResults]) with
      h | h | h
    · rw [h.2.2 after hmem] at hafter
      exact absurd hafter (by decide)
    · exact absurd hafter (h.2.2.2 after hmem)
    · exact h.1

/-- C12 at a concrete input: a container whose layout marker is DirtyKid
with a Clean child and a child whose marker is DirtyKid and stays so under
its Layout; kidsLayout panics. A forced call on the same input returns. -/
theorem kidsLayout_panics_iff_witness :
    (kidsLayout demo demoDUI () (demoKid 0 0 0 50 50 .Clean .DirtyKid)
        [demoKid 2 0 0 10 10 .Clean .Clean, demoKid 3 10 0 20 10 .Clean .DirtyKid]
        false).returns = false ∧
      (kidsLayout demo demoDUI () (demoKid 0 0 0 50 50 .Clean .DirtyKid)
        [demoKid 2 0 0 10 10 .Clean .Clean, demoKid 3 10 0 20 10 .Clean .DirtyKid]
        true).returns ≠ false :=
  ⟨(kidsLayout_panics_iff demo demoDUI () (demoKid 0 0 0 50 50 .Clean .DirtyKid)
      [demoKid 2 0 0 10 10 .Clean .Clean, demoKid 3 10 0 20 10 .Clean .DirtyKid] false).2
      ⟨rfl, rfl, 1, demoKid 3 10 0 20 10 .Clean .DirtyKid,
        demoKid 3 0 0 18 19 .Clean .DirtyKid, rfl, by decide, by decide, rfl,
        fun i k hi hk hc => by
          obtain rfl : i = 0 := by omega
          have hk2 : demoKid 2 0 0 10 10 .Clean .Clean = k := by simpa using hk
          subst hk2
          exact absurd rfl hc⟩,
    fun h => absurd ((kidsLayout_panics_iff demo demoDUI ()
      (demoKid 0 0 0 50 50 .Clean .DirtyKid)
      [demoKid 2 0 0 10 10 .Clean .Clean, demoKid 3 10 0 20 10 .Clean .DirtyKid] true).1 h).1
      (by decide)⟩

/-! ## Radiobutton.check -/

/-- The loop of check changes nothing but `Selected`, clears it on the
members visited other than `ui`, and leaves every other radiobutton alone. -/
theorem Radiobutton.checkLoop_spec {V W : Type} (ui : Nat) (group : List Nat)
    (heap : Nat → Radiobutton V W) (a : Nat) :
    (Radiobutton.checkLoop ui group heap a).Selected =
        (if a ∈ group ∧ a ≠ ui then false else (heap a).Selected) ∧
      (Radiobutton.checkLoop ui group heap a).Value = (heap a).Value ∧
      (Radiobutton.checkLoop ui group heap a).Disabled = (heap a).Disabled ∧
      (Radiobutton.checkLoop ui group heap a).Group = (heap a).Group ∧
      (Radiobutton.checkLoop ui group heap a).Changed = (heap a).Changed ∧
      (Radiobutton.checkLoop ui group heap a).m = (heap a).m := by
  induction group generalizing heap with
  | nil => simp [Radiobutton.checkLoop]
  | cons r rest ih =>
    by_cases hr : r = ui
    · simp only [Radiobutton.checkLoop, hr, ne_eq, not_true_eq_false, if_false]
      have h := ih heap
      refine ⟨?_, h.2⟩
      rw [h.1]
      by_cases ha : a = ui <;> simp [ha]
    · simp only [Radiobutton.checkLoop, ne_eq, hr, not_false_eq_true, if_true]
      have h := ih (fun b => if b = r then { heap r with Selected := false } else heap b)
      by_cases har : a = r
      · subst har
        refine ⟨?_, ?_⟩
        · rw [h.1]; simp [hr]
        · simpa using h.2
      · refine ⟨?_, ?_⟩
        · rw [h.1]; simp [har]
        · simpa [har] using h.2

/-- C21. Radiobutton.check on the radiobutton `ui`: afterwards `ui` is
selected and every other member of its group is not; a radiobutton outside
the group other than `ui` keeps its `Selected`, and no other field of any
radiobutton is changed; the `Changed` callbacks invoked are the one of `ui`
alone, once, with the value of `ui`, when it is not nil, and none when it
is nil (so never the one of another member); and when `ui` is a member of
its own group, a member of the group is selected afterwards exactly when it
is `ui`. -/
theorem Radiobutton.check_spec {V W : Type} (heap : Nat → Radiobutton V W) (ui : Nat)
    (r : Result) (w : W) :
    ((Radiobutton.check heap ui r w).heap ui).Selected = true ∧
      (∀ a ∈ (heap ui).Group, a ≠ ui →
        ((Radiobutton.check heap ui r w).heap a).Selected = false) ∧
      (∀ a, a ≠ ui → a ∉ (heap ui).Group →
        ((Radiobutton.check heap ui r w).heap a).Selected = (heap a).Selected) ∧
      (∀ a, ((Radiobutton.check heap ui r w).heap a).Value = (heap a).Value ∧
        ((Radiobutton.check heap ui r w).heap a).Disabled = (heap a).Disabled ∧
        ((Radiobutton.check heap ui r w).heap a).Group = (heap a).Group ∧
        ((Radiobutton.check heap ui r w).heap a).Changed = (heap a).Changed ∧
        ((Radiobutton.check heap ui r w).heap a).m = (heap a).m) ∧
      (∀ changed, (heap ui).Changed = some changed →
        (Radiobutton.check heap ui r w).invoked = [(ui, (heap ui).Value)] ∧
        (Radiobutton.check heap ui r w).r = (changed (heap ui).Value r w).1 ∧
        (Radiobutton.check heap ui r w).w = (changed (heap ui).Value r w).2) ∧
      ((heap ui).Changed = none →
        (Radiobutton.check heap ui r w).invoked = [] ∧
        (Radiobutton.check heap ui r w).r = r ∧ (Radiobutton.check heap ui r w).w = w) ∧
      (ui ∈ (heap ui).Group → ∀ a ∈ (heap ui).Group,
        (((Radiobutton.check heap ui r w).heap a).Selected = true ↔ a = ui)) := by
  have hloop := Radiobutton.checkLoop_spec ui (heap ui).Group
    (fun a => if a = ui then { heap ui with Selected := true } else heap a)
  have hheap : (Radiobutton.check heap ui r w).heap =
      Radiobutton.checkLoop ui (heap ui).Group
        (fun a => if a = ui then { heap ui with Selected := true } else heap a) := by
    unfold Radiobutton.check
    simp only [if_true]
    split <;> rfl
  have hch : (Radiobutton.checkLoop ui (heap ui).Group
      (fun a => if a = ui then { heap ui with Selected := true } else heap a) ui).Changed =
      (heap ui).Changed := by
    rw [(hloop ui).2.2.2.2.1]; simp
  have hval : (Radiobutton.checkLoop ui (heap ui).Group
      (fun a => if a = ui then { heap ui with Selected := true } else heap a) ui).Value =
      (heap ui).Value := by
    rw [(hloop ui).2.1]; simp
  have hsel : ∀ a, ((Radiobutton.check heap ui r w).heap a).Selected =
      (if a ∈ (heap ui).Group ∧ a ≠ ui then false
        else if a = ui then true else (heap a).Selected) := by
    intro a
    rw [hheap, (hloop a).1]
    by_cases ha : a = ui <;> simp [ha]
  refine ⟨?_, ?_, ?_, ?_, ?_, ?_, ?_⟩
  · rw [hsel]; simp
  · intro a ha hne
    rw [hsel]; simp [ha, hne]
  · intro a hne hnot
    rw [hsel]; simp [hnot, hne]
  · intro a
    rw [hheap]
    have h := (hloop a).2
    by_cases ha : a = ui
    · subst ha; simpa using h
    · simpa [ha] using h
  · intro changed hc
    unfold Radiobutton.check
    simp only [if_true]
    rw [hch.trans hc]
    simp only [hval]
    exact ⟨trivial, trivial, trivial⟩
  · intro hc
    unfold Radiobutton.check
    simp only [if_true]
    rw [hch.trans hc]
    exact ⟨rfl, rfl, rfl⟩
  · intro _ a ha
    rw [hsel]
    by_cases hau : a = ui <;> simp [ha, hau]

/-- C21 at a concrete input: the group of three with the second selected,
and check on the third. Afterwards only the third is selected, and the one
callback invoked is the third's, with its value 30. -/
theorem Radiobutton.check_spec_witness :
    3 ∈ (demoRadios 3).Group ∧
      (∀ a ∈ (demoRadios 3).Group,
        (((Radiobutton.check demoRadios 3 {} 0).heap a).Selected = true ↔ a = 3)) ∧
      (Radiobutton.check demoRadios 3 {} 0).invoked = [(3, 30)] ∧
      (Radiobutton.check demoRadios 3 {} 0).w = 1 :=
  ⟨by decide,
    (Radiobutton.check_spec demoRadios 3 {} 0).2.2.2.2.2.2 (by decide),
    by decide, by decide⟩

/-! ## Field: cursor0 and selection0 -/

/-- What fixCursor leaves behind: the text as it was, the cursor and the
start of the selection clamped into `0 .. len(Text)+1`, each unchanged when
it was there already. -/
theorem Field.fixCursor_spec (ui : Field) :
    ui.fixCursor.Text = ui.Text ∧
      0 ≤ ui.fixCursor.Cursor1 ∧ ui.fixCursor.Cursor1 ≤ (ui.Text.length : Int) + 1 ∧
      0 ≤ ui.fixCursor.SelectionStart1 ∧
      ui.fixCursor.SelectionStart1 ≤ (ui.Text.length : Int) + 1 ∧
      (0 ≤ ui.Cursor1 → ui.Cursor1 ≤ (ui.Text.length : Int) + 1 →
        ui.fixCursor.Cursor1 = ui.Cursor1) ∧
      (0 ≤ ui.SelectionStart1 → ui.SelectionStart1 ≤ (ui.Text.length : Int) + 1 →
        ui.fixCursor.SelectionStart1 = ui.SelectionStart1) ∧
      (0 < ui.SelectionStart1 → 0 < ui.fixCursor.SelectionStart1) := by
  obtain ⟨t, c, ss⟩ := ui
  simp only [Field.fixCursor]
  split_ifs <;> dsimp only at * <;> refine ⟨rfl, ?_, ?_, ?_, ?_, ?_, ?_, ?_⟩ <;>
    (intros; omega)

/-- The Field that cursor0 leaves behind is the one fixCursor gives. -/
theorem Field.cursor0_state (ui : Field) : ui.cursor0.2 = ui.fixCursor := by
  unfold Field.cursor0
  simp only []
  split_ifs <;> rfl

/-- The index cursor0 returns, from the cursor that fixCursor gives. -/
theorem Field.cursor0_value (ui : Field) :
    ui.cursor0.1 =
      if ui.fixCursor.Cursor1 = 0 then (ui.Text.length : Int) else ui.fixCursor.Cursor1 - 1 := by
  have ht := ui.fixCursor_spec.1
  unfold Field.cursor0
  simp only []
  split_ifs <;> simp [ht]

/-- C22. For every Field (any Text, any Cursor1 and SelectionStart1):
cursor0 returns an index between 0 and len(Text), which is len(Text) when
Cursor1 is 0 and Cursor1-1 when 1 <= Cursor1 <= len(Text)+1, and leaves
Text as it was and Cursor1 and SelectionStart1 between 0 and len(Text)+1;
selection0 does not panic and returns (s, e, text) with
0 <= s <= e <= len(Text) and text = Text[s:e], a slice within range. -/
theorem Field.cursor0_selection0_spec (ui : Field) :
    (0 ≤ ui.cursor0.1 ∧ ui.cursor0.1 ≤ (ui.Text.length : Int)) ∧
      (ui.Cursor1 = 0 → ui.cursor0.1 = (ui.Text.length : Int)) ∧
      (1 ≤ ui.Cursor1 → ui.Cursor1 ≤ (ui.Text.length : Int) + 1 →
        ui.cursor0.1 = ui.Cursor1 - 1) ∧
      (ui.cursor0.2.Text = ui.Text ∧
        0 ≤ ui.cursor0.2.Cursor1 ∧ ui.cursor0.2.Cursor1 ≤ (ui.Text.length : Int) + 1 ∧
        0 ≤ ui.cursor0.2.SelectionStart1 ∧
        ui.cursor0.2.SelectionStart1 ≤ (ui.Text.length : Int) + 1) ∧
      (∃ s e text ui2, ui.selection0 = some ((s, e, text), ui2) ∧
        0 ≤ s ∧ s ≤ e ∧ e ≤ (ui.Text.length : Int) ∧ goSlice ui.Text s e = some text ∧
        ui2.Text = ui.Text) := by
  obtain ⟨ht, hc0, hc1, hs0, hs1, hckeep, _, hspos⟩ := ui.fixCursor_spec
  have hval := ui.cursor0_value
  have hst := ui.cursor0_state
  have hcv : 0 ≤ ui.cursor0.1 ∧ ui.cursor0.1 ≤ (ui.Text.length : Int) := by
    rw [hval]
    split_ifs <;> omega
  refine ⟨hcv, ?_, ?_, ?_, ?_⟩
  · intro h0
    have hk := hckeep (by omega) (by omega)
    rw [hval, if_pos (by rw [hk]; exact h0)]
  · intro h1 h2
    have hk := hckeep (by omega) h2
    rw [hval, if_neg (by rw [hk]; omega), hk]
  · rw [hst]
    exact ⟨ht, hc0, hc1, hs0, hs1⟩
  · by_cases hs : ui.SelectionStart1 ≤ 0
    · refine ⟨0, 0, [], ui, by simp [Field.selection0, hs], le_refl _, le_refl _, by omega,
        by simp [goSlice], rfl⟩
    · have hp := hspos (by omega)
      have htext : ui.cursor0.2.Text = ui.Text := by rw [hst]; exact ht
      obtain ⟨S, hS⟩ : ∃ S, S = (if ui.cursor0.1 > ui.cursor0.2.SelectionStart1 - 1 then
          ui.cursor0.2.SelectionStart1 - 1 else ui.cursor0.1) := ⟨_, rfl⟩
      obtain ⟨E, hE⟩ : ∃ E, E = (if ui.cursor0.1 > ui.cursor0.2.SelectionStart1 - 1 then
          ui.cursor0.1 else ui.cursor0.2.SelectionStart1 - 1) := ⟨_, rfl⟩
      have hb : 0 ≤ S ∧ S ≤ E ∧ E ≤ (ui.Text.length : Int) := by
        rw [hS, hE, hst]
        split_ifs <;> omega
      have hsel : ui.selection0 =
          some ((S, E, (ui.Text.drop S.toNat).take (E.toNat - S.toNat)), ui.cursor0.2) := by
        simp only [Field.selection0, hs, if_false, ← hS, ← hE, goSlice, htext, if_pos hb]
      exact ⟨S, E, _, _, hsel, hb.1, hb.2.1, hb.2.2, by simp only [goSlice, if_pos hb], htext⟩

/-- C22 at a concrete input: the text "hello" (5 bytes), the cursor at 9,
beyond the end, and the start of the selection at 2. cursor0 returns 5, and
selection0 returns the bytes 1 to 5, "ello". -/
theorem Field.cursor0_selection0_spec_witness :
    (Field.mk [104, 101, 108, 108, 111] 9 2).cursor0.1 = 5 ∧
      (Field.mk [104, 101, 108, 108, 111] 9 2).selection0 =
        some ((1, 5, [101, 108, 108, 111]), Field.mk [104, 101, 108, 108, 111] 6 2) ∧
      (0 ≤ (Field.mk [104, 101, 108, 108, 111] 9 2).cursor0.1 ∧
        (Field.mk [104, 101, 108, 108, 111] 9 2).cursor0.1 ≤
          ((Field.mk [104, 101, 108, 108, 111] 9 2).Text.length : Int)) :=
  ⟨by decide, by decide,
    (Field.cursor0_selection0_spec (Field.mk [104, 101, 108, 108, 111] 9 2)).1⟩

/-! ## expandSelection -/

/-- An index within range gives a byte. -/
theorem goIndex_ok (t : List Nat) (k : Int) (h0 : 0 ≤ k) (h1 : k < (t.length : Int)) :
    ∃ c, goIndex t k = some c := by
  have hk : k.toNat < t.length := by omega
  exact ⟨t[k.toNat], by simp [goIndex, h0, List.getElem?_eq_getElem hk]⟩

/-- A slice within range gives a string. -/
theorem goSlice_ok (t : List Nat) (s e : Int) (h0 : 0 ≤ s) (h1 : s ≤ e)
    (h2 : e ≤ (t.length : Int)) : ∃ sl, goSlice t s e = some sl :=
  ⟨(t.drop s.toNat).take (e.toNat - s.toNat),
    by simp only [goSlice, if_pos (And.intro h0 (And.intro h1 h2))]⟩

/-- An index that IndexByte found is within the string. -/
theorem IndexByte_range (s : List Nat) (c : Nat) (h : IndexByte s c ≥ 0) :
    0 ≤ IndexByte s c ∧ IndexByte s c < (s.length : Int) := by
  unfold IndexByte at h ⊢
  by_cases hc : c ∈ s
  · rw [if_pos hc]
    have := List.indexOf_lt_length.2 hc
    omega
  · rw [if_neg hc] at h
    omega

/-- The forward loop, with fuel for every byte up to the end, returns
`(i, e2)` with `e2` between `i` and the length. -/
theorem expandFwd_ok (t : List Nat) (i : Int) (up down : Nat) (hi : 0 ≤ i) :
    ∀ (fuel : Nat) (e nested : Int), i ≤ e → e ≤ (t.length : Int) →
      (t.length : Int) - e < (fuel : Int) →
      ∃ e2, expandFwd t i up down fuel e nested = .ok (i, e2) ∧ i ≤ e2 ∧
        e2 ≤ (t.length : Int) := by
  intro fuel
  induction fuel with
  | zero => intro e nested _ he hf; omega
  | succ fuel ih =>
    intro e nested hie he hf
    rw [expandFwd]
    by_cases hn : e ≥ (t.length : Int)
    · rw [if_pos hn]
      exact ⟨i, rfl, le_refl _, by omega⟩
    · rw [if_neg hn]
      obtain ⟨c, hc⟩ := goIndex_ok t e (by omega) (by omega)
      rw [hc]
      simp only []
      generalize (if c = down then nested - 1 else if c = up then nested + 1 else nested) = n1
      by_cases hz : n1 = 0
      · rw [if_pos hz]
        exact ⟨e, rfl, hie, he⟩
      · rw [if_neg hz]
        exact ih (e + 1) _ (by omega) (by omega) (by omega)

/-- The backward loop, with fuel for every byte down to the start, returns
`(s2, i)` with `s2` between 0 and `i`. -/
theorem expandBwd_ok (t : List Nat) (i : Int) (up down : Nat) (hi : i ≤ (t.length : Int)) :
    ∀ (fuel : Nat) (s nested : Int), 0 ≤ s → s < i → s < (fuel : Int) →
      ∃ s2, expandBwd t i up down fuel s nested = .ok (s2, i) ∧ 0 ≤ s2 ∧ s2 ≤ i := by
  intro fuel
  induction fuel with
  | zero => intro s nested hs _ hf; omega
  | succ fuel ih =>
    intro s nested hs hsi hf
    rw [expandBwd]
    by_cases h0 : s = 0
    · rw [if_pos h0]
      exact ⟨i, rfl, by omega, le_refl _⟩
    · rw [if_neg h0]
      obtain ⟨c, hc⟩ := goIndex_ok t s hs (by omega)
      rw [hc]
      simp only []
      generalize (if c = down then nested - 1 else if c = up then nested + 1 else nested) = n1
      by_cases hz : n1 = 0
      · rw [if_pos hz]
        exact ⟨s, rfl, hs, by omega⟩
      · rw [if_neg hz]
        exact ih (s - 1) _ (by omega) (by omega) (by omega)

/-- The loop to the left, with fuel for every byte down to the start,
returns an index between 0 and where it started. -/
theorem expandLeft_ok (t : List Nat) (skip : Bool → Bool) :
    ∀ (fuel : Nat) (s : Int), 0 ≤ s → s ≤ (t.length : Int) → s < (fuel : Int) →
      ∃ s2, expandLeft t skip fuel s = .ok s2 ∧ 0 ≤ s2 ∧ s2 ≤ s := by
  intro fuel
  induction fuel with
  | zero => intro s hs _ hf; omega
  | succ fuel ih =>
    intro s hs hl hf
    rw [expandLeft]
    by_cases h0 : s > 0
    · rw [if_pos h0]
      obtain ⟨sl, hsl⟩ := goSlice_ok t (s - 1) s (by omega) (by omega) hl
      rw [hsl]
      simp only []
      split_ifs
      · obtain ⟨s2, h1, h2, h3⟩ := ih (s - 1) (by omega) (by omega) (by omega)
        exact ⟨s2, h1, h2, by omega⟩
      · exact ⟨s, rfl, hs, le_refl _⟩
    · rw [if_neg h0]
      exact ⟨s, rfl, hs, le_refl _⟩

/-- The loop to the right, with fuel for every byte up to the end, returns
an index between where it started and the length. -/
theorem expandRight_ok (t : List Nat) (skip : Bool → Bool) :
    ∀ (fuel : Nat) (e : Int), 0 ≤ e → e ≤ (t.length : Int) →
      (t.length : Int) - e < (fuel : Int) →
      ∃ e2, expandRight t skip fuel e = .ok e2 ∧ e ≤ e2 ∧ e2 ≤ (t.length : Int) := by
  intro fuel
  induction fuel with
  | zero => intro e _ he hf; omega
  | succ fuel ih =>
    intro e he hl hf
    rw [expandRight]
    by_cases h0 : e < (t.length : Int)
    · rw [if_pos h0]
      obtain ⟨sl, hsl⟩ := goSlice_ok t e (e + 1) he (by omega) (by omega)
      rw [hsl]
      simp only []
      split_ifs
      · obtain ⟨e2, h1, h2, h3⟩ := ih (e + 1) (by omega) (by omega) (by omega)
        exact ⟨e2, h1, by omega, h3⟩
      · exact ⟨e, rfl, le_refl _, hl⟩
    · rw [if_neg h0]
      exact ⟨e, rfl, le_refl _, hl⟩

/-- The word part returns `(s, e)` with `0 <= s <= i <= e <= len(t)` for an
index strictly inside the string and fuel for every byte. -/
theorem expandWord_ok (fuel : Nat) (t : List Nat) (i : Int) (h0 : 0 < i)
    (h1 : i < (t.length : Int)) (hf : (t.length : Int) < (fuel : Int)) :
    ∃ s e, expandWord fuel t i = .ok (s, e) ∧ 0 ≤ s ∧ s ≤ i ∧ i ≤ e ∧
      e ≤ (t.length : Int) := by
  unfold expandWord
  obtain ⟨sl, hsl⟩ := goSlice_ok t (i - 1) i (by omega) (by omega) (by omega)
  obtain ⟨sr, hsr⟩ := goSlice_ok t i (i + 1) (by omega) (by omega) (by omega)
  rw [hsl]
  simp only [hsr]
  have key : ∀ skip : Bool → Bool, ∃ s e,
      (match expandLeft t skip fuel i with
        | .panic msg => Run.panic msg
        | .outOfFuel => Run.outOfFuel
        | .ok s =>
          match expandRight t skip fuel i with
          | .panic msg => Run.panic msg
          | .outOfFuel => Run.outOfFuel
          | .ok e => Run.ok (s, e)) = Run.ok (s, e) ∧ 0 ≤ s ∧ s ≤ i ∧ i ≤ e ∧
        e ≤ (t.length : Int) := by
    intro skip
    obtain ⟨s2, hl1, hl2, hl3⟩ := expandLeft_ok t skip fuel i (by omega) (by omega) (by omega)
    obtain ⟨e2, hr1, hr2, hr3⟩ := expandRight_ok t skip fuel i (by omega) (by omega) (by omega)
    exact ⟨s2, e2, by rw [hl1, hr1], hl2, hl3, hr2, hr3⟩
  by_cases hc : ContainsAny sl Space = true
  · simp only [hc, if_true]
    exact key _
  · simp only [hc, Bool.false_eq_true, if_false]
    exact key _

/-- C24. For every string `t` and index `i` with `0 <= i <= len(t)`,
expandSelection, with fuel for every byte of `t`, ends with a value (no
index or slice out of range, no loop without end): a pair `(s, e)` with
`0 <= s <= i <= e <= len(t)`; and it returns `(0, len(t))` when `i` is 0 or
`len(t)`. -/
theorem expandSelection_spec (fuel : Nat) (t : List Nat) (i : Int) (h0 : 0 ≤ i)
    (h1 : i ≤ (t.length : Int)) (hf : t.length < fuel) :
    (∃ s e, expandSelection fuel t i = .ok (s, e) ∧ 0 ≤ s ∧ s ≤ i ∧ i ≤ e ∧
      e ≤ (t.length : Int)) ∧
    (i = 0 ∨ i = (t.length : Int) → expandSelection fuel t i = .ok (0, (t.length : Int))) := by
  have hfi : (t.length : Int) < (fuel : Int) := by exact_mod_cast hf
  constructor
  · unfold expandSelection
    by_cases hends : i = 0 ∨ i = (t.length : Int)
    · rw [if_pos hends]
      exact ⟨0, _, rfl, le_refl _, h0, h1, le_refl _⟩
    · rw [if_neg hends]
      have hi0 : 0 < i := by
        rcases lt_or_eq_of_le h0 with h | h
        · exact h
        · exact absurd (Or.inl h.symm) hends
      have hil : i < (t.length : Int) := by
        rcases lt_or_eq_of_le h1 with h | h
        · exact h
        · exact absurd (Or.inr h) hends
      obtain ⟨b1, hb1⟩ := goIndex_ok t (i - 1) (by omega) (by omega)
      obtain ⟨b2, hb2⟩ := goIndex_ok t i h0 hil
      rw [hb1]
      simp only []
      by_cases hidx : IndexByte Starts b1 ≥ 0
      · rw [if_pos hidx]
        have hr := IndexByte_range Starts b1 hidx
        obtain ⟨up, hup⟩ := goIndex_ok Starts _ hr.1 hr.2
        obtain ⟨down, hdown⟩ := goIndex_ok Ends _ hr.1 hr.2
        rw [hup, hdown]
        obtain ⟨e2, he1, he2, he3⟩ := expandFwd_ok t i up down h0 fuel i 1 (le_refl _) h1
          (by omega)
        exact ⟨i, e2, he1, h0, le_refl _, he2, he3⟩
      · rw [if_neg hidx, hb2]
        simp only []
        by_cases hidx2 : IndexByte Ends b2 ≥ 0
        · rw [if_pos hidx2]
          have hr := IndexByte_range Ends b2 hidx2
          obtain ⟨up, hup⟩ := goIndex_ok Ends _ hr.1 hr.2
          obtain ⟨down, hdown⟩ := goIndex_ok Starts _ hr.1 hr.2
          rw [hup, hdown]
          obtain ⟨s2, hs1, hs2, hs3⟩ := expandBwd_ok t i up down h1 fuel (i - 1) 1 (by omega)
            (by omega) (by omega)
          exact ⟨s2, i, hs1, hs2, hs3, le_refl _, h1⟩
        · rw [if_neg hidx2]
          exact expandWord_ok fuel t i hi0 hil hfi
  · intro hends
    unfold expandSelection
    rw [if_pos hends]

/-- C24 at a concrete input: the 21 bytes of "say (hello world) now" and the
index 5, right after the opening bracket, with fuel 22. The result is
(5, 16), up to the closing bracket. -/
theorem expandSelection_spec_witness :
    (0 : Int) ≤ 5 ∧ (5 : Int) ≤ (demoText.length : Int) ∧ demoText.length < 22 ∧
      expandSelection 22 demoText 5 = .ok (5, 16) ∧
      (∃ s e, expandSelection 22 demoText 5 = .ok (s, e) ∧ 0 ≤ s ∧ s ≤ 5 ∧ 5 ≤ e ∧
        e ≤ (demoText.length : Int)) :=
  ⟨by decide, by decide, by decide, by decide,
    (expandSelection_spec 22 demoText 5 (by decide) (by decide) (by decide)).1⟩

/-! ## Label.Layout: the wrapped lines -/

/-- An int within the range of a Go `int` is not changed by wrapping. -/
theorem wrapInt_of_range (x : Int) (h0 : -(2 ^ 63) ≤ x) (h1 : x < 2 ^ 63) : wrapInt x = x := by
  unfold wrapInt
  omega

/-- A wrapped int is within the range of a Go `int`. -/
theorem wrapInt_range (x : Int) : -(2 ^ 63) ≤ wrapInt x ∧ wrapInt x < 2 ^ 63 := by
  unfold wrapInt
  omega

/-- The larger of two ints, by cases. -/
theorem maximum_eq (a b : Int) : maximum a b = max a b := by
  unfold maximum
  split_ifs <;> omega

/-- The widths of runes that are not negative add up to a sum that is not
negative. -/
theorem widths_nonneg (font : Font) (hw : ∀ c, 0 ≤ font.runeWidth c) (l : List Char) :
    0 ≤ (l.map font.runeWidth).sum :=
  List.sum_nonneg (by
    intro x hx
    obtain ⟨c, _, rfl⟩ := List.mem_map.1 hx
    exact hw c)

/-- The slice of the text from the start of the line being made to the
next rune is that line. -/
theorem LabelInv.extract_cur {text : String} {font : Font} {avail : Int}
    {before cur todo : List Char} {i : Nat} {v : LabelVars}
    (h : LabelInv text font avail before cur todo i v) :
    text.extract ⟨v.s⟩ ⟨i⟩ = ⟨cur⟩ := by
  have ht : text = ⟨before ++ cur ++ todo⟩ := by rw [← h.text_eq]
  rw [h.s_eq, h.i_eq, ht]
  exact String.extract_of_valid before cur todo

/-- Closing the line being made: the lines with it appended cover
`before ++ cur`, keep the bound on their widths, and the larger of `xmax`
and the width of the line is their largest width or 0. -/
theorem LabelInv.push {text : String} {font : Font} {avail : Int}
    {before cur todo : List Char} {i : Nat} {v : LabelVars}
    (h : LabelInv text font avail before cur todo i v) (hw : ∀ c, 0 ≤ font.runeWidth c) :
    ((v.lines ++ [(⟨cur⟩ : String)]).map String.data).flatten =
        (before ++ cur).filter (fun c => decide (c ≠ Char.ofNat 10)) ∧
      (∀ l ∈ v.lines ++ [(⟨cur⟩ : String)], 1 < l.length → font.lineWidth l ≤ avail) ∧
      (∀ l ∈ v.lines ++ [(⟨cur⟩ : String)], font.lineWidth l ≤ maximum v.xmax v.x) ∧
      0 ≤ maximum v.xmax v.x ∧
      (maximum v.xmax v.x = 0 ∨
        ∃ l ∈ v.lines ++ [(⟨cur⟩ : String)], font.lineWidth l = maximum v.xmax v.x) ∧
      maximum v.xmax v.x ≤ (text.data.map font.runeWidth).sum := by
  have hcur : cur.filter (fun c => decide (c ≠ Char.ofNat 10)) = cur := by
    rw [List.filter_eq_self]
    intro c hc
    simpa using h.no_nl c hc
  have hwid : font.lineWidth ⟨cur⟩ = v.x := by
    rw [h.x_eq]; rfl
  have hmax := maximum_eq v.xmax v.x
  have hnn := h.xmax_nonneg
  have hxle : v.x ≤ (text.data.map font.runeWidth).sum := by
    rw [h.text_eq, h.x_eq]
    simp only [List.map_append, List.sum_append]
    have h1 := widths_nonneg font hw before
    have h2 := widths_nonneg font hw todo
    omega
  have hle := h.xmax_le
  refine ⟨?_, ?_, ?_, ?_, ?_, by omega⟩
  · rw [List.map_append, List.flatten_append, h.cat, List.filter_append, hcur]
    simp
  · intro l hl hlen
    rcases List.mem_append.1 hl with hl | hl
    · exact h.bound l hl hlen
    · rw [List.mem_singleton.1 hl] at hlen ⊢
      rw [hwid, h.x_eq]
      exact h.cur_bound hlen
  · intro l hl
    rcases List.mem_append.1 hl with hl | hl
    · have := h.xmax_ge l hl
      omega
    · rw [List.mem_singleton.1 hl, hwid]
      omega
  · omega
  · by_cases hx : v.x ≤ v.xmax
    · rcases h.xmax_attained with h0 | ⟨l, hl, hlw⟩
      · left; omega
      · right
        exact ⟨l, List.mem_append_left _ hl, by omega⟩
    · right
      exact ⟨⟨cur⟩, List.mem_append_right _ (List.mem_singleton.2 rfl), by omega⟩

/-- The state of the loop of Label.Layout is kept by every step, for widths
that are not negative and add up within the range of an int: at the end of
the loop it holds with nothing left to read. -/
theorem Label.layoutLoop_inv (text : String) (font : Font) (sizeAvail : Point)
    (hw : ∀ c, 0 ≤ font.runeWidth c)
    (hsum : (text.data.map font.runeWidth).sum < 2 ^ 63) :
    ∀ (todo before cur : List Char) (i : Nat) (v : LabelVars),
      LabelInv text font sizeAvail.X before cur todo i v →
      ∃ before2 cur2, LabelInv text font sizeAvail.X before2 cur2 []
        (String.utf8Len before2 + String.utf8Len cur2)
        (Label.layoutLoop text font sizeAvail todo i v) := by
  intro todo
  induction todo with
  | nil =>
    intro before cur i v h
    refine ⟨before, cur, ?_⟩
    rw [← h.i_eq]
    exact h
  | cons c todo ih =>
    intro before cur i v h
    have hext := h.extract_cur
    obtain ⟨pcat, pbound, pge, pnn, patt, ple⟩ := h.push hw
    have hx0 : 0 ≤ v.x := by rw [h.x_eq]; exact widths_nonneg font hw cur
    have htot : v.x + font.runeWidth c ≤ (text.data.map font.runeWidth).sum := by
      rw [h.text_eq, h.x_eq]
      simp only [List.map_append, List.sum_append, List.map_cons, List.sum_cons]
      have h1 := widths_nonneg font hw before
      have h2 := widths_nonneg font hw todo
      omega
    have hc0 := hw c
    rw [Label.layoutLoop]
    by_cases hc : c = Char.ofNat 10
    · rw [if_pos hc, hext]
      refine ih (before ++ cur ++ [c]) [] _ _ ?_
      have hsz : c.utf8Size = 1 := by rw [hc]; decide
      exact
        { text_eq := by rw [h.text_eq]; simp
          i_eq := by rw [h.i_eq]; simp only [String.utf8Len_append, String.utf8Len_cons, String.utf8Len_nil]; omega
          s_eq := by
            show i + 1 = String.utf8Len (before ++ cur ++ [c])
            rw [h.i_eq]
            simp only [String.utf8Len_append, String.utf8Len_cons, String.utf8Len_nil, hsz,
              Nat.zero_add]
          no_nl := by intro x hx; simp at hx
          x_eq := by simp
          cat := by
            show ((v.lines ++ [(⟨cur⟩ : String)]).map String.data).flatten = _
            rw [pcat, List.filter_append (before ++ cur) [c]]
            simp [hc]
          bound := pbound
          cur_bound := by intro hl; simp at hl
          xmax_ge := pge
          xmax_nonneg := pnn
          xmax_attained := patt
          xmax_le := ple
          lines_ne := by intro _; simp }
    · rw [if_neg hc]
      simp only []
      have hwrap : wrapInt (v.x + font.StringWidth (String.singleton c)) =
          v.x + font.runeWidth c :=
        wrapInt_of_range _ (by show -(2 ^ 63) ≤ v.x + font.runeWidth c; omega)
          (by show v.x + font.runeWidth c < 2 ^ 63; omega)
      rw [hwrap]
      by_cases hcond : (i : Int) - (v.s : Int) = 0 ∨ v.x + font.runeWidth c ≤ sizeAvail.X
      · rw [if_pos hcond]
        refine ih before (cur ++ [c]) _ _ ?_
        exact
          { text_eq := by rw [h.text_eq]; simp
            i_eq := by rw [h.i_eq]; simp only [String.utf8Len_append, String.utf8Len_cons, String.utf8Len_nil]; omega
            s_eq := h.s_eq
            no_nl := by
              intro x hx
              rcases List.mem_append.1 hx with hx | hx
              · exact h.no_nl x hx
              · rw [List.mem_singleton.1 hx]; exact hc
            x_eq := by
              show v.x + font.runeWidth c = _
              rw [h.x_eq]; simp
            cat := h.cat
            bound := h.bound
            cur_bound := by
              intro hl
              rcases hcond with hz | hle
              · have hcur : String.utf8Len cur = 0 := by
                  have h1 := h.i_eq
                  have h2 := h.s_eq
                  omega
                rw [String.utf8Len_eq_zero.1 hcur] at hl
                simp at hl
              · have : ((cur ++ [c]).map font.runeWidth).sum = v.x + font.runeWidth c := by
                  rw [h.x_eq]; simp
                rw [this]; exact hle
            xmax_ge := h.xmax_ge
            xmax_nonneg := h.xmax_nonneg
            xmax_attained := h.xmax_attained
            xmax_le := h.xmax_le
            lines_ne := h.lines_ne }
      · rw [if_neg hcond, hext]
        have hback : wrapInt (v.x + font.runeWidth c - font.StringWidth (String.singleton c)) =
            v.x := by
          have : v.x + font.runeWidth c - font.StringWidth (String.singleton c) = v.x := by
            show v.x + font.runeWidth c - font.runeWidth c = v.x
            omega
          rw [this]
          exact wrapInt_of_range _ (by omega) (by omega)
        rw [hback]
        refine ih (before ++ cur) [c] _ _ ?_
        exact
          { text_eq := by rw [h.text_eq]; simp
            i_eq := by rw [h.i_eq]; simp only [String.utf8Len_append, String.utf8Len_cons, String.utf8Len_nil]; omega
            s_eq := by
              show i = String.utf8Len (before ++ cur)
              rw [h.i_eq, String.utf8Len_append]
            no_nl := by
              intro x hx
              rw [List.mem_singleton.1 hx]; exact hc
            x_eq := by
              show font.StringWidth (String.singleton c) = _
              simp [Font.runeWidth]
            cat := pcat
            bound := pbound
            cur_bound := by intro hl; simp at hl
            xmax_ge := pge
            xmax_nonneg := pnn
            xmax_attained := patt
            xmax_le := ple
            lines_ne := by intro _; simp }

/-- What Label.Layout leaves behind, for widths that are not negative and
add up within the range of an int: the lines, and the rectangle
`rect(xmax, len(lines)*font.Height)`, where the lines joined are the text
without its newlines, a line of more than one rune is not wider than the
available width, and `xmax` is the largest width of a line. -/
theorem Label.Layout_lines (ui : Label) (font : Font) (self : Kid) (sizeAvail : Point)
    (force : Bool) (hw : ∀ c, 0 ≤ font.runeWidth c)
    (hsum : (ui.Text.data.map font.runeWidth).sum < 2 ^ 63) :
    ∃ (lines : List String) (xmax : Int),
      (Label.Layout ui font self sizeAvail force).1.lines = lines ∧
      (Label.Layout ui font self sizeAvail force).2.R =
        rect ⟨xmax, wrapInt ((lines.length : Int) * font.Height)⟩ ∧
      (lines.map String.data).flatten =
        ui.Text.data.filter (fun c => decide (c ≠ Char.ofNat 10)) ∧
      (∀ l ∈ lines, 1 < l.length → font.lineWidth l ≤ sizeAvail.X) ∧
      (∀ l ∈ lines, font.lineWidth l ≤ xmax) ∧
      (∃ l ∈ lines, font.lineWidth l = xmax) ∧
      0 ≤ xmax ∧ xmax < 2 ^ 63 := by
  have h0 : LabelInv ui.Text font sizeAvail.X [] [] ui.Text.data 0 ⟨[], 0, 0, 0⟩ :=
    { text_eq := by simp
      i_eq := by simp
      s_eq := by simp
      no_nl := by intro c hc; simp at hc
      x_eq := by simp
      cat := by simp
      bound := by intro l hl; simp at hl
      cur_bound := by intro hl; simp at hl
      xmax_ge := by intro l hl; simp at hl
      xmax_nonneg := le_refl _
      xmax_attained := Or.inl rfl
      xmax_le := widths_nonneg font hw _
      lines_ne := by intro hb; exact absurd rfl hb }
  obtain ⟨before, cur, h⟩ := Label.layoutLoop_inv ui.Text font sizeAvail hw hsum _ _ _ _ _ h0
  have hbs : ui.Text.utf8ByteSize = String.utf8Len before + String.utf8Len cur := by
    have hmk : ui.Text.utf8ByteSize = String.utf8Len ui.Text.data := rfl
    rw [hmk, h.text_eq]
    simp only [String.utf8Len_append, String.utf8Len_nil, Nat.add_zero]
  have hdata : ui.Text.data = before ++ cur := by rw [h.text_eq]; simp
  obtain ⟨pcat, pbound, pge, pnn, patt, ple⟩ := h.push hw
  have hattain : ∀ (lines : List String) (xmax : Int), lines ≠ [] →
      (∀ l ∈ lines, font.lineWidth l ≤ xmax) →
      (xmax = 0 ∨ ∃ l ∈ lines, font.lineWidth l = xmax) →
      ∃ l ∈ lines, font.lineWidth l = xmax := by
    intro lines xmax hne hge hatt
    rcases hatt with hz | hex
    · obtain ⟨l, hl⟩ := List.exists_mem_of_ne_nil lines hne
      have h1 := hge l hl
      have h2 : 0 ≤ font.lineWidth l := widths_nonneg font hw l.data
      exact ⟨l, hl, by omega⟩
    · exact hex
  by_cases hcond : (Label.layoutLoop ui.Text font sizeAvail ui.Text.data 0 ⟨[], 0, 0, 0⟩).s <
      ui.Text.utf8ByteSize ∨
      (Label.layoutLoop ui.Text font sizeAvail ui.Text.data 0 ⟨[], 0, 0, 0⟩).s = 0
  · have hext : ui.Text.extract
        ⟨(Label.layoutLoop ui.Text font sizeAvail ui.Text.data 0 ⟨[], 0, 0, 0⟩).s⟩
        ⟨ui.Text.utf8ByteSize⟩ = ⟨cur⟩ := by
      rw [hbs]; exact h.extract_cur
    refine ⟨_, _, ?_, ?_, ?_, pbound, pge, hattain _ _ (by simp) pge patt, pnn, by omega⟩
    · simp only [Label.Layout, if_pos hcond, hext]
    · simp only [Label.Layout, if_pos hcond, hext]
    · rw [pcat, hdata]
  · have hs : ¬ (String.utf8Len before < String.utf8Len before + String.utf8Len cur) ∧
        String.utf8Len before ≠ 0 := by
      rw [h.s_eq, hbs] at hcond
      exact ⟨fun hlt => hcond (Or.inl hlt), fun hz => hcond (Or.inr hz)⟩
    have hcur : cur = [] := String.utf8Len_eq_zero.1 (by omega)
    have hbef : before ≠ [] := fun hb => hs.2 (by rw [hb]; rfl)
    refine ⟨_, _, ?_, ?_, ?_, h.bound, h.xmax_ge,
      hattain _ _ (h.lines_ne hbef) h.xmax_ge h.xmax_attained, h.xmax_nonneg, ?_⟩
    · simp only [Label.Layout, if_neg hcond]
    · simp only [Label.Layout, if_neg hcond]
    · rw [h.cat, hdata, hcur]; simp
    · have := h.xmax_le
      omega

/-- C23. For every Label text, every available width and every font whose
rune widths are not negative and add up, over the text, within the range of
an int: after Label.Layout the lines joined in order are the text without
its newlines; every line of more than one rune is not wider than the
available width; and the size of the Kid's rectangle is the largest width
of a line by the number of lines times the font height (Go's `*`, which is
the product when that fits an int). -/
theorem Label.Layout_wraps (ui : Label) (font : Font) (self : Kid) (sizeAvail : Point)
    (force : Bool) (hw : ∀ c, 0 ≤ font.runeWidth c)
    (hsum : (ui.Text.data.map font.runeWidth).sum < 2 ^ 63) :
    ((Label.Layout ui font self sizeAvail force).1.lines.map String.data).flatten =
        ui.Text.data.filter (fun c => decide (c ≠ Char.ofNat 10)) ∧
      (∀ l ∈ (Label.Layout ui font self sizeAvail force).1.lines, 1 < l.length →
        font.lineWidth l ≤ sizeAvail.X) ∧
      (∀ l ∈ (Label.Layout ui font self sizeAvail force).1.lines,
        font.lineWidth l ≤ (Label.Layout ui font self sizeAvail force).2.R.Size.X) ∧
      (∃ l ∈ (Label.Layout ui font self sizeAvail force).1.lines,
        font.lineWidth l = (Label.Layout ui font self sizeAvail force).2.R.Size.X) ∧
      (Label.Layout ui font self sizeAvail force).2.R.Size.Y =
        wrapInt (((Label.Layout ui font self sizeAvail force).1.lines.length : Int) *
          font.Height) ∧
      (-(2 ^ 63) ≤ ((Label.Layout ui font self sizeAvail force).1.lines.length : Int) *
          font.Height →
        ((Label.Layout ui font self sizeAvail force).1.lines.length : Int) * font.Height <
          2 ^ 63 →
        (Label.Layout ui font self sizeAvail force).2.R.Size.Y =
          ((Label.Layout ui font self sizeAvail force).1.lines.length : Int) * font.Height) := by
  obtain ⟨lines, xmax, hl, hr, hcat, hbound, hge, hatt, h0, h1⟩ :=
    Label.Layout_lines ui font self sizeAvail force hw hsum
  have hX : (Label.Layout ui font self sizeAvail force).2.R.Size.X = xmax := by
    rw [hr]
    show wrapInt (xmax - 0) = xmax
    rw [Int.sub_zero]
    exact wrapInt_of_range _ (by omega) h1
  have hY : (Label.Layout ui font self sizeAvail force).2.R.Size.Y =
      wrapInt ((lines.length : Int) * font.Height) := by
    rw [hr]
    show wrapInt (wrapInt ((lines.length : Int) * font.Height) - 0) = _
    rw [Int.sub_zero]
    have hrange := wrapInt_range ((lines.length : Int) * font.Height)
    exact wrapInt_of_range _ hrange.1 hrange.2
  rw [hl, hX, hY]
  exact ⟨hcat, hbound, hge, hatt, rfl, fun ha hb => wrapInt_of_range _ ha hb⟩

/-- C23 at a concrete input: the text "hello wor", newline, "ld!", every
rune 7 wide, lines 10 high, 30 available. The lines are "hell", "o wo", "r"
and "ld!", none wider than 30, and the rectangle is 28 by 40. -/
theorem Label.Layout_wraps_witness :
    (∀ c, 0 ≤ demoFont.runeWidth c) ∧
      (demoLabelText.data.map demoFont.runeWidth).sum < 2 ^ 63 ∧
      (Label.Layout ⟨demoLabelText, [], ZP⟩ demoFont (demoKid 1 5 5 6 6 .Clean .Dirty) ⟨30, 100⟩
        false).1.lines = ["hell", "o wo", "r", "ld!"] ∧
      (Label.Layout ⟨demoLabelText, [], ZP⟩ demoFont (demoKid 1 5 5 6 6 .Clean .Dirty) ⟨30, 100⟩
        false).2.R.Size = ⟨28, 40⟩ ∧
      (∀ l ∈ (Label.Layout ⟨demoLabelText, [], ZP⟩ demoFont (demoKid 1 5 5 6 6 .Clean .Dirty)
        ⟨30, 100⟩ false).1.lines, 1 < l.length → demoFont.lineWidth l ≤ 30) :=
  ⟨fun c => by simp [Font.runeWidth, demoFont], by decide, by decide, by decide,
    (Label.Layout_wraps ⟨demoLabelText, [], ZP⟩ demoFont (demoKid 1 5 5 6 6 .Clean .Dirty)
      ⟨30, 100⟩ false (fun c => by simp [Font.runeWidth, demoFont]) (by decide)).2.1⟩

end Duit
